import Mathlib

/-!
# HelenOS file-system glue and FAT directory-entry codec

A shallow embedding of `uspace/srv/fs/fat/fat_dentry.c` and of the lookup
engine of `uspace/lib/fs/libfs.c`, with the properties of these functions
stated and proved over the embedding.

Conventions of the embedding:

* a byte (`uint8_t`, `char`) is a `Nat`; results stored into a byte are
  reduced modulo 256 explicitly;
* a C array or buffer is a function `Nat → Nat` from index to byte, a store
  `a[i] = v` is `Function.update a i v`;
* a NUL-terminated C string is a `List Nat`; reading past its end yields the
  terminator 0, and a 0 inside the list terminates the string as in C;
* `unsigned` arithmetic is reduced modulo `2 ^ 32` explicitly.
-/

namespace HelenOS

/-! ## Character classes (libc `ctype.h`) -/

/-- Modelled from the spec: `islower` of the libc header `ctype.h`, which is
not among the sources; the ASCII range `a`..`z`. -/
def islower (c : Nat) : Bool := decide (97 ≤ c) && decide (c ≤ 122)

/-- Modelled from the spec: `isupper` of `ctype.h` (not among the sources);
the ASCII range `A`..`Z`. -/
def isupper (c : Nat) : Bool := decide (65 ≤ c) && decide (c ≤ 90)

/-- Modelled from the spec: `isalpha` of `ctype.h` (not among the sources). -/
def isalpha (c : Nat) : Bool := islower c || isupper c

/-- Modelled from the spec: `isdigit` of `ctype.h` (not among the sources);
the ASCII range `0`..`9`. -/
def isdigit (c : Nat) : Bool := decide (48 ≤ c) && decide (c ≤ 57)

/-- Modelled from the spec: `isalnum` of `ctype.h` (not among the sources). -/
def isalnum (c : Nat) : Bool := isalpha c || isdigit c

/-- Modelled from the spec: `tolower` of `ctype.h` (not among the sources);
upper-case ASCII letters are moved to lower case, every other value is
returned as it is. -/
def tolower (c : Nat) : Nat := if isupper c then c + 32 else c

/-- Modelled from the spec: `toupper` of `ctype.h` (not among the sources);
lower-case ASCII letters are moved to upper case, every other value is
returned as it is. -/
def toupper (c : Nat) : Nat := if islower c then c - 32 else c

/-! ## Constants of `fat_dentry.h` and `errno.h` -/

/-- Modelled from the spec: `FAT_NAME_LEN` of `fat_dentry.h`, which is not
among the sources (spec §4.6: name portion of 8 bytes). -/
def FAT_NAME_LEN : Nat := 8

/-- Modelled from the spec: `FAT_EXT_LEN` of `fat_dentry.h` (spec §4.6:
extension of 3 bytes). -/
def FAT_EXT_LEN : Nat := 3

/-- Modelled from the spec: `FAT_PAD` of `fat_dentry.h` (spec §4.6: space,
0x20). -/
def FAT_PAD : Nat := 0x20

/-- Modelled from the spec: `FAT_DENTRY_E5_ESC` of `fat_dentry.h` (spec §4.6:
0x05). -/
def FAT_DENTRY_E5_ESC : Nat := 0x05

/-- Modelled from the spec: `FAT_DENTRY_ERASED` of `fat_dentry.h` (spec §4.6:
`name[0] == 0xE5`). -/
def FAT_DENTRY_ERASED : Nat := 0xe5

/-- Modelled from the spec: `FAT_DENTRY_UNUSED` of `fat_dentry.h` (spec §4.6:
`name[0] == 0x00`). -/
def FAT_DENTRY_UNUSED : Nat := 0x00

/-- Modelled from the spec: `FAT_DENTRY_DOT` of `fat_dentry.h` (spec §4.6:
`name[0] == '.'`). -/
def FAT_DENTRY_DOT : Nat := 0x2e

/-- Modelled from the spec: `FAT_ATTR_VOLLABEL` of `fat_dentry.h`, the
volume-label bit of the attribute byte (bit 3 in the FAT format). -/
def FAT_ATTR_VOLLABEL : Nat := 0x08

/-- Modelled from the spec: `FAT_ATTR_LFN` of `fat_dentry.h`, the attribute
value 0x0F that marks a long-file-name entry. -/
def FAT_ATTR_LFN : Nat := 0x0f

/-- Modelled from the spec: `FAT_LFN_ERASED` of `fat_dentry.h`, the erased
flag 0x80 of a long-file-name entry. -/
def FAT_LFN_ERASED : Nat := 0x80

/-- Modelled from the spec: `FAT_LCASE_LOWER_NAME` of `fat_dentry.h`, the bit
of `lcase` saying that the base name is in lower case. -/
def FAT_LCASE_LOWER_NAME : Nat := 0x08

/-- Modelled from the spec: `FAT_LCASE_LOWER_EXT` of `fat_dentry.h`, the bit
of `lcase` saying that the extension is in lower case. -/
def FAT_LCASE_LOWER_EXT : Nat := 0x10

/-- Modelled from the spec: the error codes of `errno.h`, which is not among
the sources. Success is 0 and every error is a distinct negative number. -/
def EOK : Int := 0

/-- Modelled from the spec: `ENOENT` of `errno.h` (not among the sources). -/
def ENOENT : Int := -1

/-- Modelled from the spec: `EINVAL` of `errno.h` (not among the sources). -/
def EINVAL : Int := -14

/-- Modelled from the spec: `EOVERFLOW` of `errno.h` (not among the sources). -/
def EOVERFLOW : Int := -16

/-- Modelled from the spec: `ENAMETOOLONG` of `errno.h` (not among the
sources). -/
def ENAMETOOLONG : Int := -256

/-- Modelled from the spec: `EISDIR` of `errno.h` (not among the sources). -/
def EISDIR : Int := -257

/-- Modelled from the spec: `ENOTDIR` of `errno.h` (not among the sources). -/
def ENOTDIR : Int := -258

/-- Modelled from the spec: `ENOSPC` of `errno.h` (not among the sources). -/
def ENOSPC : Int := -259

/-- Modelled from the spec: `EEXIST` of `errno.h` (not among the sources). -/
def EEXIST : Int := -260

/-- Modelled from the spec: `ERANGE` of `errno.h` (not among the sources). -/
def ERANGE : Int := -263

/-! ## The FAT directory entry -/

/-- Modelled from the spec: `fat_dentry_t` of `fat_dentry.h`, which is not
among the sources. A directory entry is a record of 32 bytes (spec §3, §6);
`raw i` is the byte at offset `i`. The short-name view has `name` at 0..7,
`ext` at 8..10, `attr` at 11 and `lcase` at 12; the long-file-name view
overlays the same bytes with the sequence byte at 0, slice 1 at 1..10,
`attr` at 11, slice 2 at 14..25 and slice 3 at 28..31. -/
structure fat_dentry_t where
  raw : Nat → Nat

/-- The field `d->name[i]`. -/
def fat_dentry_t.name (d : fat_dentry_t) (i : Nat) : Nat := d.raw i

/-- The field `d->ext[i]`. -/
def fat_dentry_t.ext (d : fat_dentry_t) (i : Nat) : Nat := d.raw (8 + i)

/-- The field `d->attr`. -/
def fat_dentry_t.attr (d : fat_dentry_t) : Nat := d.raw 11

/-- The field `d->lcase`. -/
def fat_dentry_t.lcase (d : fat_dentry_t) : Nat := d.raw 12

/-- The sequence byte `d->lfn.order` of the long-file-name view (`FAT_LFN_ORDER`),
which shares offset 0 with `name[0]`. -/
def FAT_LFN_ORDER (d : fat_dentry_t) : Nat := d.raw 0

/-- The store `d->name[i] = v`. -/
def fat_dentry_t.set_name (d : fat_dentry_t) (i v : Nat) : fat_dentry_t :=
  ⟨Function.update d.raw i v⟩

/-- The store `d->ext[i] = v`. -/
def fat_dentry_t.set_ext (d : fat_dentry_t) (i v : Nat) : fat_dentry_t :=
  ⟨Function.update d.raw (8 + i) v⟩

/-- The store `d->lcase = v`. -/
def fat_dentry_t.set_lcase (d : fat_dentry_t) (v : Nat) : fat_dentry_t :=
  ⟨Function.update d.raw 12 v⟩

/-- A directory entry is well formed when each of its 32 bytes is a byte. -/
def fat_dentry_t.wf (d : fat_dentry_t) : Prop := ∀ i, i < 32 → d.raw i < 256

/-- The directory entry with the given 32 bytes (bytes beyond the list are 0). -/
def fat_dentry_t.ofList (l : List Nat) : fat_dentry_t := ⟨fun i => l.getD i 0⟩

/-! ## `fat_classify_dentry` -/

/-- The classification `fat_dentry_clsf_t` of a directory entry. -/
inductive fat_dentry_clsf_t where
  | FAT_DENTRY_SKIP
  | FAT_DENTRY_LAST
  | FAT_DENTRY_FREE
  | FAT_DENTRY_VALID
  | FAT_DENTRY_LFN
  deriving DecidableEq, Repr

open fat_dentry_clsf_t

/-- The function `fat_classify_dentry` of `fat_dentry.c`. -/
def fat_classify_dentry (d : fat_dentry_t) : fat_dentry_clsf_t :=
  if d.attr = FAT_ATTR_LFN then
    -- long name entry
    if d.attr &&& FAT_LFN_ERASED ≠ 0 then FAT_DENTRY_FREE else FAT_DENTRY_LFN
  else if d.attr &&& FAT_ATTR_VOLLABEL ≠ 0 then
    -- volume label entry
    FAT_DENTRY_SKIP
  else if d.name 0 = FAT_DENTRY_ERASED then
    -- not-currently-used entry
    FAT_DENTRY_FREE
  else if d.name 0 = FAT_DENTRY_UNUSED then
    -- never used entry
    FAT_DENTRY_LAST
  else if d.name 0 = FAT_DENTRY_DOT then
    FAT_DENTRY_SKIP
  else
    FAT_DENTRY_VALID

/-! ## `fat_dentry_chksum` -/

/-- One iteration of the loop of `fat_dentry_chksum`:
`sum = ((sum & 1) ? 0x80 : 0) + (sum >> 1) + name[i]`, stored into the
`uint8_t` variable `sum`. -/
def fat_dentry_chksum_step (sum b : Nat) : Nat :=
  ((if sum &&& 1 ≠ 0 then 0x80 else 0) + (sum >>> 1) + b) % 256

/-- The loop of `fat_dentry_chksum`, with `cnt` iterations left and the
counter at `i`. -/
def fat_dentry_chksum_loop (name : Nat → Nat) : Nat → Nat → Nat → Nat
  | 0, _, sum => sum
  | cnt + 1, i, sum =>
    fat_dentry_chksum_loop name cnt (i + 1) (fat_dentry_chksum_step sum (name i))

/-- The function `fat_dentry_chksum` of `fat_dentry.c`: the loop runs for
`i = 0 .. FAT_NAME_LEN + FAT_EXT_LEN - 1`. -/
def fat_dentry_chksum (name : Nat → Nat) : Nat :=
  fat_dentry_chksum_loop name (FAT_NAME_LEN + FAT_EXT_LEN) 0 0

/-- The rotation of an 8-bit value right by one bit, as the specification
words it. -/
def rotate_right8 (s : Nat) : Nat := (s % 256) / 2 + (s % 2) * 128

/-- The checksum as the specification words it: starting from 0, for each
byte in order rotate the accumulator right by one bit and add the byte
modulo 256. -/
def chksum_spec (bytes : List Nat) : Nat :=
  bytes.foldl (fun acc b => (rotate_right8 acc + b) % 256) 0

/-! ## C strings (libc `str.h`) -/

/-- The C string held by a list of bytes: the bytes before the first NUL. -/
def cstr (s : List Nat) : List Nat := s.takeWhile (fun c => c ≠ 0)

/-- Modelled from the spec: `str_size` of the libc `str.c`, which is not among
the sources; the number of bytes of a string before its terminator. -/
def str_size (s : List Nat) : Nat := (cstr s).length

/-- Modelled from the spec: `str_chr` of the libc `str.c` (not among the
sources); whether the character `ch` occurs in the string (the C function
returns a pointer to the occurrence, or NULL). -/
def str_chr (s : List Nat) (ch : Nat) : Bool := (cstr s).contains ch

/-- Modelled from the spec: `stricmp` of the libc `str.c` (not among the
sources), the case-insensitive string comparison: the strings are walked
while both have a character and the characters agree after `tolower`; the
result is the difference of the two characters (after `tolower`) at the
place where the walk stops. -/
def stricmp : List Nat → List Nat → Int
  | a :: as, b :: bs =>
    if a ≠ 0 ∧ b ≠ 0 ∧ tolower a = tolower b then stricmp as bs
    else (tolower a : Int) - (tolower b : Int)
  | a :: _, [] => (tolower a : Int) - (tolower 0 : Int)
  | [], b :: _ => (tolower 0 : Int) - (tolower b : Int)
  | [], [] => (tolower 0 : Int) - (tolower 0 : Int)

/-! ## `is_d_char`, `fat_dentry_namecmp`, `fat_dentry_name_verify` -/

/-- The function `is_d_char` of `fat_dentry.c`. -/
def is_d_char (ch : Nat) : Bool :=
  if isalnum ch || decide (ch = 95) then true else false

/-- The function `fat_dentry_namecmp` of `fat_dentry.c`. The buffer `name` is
a string with room for one more character; when it holds no dot the function
stores a dot and a terminator behind it and compares again. -/
def fat_dentry_namecmp (name component : List Nat) : Int :=
  let rc := stricmp name component
  if rc = 0 then rc
  else if !str_chr name 46 then
    let size := str_size name
    -- name[size] = '.'; name[size + 1] = '\0';
    stricmp (name.take size ++ [46]) component
  else rc

/-- The loop of `fat_dentry_name_verify`: `none` when the loop returns false,
otherwise the values of `i`, `dot` and `dot_found` when the terminator is
reached. -/
def fat_dentry_name_verify_loop : List Nat → Nat → Nat → Bool → Option (Nat × Nat × Bool)
  | [], i, dot, dot_found => some (i, dot, dot_found)
  | c :: rest, i, dot, dot_found =>
    if c = 0 then some (i, dot, dot_found)
    else if c = 46 then
      if dot_found then none
      else fat_dentry_name_verify_loop rest (i + 1) i true
    else if !is_d_char c then none
    else fat_dentry_name_verify_loop rest (i + 1) dot dot_found

/-- The function `fat_dentry_name_verify` of `fat_dentry.c`. -/
def fat_dentry_name_verify (name : List Nat) : Bool :=
  match fat_dentry_name_verify_loop name 0 0 false with
  | none => false
  | some (i, dot, dot_found) =>
    if dot_found then
      if dot > FAT_NAME_LEN then false
      else if i - dot > FAT_EXT_LEN + 1 then false
      else true
    else
      if i > FAT_NAME_LEN then false else true

/-! ## `fat_dentry_name_get` -/

/-- The first loop of `fat_dentry_name_get` (over `d->name`), with `cnt`
iterations left and the counter at `i`; `buf` is the list of the bytes
written to the output so far. -/
def fat_dentry_name_get_name (d : fat_dentry_t) : Nat → Nat → List Nat → List Nat
  | 0, _, buf => buf
  | cnt + 1, i, buf =>
    if d.name i = FAT_PAD then buf
    else if d.name i = FAT_DENTRY_E5_ESC then
      fat_dentry_name_get_name d cnt (i + 1) (buf ++ [0xe5])
    else if d.lcase &&& FAT_LCASE_LOWER_NAME ≠ 0 then
      fat_dentry_name_get_name d cnt (i + 1) (buf ++ [tolower (d.name i)])
    else
      fat_dentry_name_get_name d cnt (i + 1) (buf ++ [d.name i])

/-- The second loop of `fat_dentry_name_get` (over `d->ext`). -/
def fat_dentry_name_get_ext (d : fat_dentry_t) : Nat → Nat → List Nat → List Nat
  | 0, _, buf => buf
  | cnt + 1, i, buf =>
    if d.ext i = FAT_PAD then buf
    else if d.ext i = FAT_DENTRY_E5_ESC then
      fat_dentry_name_get_ext d cnt (i + 1) (buf ++ [0xe5])
    else if d.lcase &&& FAT_LCASE_LOWER_EXT ≠ 0 then
      fat_dentry_name_get_ext d cnt (i + 1) (buf ++ [tolower (d.ext i)])
    else
      fat_dentry_name_get_ext d cnt (i + 1) (buf ++ [d.ext i])

/-- The function `fat_dentry_name_get` of `fat_dentry.c`. The result is the
list of the bytes written to `buf` before the final terminator. -/
def fat_dentry_name_get (d : fat_dentry_t) : List Nat :=
  let buf := fat_dentry_name_get_name d FAT_NAME_LEN 0 []
  let buf := if d.ext 0 ≠ FAT_PAD then buf ++ [46] else buf
  fat_dentry_name_get_ext d FAT_EXT_LEN 0 buf

/-! ## `fat_dentry_name_set` -/

/-- The character `*name` of a string pointer. -/
def deref (name : List Nat) : Nat := name.headD 0

/-- The first loop of `fat_dentry_name_set` (over `d->name`), with `cnt`
iterations left and the counter at `i`; the state is the entry, the string
pointer `name` and the flag `lower_name`. -/
def fat_dentry_name_set_name : Nat → Nat → fat_dentry_t → List Nat → Bool →
    fat_dentry_t × List Nat × Bool
  | 0, _, d, name, lower_name => (d, name, lower_name)
  | cnt + 1, i, d, name, lower_name =>
    if deref name = 0xe5 then
      fat_dentry_name_set_name cnt (i + 1) (d.set_name i FAT_DENTRY_E5_ESC) name.tail lower_name
    else if deref name = 0 ∨ deref name = 46 then
      fat_dentry_name_set_name cnt (i + 1) (d.set_name i FAT_PAD) name lower_name
    else
      fat_dentry_name_set_name cnt (i + 1) (d.set_name i (toupper (deref name) % 256)) name.tail
        (if isalpha (deref name) && !islower (deref name) then false else lower_name)

/-- The second loop of `fat_dentry_name_set` (over `d->ext`). -/
def fat_dentry_name_set_ext : Nat → Nat → fat_dentry_t → List Nat → Bool →
    fat_dentry_t × List Nat × Bool
  | 0, _, d, name, lower_ext => (d, name, lower_ext)
  | cnt + 1, i, d, name, lower_ext =>
    if deref name = 0xe5 then
      fat_dentry_name_set_ext cnt (i + 1) (d.set_ext i FAT_DENTRY_E5_ESC) name.tail lower_ext
    else if deref name = 0 then
      fat_dentry_name_set_ext cnt (i + 1) (d.set_ext i FAT_PAD) name lower_ext
    else
      fat_dentry_name_set_ext cnt (i + 1) (d.set_ext i (toupper (deref name) % 256)) name.tail
        (if isalpha (deref name) && !islower (deref name) then false else lower_ext)

/-- The function `fat_dentry_name_set` of `fat_dentry.c`. -/
def fat_dentry_name_set (d : fat_dentry_t) (name : List Nat) : fat_dentry_t :=
  let fake_ext : List Nat := [32, 32, 32]
  let r1 := fat_dentry_name_set_name FAT_NAME_LEN 0 d name true
  -- if (*name++ != '.') name = fake_ext;
  let name1 := if deref r1.2.1 ≠ 46 then fake_ext else r1.2.1.tail
  let r2 := fat_dentry_name_set_ext FAT_EXT_LEN 0 r1.1 name1 true
  let d2 := r2.1
  -- d->lcase |= FLAG when the part is in lower case, d->lcase &= ~FLAG otherwise,
  -- on the byte lcase
  let d3 :=
    if r1.2.2 then d2.set_lcase (d2.lcase ||| FAT_LCASE_LOWER_NAME)
    else d2.set_lcase (d2.lcase &&& (255 - FAT_LCASE_LOWER_NAME))
  if r2.2.2 then d3.set_lcase (d3.lcase ||| FAT_LCASE_LOWER_EXT)
  else d3.set_lcase (d3.lcase &&& (255 - FAT_LCASE_LOWER_EXT))

/-! ## `fat_lfn_convert_name` -/

/-- The loop of `fat_lfn_convert_name`, with `cnt` iterations left and the
counter at `i`. The libc function `chr_encode`, which is not among the
sources, is a parameter: `chr_encode ch str offset size` returns the error
code, the buffer and the offset it leaves. The result is the return value and
the destination buffer. -/
def fat_lfn_convert_name_loop (chr_encode : Nat → (Nat → Nat) → Nat → Nat → Int × (Nat → Nat) × Nat)
    (src : Nat → Nat) (dst_size : Nat) : Nat → Nat → (Nat → Nat) → Nat → Int × (Nat → Nat)
  | 0, _, dst, offset => (EOK, Function.update dst offset 0)
  | cnt + 1, i, dst, offset =>
    if src (i + 1) = 0x00 then
      if offset + 1 < dst_size then
        fat_lfn_convert_name_loop chr_encode src dst_size cnt (i + 2)
          (Function.update dst offset (src i)) (offset + 1)
      else (EOVERFLOW, dst)
    else
      let c := ((src i <<< 8) ||| src (i + 1)) % 2 ^ 16
      let r := chr_encode c dst offset dst_size
      if r.1 ≠ EOK then (r.1, r.2.1)
      else fat_lfn_convert_name_loop chr_encode src dst_size cnt (i + 2) r.2.1 r.2.2

/-- The function `fat_lfn_convert_name` of `fat_dentry.c`: the loop
`for (i = 0; i < src_size; i += 2)` runs `(src_size + 1) / 2` times. -/
def fat_lfn_convert_name (chr_encode : Nat → (Nat → Nat) → Nat → Nat → Int × (Nat → Nat) × Nat)
    (src : Nat → Nat) (src_size : Nat) (dst : Nat → Nat) (dst_size : Nat) : Int × (Nat → Nat) :=
  fat_lfn_convert_name_loop chr_encode src dst_size ((src_size + 1) / 2) 0 dst 0

/-- The array holding the bytes of a list (0 beyond its end). -/
def bytes (l : List Nat) : Nat → Nat := fun i => l.getD i 0

/-- A stand-in for `chr_encode` that makes the code point it is handed
observable: it stores the code point itself at the offset and advances the
offset by one. -/
def chr_encode_probe (ch : Nat) (str : Nat → Nat) (offset _size : Nat) :
    Int × (Nat → Nat) × Nat :=
  (EOK, Function.update str offset ch, offset + 1)

/-! ## The canonical form of an 8.3 name -/

/-- The case rule of the name codec for one part of a name (base name or
extension): a part without an upper-case letter is left as it is, any other
part is moved to upper case as a whole. -/
def canonical_part (p : List Nat) : List Nat :=
  if p.any isupper then p.map toupper else p

/-- The canonical form of a name as the specification words it: the part
before the dot and the part after it are treated independently by the case
rule, and the name keeps its shape. -/
def canonical (n : List Nat) : List Nat :=
  match n.dropWhile (fun c => c ≠ 46) with
  | [] => canonical_part (n.takeWhile (fun c => c ≠ 46))
  | _ :: ext => canonical_part (n.takeWhile (fun c => c ≠ 46)) ++ 46 :: canonical_part ext

/-- The canonical form of a name as the codec realises it: the case rule on
both parts, and the dot is kept only in front of a non-empty extension. -/
def canonical_stored (n : List Nat) : List Nat :=
  match n.dropWhile (fun c => c ≠ 46) with
  | [] => canonical_part (n.takeWhile (fun c => c ≠ 46))
  | _ :: ext =>
    canonical_part (n.takeWhile (fun c => c ≠ 46)) ++
      (if ext = [] then [] else 46 :: canonical_part ext)

/-! ## The lookup engine of `libfs.c` -/

/-- Modelled from the spec: the lookup flag `L_FILE` of `vfs.h`, which is not
among the sources (spec §6; only the distinctness of the bits matters). -/
def L_FILE : Nat := 1

/-- Modelled from the spec: the lookup flag `L_DIRECTORY` of `vfs.h`. -/
def L_DIRECTORY : Nat := 2

/-- Modelled from the spec: the lookup flag `L_OPEN` of `vfs.h`. -/
def L_OPEN : Nat := 4

/-- Modelled from the spec: the lookup flag `L_CREATE` of `vfs.h`. -/
def L_CREATE : Nat := 8

/-- Modelled from the spec: the lookup flag `L_EXCLUSIVE` of `vfs.h`. -/
def L_EXCLUSIVE : Nat := 16

/-- Modelled from the spec: the lookup flag `L_UNLINK` of `vfs.h`. -/
def L_UNLINK : Nat := 32

/-- Modelled from the spec: the lookup flag `L_MP` of `vfs.h`. -/
def L_MP : Nat := 64

/-- The macro `LOWER32`. -/
def LOWER32 (x : Nat) : Nat := x % 2 ^ 32

/-- The macro `UPPER32`. -/
def UPPER32 (x : Nat) : Nat := (x / 2 ^ 32) % 2 ^ 32

/-- Modelled from the spec: the mount-point record `mp_data_t` of `libfs.h`,
which is not among the sources (spec §3); a session is a handle, 0 for NULL. -/
structure mp_data_t where
  mp_active : Bool
  sess : Nat
  fs_handle : Nat
  service_id : Nat
  deriving DecidableEq

/-- Modelled from the spec: the node `fs_node_t` of `libfs.h` (spec §3): the
mount-point record and the backend's own data, here the identity of the
object. A pointer to a node is an `Option fs_node_t`, `none` for NULL. -/
structure fs_node_t where
  mp_data : mp_data_t
  data : Nat
  deriving DecidableEq

/-- Modelled from the spec: the backend operations `libfs_ops_t` of `libfs.h`
(spec §4.1), over a backend state `σ`. An operation that returns a node
through a pointer returns the error code, the node pointer and the new state;
the other operations return the error code and the new state; the queries
read the state. -/
structure libfs_ops_t (σ : Type) where
  root_get : σ → Nat → Int × Option fs_node_t × σ
  node_get : σ → Nat → Nat → Int × Option fs_node_t × σ
  node_put : σ → fs_node_t → Int × σ
  node_open : σ → fs_node_t → Int × σ
  match_ : σ → fs_node_t → List Nat → Int × Option fs_node_t × σ
  create : σ → Nat → Nat → Int × Option fs_node_t × σ
  destroy : σ → fs_node_t → Int × σ
  link : σ → Option fs_node_t → fs_node_t → List Nat → Int × σ
  unlink : σ → fs_node_t → fs_node_t → List Nat → Int × σ
  index_get : σ → fs_node_t → Nat
  size_get : σ → fs_node_t → Nat
  lnkcnt_get : σ → fs_node_t → Nat
  is_directory : σ → fs_node_t → Bool
  is_file : σ → fs_node_t → Bool

/-- The request `ipc_call_t`: the five arguments read by `IPC_GET_ARG1` to
`IPC_GET_ARG5`. -/
structure ipc_call_t where
  arg1 : Nat
  arg2 : Nat
  arg3 : Nat
  arg4 : Nat
  arg5 : Nat

/-- Modelled from the spec: the constants `PLB_SIZE` and `NAME_MAX` of headers
that are not among the sources, taken as parameters, and the read-only path
lookup buffer `reg.plb_ro`. -/
structure fs_reg_t where
  PLB_SIZE : Nat
  NAME_MAX : Nat
  plb_ro : Nat → Nat

/-- What `libfs_lookup` does to the outside: the calls of backend operations
that change references or state (with their results), the answers and
forwards on the request, a failed assertion, and the exhaustion of the bound
of the walk. -/
inductive event_t where
  | root_get (service_id : Nat) (rc : Int) (res : Option fs_node_t)
  | node_get (service_id index : Nat) (rc : Int) (res : Option fs_node_t)
  | match_ (parent : fs_node_t) (component : List Nat) (rc : Int) (res : Option fs_node_t)
  | create (service_id lflag : Nat) (rc : Int) (res : Option fs_node_t)
  | node_put (n : fs_node_t) (rc : Int)
  | node_open (n : fs_node_t) (rc : Int)
  | destroy (n : fs_node_t) (rc : Int)
  | link (par : Option fs_node_t) (cur : fs_node_t) (component : List Nat) (rc : Int)
  | unlink (par cur : fs_node_t) (component : List Nat) (rc : Int)
  | answer_0 (rc : Int)
  | answer_5 (retval arg1 arg2 arg3 arg4 arg5 : Nat)
  | forward_lookup (sess arg1 arg2 arg3 arg4 arg5 : Nat)
  | assert_fail
  | unfinished
  deriving DecidableEq

/-- The function `plb_get_char` of `libfs.c`. -/
def plb_get_char (reg : fs_reg_t) (pos : Nat) : Nat := reg.plb_ro (pos % reg.PLB_SIZE)

/-- The loop of `plb_get_component`, with `cnt` iterations left. The result is
the error code, the bytes stored to `dest` by this call, `*sz` and `*ppos`;
`sz0` and `ppos0` are the values the caller's variables keep when the loop
ends without storing them. -/
def plb_get_component_loop (reg : fs_reg_t) (sz0 ppos0 last : Nat) :
    Nat → Nat → Nat → List Nat → Int × List Nat × Nat × Nat
  | 0, _, _, dest => (ENAMETOOLONG, dest, sz0, ppos0)
  | cnt + 1, pos, size, dest =>
    if pos = last ∨ plb_get_char reg pos = 47 then (EOK, dest ++ [0], size, pos)
    else
      plb_get_component_loop reg sz0 ppos0 last cnt ((pos + 1) % 2 ^ 32) (size + 1)
        (dest ++ [plb_get_char reg pos])

/-- The function `plb_get_component` of `libfs.c`. The arguments `dest`, `sz`
and `ppos` are the caller's values before the call; the result is the error
code and the values after the call (for `dest`, the bytes stored by this call,
or the old value when nothing is stored). -/
def plb_get_component (reg : fs_reg_t) (dest : List Nat) (sz ppos last : Nat) :
    Int × List Nat × Nat × Nat :=
  if ppos = last then (ERANGE, dest, 0, ppos)
  else
    plb_get_component_loop reg sz ppos last (reg.NAME_MAX + 1)
      (if plb_get_char reg ppos = 47 then (ppos + 1) % 2 ^ 32 else ppos) 0 []

/-- The statement `if (n) (void) ops->node_put(n);` of the cleanup of
`libfs_lookup`. -/
def libfs_lookup_put {σ : Type} (ops : libfs_ops_t σ) (s : σ) :
    Option fs_node_t → List event_t × σ
  | none => ([], s)
  | some n => ([event_t.node_put n (ops.node_put s n).1], (ops.node_put s n).2)

/-- The code of `libfs_lookup` behind the label `out`. -/
def libfs_lookup_out {σ : Type} (ops : libfs_ops_t σ) (s : σ)
    (par cur tmp : Option fs_node_t) : List event_t :=
  (libfs_lookup_put ops s par).1 ++
    ((libfs_lookup_put ops (libfs_lookup_put ops s par).2 cur).1 ++
      (libfs_lookup_put ops (libfs_lookup_put ops (libfs_lookup_put ops s par).2 cur).2 tmp).1)

/-- The part of `libfs_lookup` behind the comment `Return.`. -/
def libfs_lookup_return {σ : Type} (ops : libfs_ops_t σ) (fs_handle service_id lflag : Nat)
    (s : σ) (par cur : Option fs_node_t) : List event_t :=
  match cur with
  | none => event_t.answer_0 ENOENT :: libfs_lookup_out ops s par none none
  | some c =>
    if lflag &&& L_OPEN ≠ 0 then
      event_t.node_open c (ops.node_open s c).1 ::
        (if (ops.node_open s c).1 ≠ EOK then
          event_t.answer_0 (ops.node_open s c).1 ::
            libfs_lookup_out ops (ops.node_open s c).2 par cur none
        else
          event_t.answer_5 fs_handle service_id (ops.index_get (ops.node_open s c).2 c)
              (LOWER32 (ops.size_get (ops.node_open s c).2 c))
              (UPPER32 (ops.size_get (ops.node_open s c).2 c))
              (ops.lnkcnt_get (ops.node_open s c).2 c) ::
            libfs_lookup_out ops (ops.node_open s c).2 par cur none)
    else
      event_t.answer_5 fs_handle service_id (ops.index_get s c) (LOWER32 (ops.size_get s c))
          (UPPER32 (ops.size_get s c)) (ops.lnkcnt_get s c) ::
        libfs_lookup_out ops s par cur none

/-- The part of `libfs_lookup` behind the comment `Create.`, followed by the
return part. -/
def libfs_lookup_create {σ : Type} (ops : libfs_ops_t σ) (fs_handle service_id lflag : Nat)
    (s : σ) (par cur : Option fs_node_t) (component : List Nat) : List event_t :=
  if lflag &&& L_CREATE ≠ 0 then
    match cur with
    | some _ =>
      if lflag &&& L_EXCLUSIVE ≠ 0 then
        event_t.answer_0 EEXIST :: libfs_lookup_out ops s par cur none
      else libfs_lookup_return ops fs_handle service_id lflag s par cur
    | none =>
      event_t.create service_id (lflag &&& (L_FILE ||| L_DIRECTORY))
          (ops.create s service_id (lflag &&& (L_FILE ||| L_DIRECTORY))).1
          (ops.create s service_id (lflag &&& (L_FILE ||| L_DIRECTORY))).2.1 ::
        (let r := ops.create s service_id (lflag &&& (L_FILE ||| L_DIRECTORY))
         if r.1 ≠ EOK then event_t.answer_0 r.1 :: libfs_lookup_out ops r.2.2 par r.2.1 none
         else
           match r.2.1 with
           | none => event_t.answer_0 ENOSPC :: libfs_lookup_out ops r.2.2 par none none
           | some c =>
             event_t.link par c (cstr component) (ops.link r.2.2 par c (cstr component)).1 ::
               (if (ops.link r.2.2 par c (cstr component)).1 ≠ EOK then
                 event_t.destroy c
                     (ops.destroy (ops.link r.2.2 par c (cstr component)).2 c).1 ::
                   event_t.answer_0 (ops.link r.2.2 par c (cstr component)).1 ::
                     libfs_lookup_out ops
                       (ops.destroy (ops.link r.2.2 par c (cstr component)).2 c).2 par none none
               else
                 libfs_lookup_return ops fs_handle service_id lflag
                   (ops.link r.2.2 par c (cstr component)).2 par (some c)))
  else libfs_lookup_return ops fs_handle service_id lflag s par cur

/-- The part of `libfs_lookup` behind the walk: the two assertions, the kind
checks, the unlink part, and then the create and return parts. -/
def libfs_lookup_finish {σ : Type} (ops : libfs_ops_t σ) (fs_handle service_id lflag : Nat)
    (s : σ) (par cur : Option fs_node_t) (component : List Nat) : List event_t :=
  -- assert(par == NULL || ops->is_directory(par));
  if par.any (fun p => !ops.is_directory s p) then [event_t.assert_fail]
  -- assert(par != NULL || cur != NULL);
  else if par.isNone && cur.isNone then [event_t.assert_fail]
  else if cur.any (fun c => decide (lflag &&& L_FILE ≠ 0) && ops.is_directory s c) then
    event_t.answer_0 EISDIR :: libfs_lookup_out ops s par cur none
  else if cur.any (fun c => decide (lflag &&& L_DIRECTORY ≠ 0) && ops.is_file s c) then
    event_t.answer_0 ENOTDIR :: libfs_lookup_out ops s par cur none
  else if lflag &&& L_UNLINK ≠ 0 then
    match cur, par with
    | none, _ => event_t.answer_0 ENOENT :: libfs_lookup_out ops s par none none
    | some _, none => event_t.answer_0 EINVAL :: libfs_lookup_out ops s none cur none
    | some c, some p =>
      event_t.unlink p c (cstr component) (ops.unlink s p c (cstr component)).1 ::
        (if (ops.unlink s p c (cstr component)).1 = EOK then
          event_t.answer_5 fs_handle service_id
              (ops.index_get (ops.unlink s p c (cstr component)).2 c)
              (LOWER32 (ops.size_get (ops.unlink s p c (cstr component)).2 c))
              (UPPER32 (ops.size_get (ops.unlink s p c (cstr component)).2 c))
              (ops.lnkcnt_get s c) ::
            libfs_lookup_out ops (ops.unlink s p c (cstr component)).2 par cur none
        else
          event_t.answer_0 (ops.unlink s p c (cstr component)).1 ::
            libfs_lookup_out ops (ops.unlink s p c (cstr component)).2 par cur none)
  else libfs_lookup_create ops fs_handle service_id lflag s par cur component

/-- The loop `while (next != last)` of `libfs_lookup`, followed by the rest of
the function. The loop is bounded by `fuel` iterations; `unfinished` is
emitted when the bound is reached with the loop condition still true. -/
def libfs_lookup_walk {σ : Type} (reg : fs_reg_t) (ops : libfs_ops_t σ)
    (fs_handle service_id lflag last : Nat) :
    Nat → σ → Option fs_node_t → Option fs_node_t → Nat → List Nat → Nat → List event_t
  | 0, s, par, cur, next, component, _ =>
    if next = last then libfs_lookup_finish ops fs_handle service_id lflag s par cur component
    else [event_t.unfinished]
  | fuel + 1, s, par, cur, next, component, clen =>
    if next = last then libfs_lookup_finish ops fs_handle service_id lflag s par cur component
    else
      match cur with
      | none => event_t.answer_0 ENOENT :: libfs_lookup_out ops s par none none
      | some c =>
        if !ops.is_directory s c then
          event_t.answer_0 ENOTDIR :: libfs_lookup_out ops s par cur none
        else
          let g := plb_get_component reg component clen next last
          -- assert(rc != ERANGE);
          if g.1 = ERANGE then [event_t.assert_fail]
          else if g.1 ≠ EOK then event_t.answer_0 g.1 :: libfs_lookup_out ops s par cur none
          else if g.2.2.1 = 0 then
            -- The path is just "/".
            libfs_lookup_finish ops fs_handle service_id lflag s par cur g.2.1
          else
            let m := ops.match_ s c (cstr g.2.1)
            event_t.match_ c (cstr g.2.1) m.1 m.2.1 ::
              (if m.1 ≠ EOK then event_t.answer_0 m.1 :: libfs_lookup_out ops m.2.2 par cur m.2.1
               else if m.2.1.any (fun t => t.mp_data.mp_active) &&
                   (decide (lflag &&& L_MP = 0) || decide (g.2.2.2 < last)) then
                 event_t.forward_lookup (m.2.1.elim 0 (fun t => t.mp_data.sess)) g.2.2.2
                     ((last + 2 ^ 32 - g.2.2.2) % 2 ^ 32)
                     (m.2.1.elim 0 (fun t => t.mp_data.service_id)) (2 ^ 32 - 1) lflag ::
                   libfs_lookup_out ops m.2.2 par cur m.2.1
               else
                 match par with
                 | some p =>
                   event_t.node_put p (ops.node_put m.2.2 p).1 ::
                     (if (ops.node_put m.2.2 p).1 ≠ EOK then
                       event_t.answer_0 (ops.node_put m.2.2 p).1 ::
                         libfs_lookup_out ops (ops.node_put m.2.2 p).2 par cur m.2.1
                     else
                       libfs_lookup_walk reg ops fs_handle service_id lflag last fuel
                         (ops.node_put m.2.2 p).2 cur m.2.1 g.2.2.2 g.2.1 g.2.2.1)
                 | none =>
                   libfs_lookup_walk reg ops fs_handle service_id lflag last fuel
                     m.2.2 cur m.2.1 g.2.2.2 g.2.1 g.2.2.1)

/-- The function `libfs_lookup` of `libfs.c`, started in the backend state
`s`; the result is the sequence of events of the run. The walk is bounded by
`len` iterations, one for each byte of the path at most. -/
def libfs_lookup {σ : Type} (reg : fs_reg_t) (ops : libfs_ops_t σ) (fs_handle : Nat)
    (req : ipc_call_t) (s : σ) : List event_t :=
  let first := req.arg1 % 2 ^ 32
  let len := req.arg2 % 2 ^ 32
  let service_id := req.arg3
  let index := req.arg4 % 2 ^ 32
  let lflag := req.arg5 % 2 ^ 32
  let last := (first + len) % 2 ^ 32
  let r := if index = 2 ^ 32 - 1 then ops.root_get s service_id
    else ops.node_get s service_id index
  (if index = 2 ^ 32 - 1 then event_t.root_get service_id r.1 r.2.1
    else event_t.node_get service_id index r.1 r.2.1) ::
    (if r.1 ≠ EOK then event_t.answer_0 r.1 :: libfs_lookup_out ops r.2.2 none r.2.1 none
     else
       match r.2.1 with
       -- assert(cur != NULL);
       | none => [event_t.assert_fail]
       | some c =>
         if c.mp_data.mp_active then
           [event_t.forward_lookup c.mp_data.sess first ((last + 2 ^ 32 - first) % 2 ^ 32)
              c.mp_data.service_id (2 ^ 32 - 1) lflag,
            event_t.node_put c (ops.node_put r.2.2 c).1]
         else
           libfs_lookup_walk reg ops fs_handle service_id lflag last len r.2.2 none (some c)
             first [] 0)

/-- The answers to and forwards of the request in a run. -/
def replies (tr : List event_t) : List event_t :=
  tr.filter (fun e =>
    match e with
    | event_t.answer_0 _ => true
    | event_t.answer_5 _ _ _ _ _ _ => true
    | event_t.forward_lookup _ _ _ _ _ _ => true
    | _ => false)

/-! ## Path resolution as the specification words it -/

/-- The node of the example backend with the identity `k`; it is not a mount
point. -/
def demo_node (k : Nat) : fs_node_t := ⟨⟨false, 0, 0, 0⟩, k⟩

/-- An example backend without state: the root directory (identity 0) holds
the directory `a` (identity 1), which holds the file `b` (identity 2) of 5
bytes. `node_put` returns `put_rc k` on the node with the identity `k`. -/
def demo_ops (put_rc : Nat → Int) : libfs_ops_t Unit where
  root_get := fun s _ => (EOK, some (demo_node 0), s)
  node_get := fun s _ index => (EOK, if index ≤ 2 then some (demo_node index) else none, s)
  node_put := fun s n => (put_rc n.data, s)
  node_open := fun s _ => (EOK, s)
  match_ := fun s n c =>
    (EOK,
      if n.data = 0 ∧ c = [97] then some (demo_node 1)
      else if n.data = 1 ∧ c = [98] then some (demo_node 2)
      else none, s)
  create := fun s _ _ => (EOK, none, s)
  destroy := fun s _ => (EOK, s)
  link := fun s _ _ _ => (EOK, s)
  unlink := fun s _ _ _ => (EOK, s)
  index_get := fun _ n => n.data
  size_get := fun _ n => if n.data = 2 then 5 else 0
  lnkcnt_get := fun _ _ => 1
  is_directory := fun _ n => decide (n.data ≤ 1)
  is_file := fun _ n => decide (n.data = 2)

/-- The registration of the examples: a path lookup buffer of 1024 bytes that
holds the given path at its start, and `NAME_MAX` = 255. -/
def demo_reg (path : List Nat) : fs_reg_t := ⟨1024, 255, bytes path⟩

/-! ## References taken and released in a run -/

/-- The nodes obtained in a run from `root_get`, `node_get`, `match` and
`create`, in the order of the calls. -/
def acquired : List event_t → List fs_node_t
  | [] => []
  | event_t.root_get _ _ (some n) :: tr => n :: acquired tr
  | event_t.node_get _ _ _ (some n) :: tr => n :: acquired tr
  | event_t.match_ _ _ _ (some n) :: tr => n :: acquired tr
  | event_t.create _ _ _ (some n) :: tr => n :: acquired tr
  | _ :: tr => acquired tr

/-- The nodes handed to `node_put` or to `destroy` in a run, in the order of
the calls. -/
def released : List event_t → List fs_node_t
  | [] => []
  | event_t.node_put n _ :: tr => n :: released tr
  | event_t.destroy n _ :: tr => n :: released tr
  | _ :: tr => released tr

/-! ## Long-file-name slices: `fat_lfn_size` and `fat_lfn_copy_entry` -/

/-- Modelled from the spec: `FAT_LFN_PART1_SIZE` of `fat_dentry.h` (spec §6:
slice 1 has 10 bytes). -/
def FAT_LFN_PART1_SIZE : Nat := 10

/-- Modelled from the spec: `FAT_LFN_PART2_SIZE` of `fat_dentry.h` (spec §6:
slice 2 has 12 bytes). -/
def FAT_LFN_PART2_SIZE : Nat := 12

/-- Modelled from the spec: `FAT_LFN_PART3_SIZE` of `fat_dentry.h` (spec §6:
slice 3 has 4 bytes). -/
def FAT_LFN_PART3_SIZE : Nat := 4

/-- Modelled from the spec: the macro `FAT_LFN_PART1` of `fat_dentry.h`, the
array `d->lfn.part1` at offset 1 of the entry (spec §6). -/
def FAT_LFN_PART1 (d : fat_dentry_t) : Nat → Nat := fun i => d.raw (1 + i)

/-- Modelled from the spec: the macro `FAT_LFN_PART2` of `fat_dentry.h`, the
array `d->lfn.part2` at offset 14 of the entry (spec §6). -/
def FAT_LFN_PART2 (d : fat_dentry_t) : Nat → Nat := fun i => d.raw (14 + i)

/-- Modelled from the spec: the macro `FAT_LFN_PART3` of `fat_dentry.h`, the
array `d->lfn.part3` at offset 28 of the entry (spec §6). -/
def FAT_LFN_PART3 (d : fat_dentry_t) : Nat → Nat := fun i => d.raw (28 + i)

/-- The loop of `fat_lfn_str_nlength`, with `fuel` iterations left. The loop
adds 2 to `offset` in every iteration that does not leave it, so it runs at
most `size` times. -/
def fat_lfn_str_nlength_loop (str : Nat → Nat) (size : Nat) : Nat → Nat → Nat
  | 0, offset => offset
  | fuel + 1, offset =>
    if offset < size then
      if (str offset = 0x00 ∧ str (offset + 1) = 0x00) ∨
          (str offset = 0xff ∧ str (offset + 1) = 0xff) then offset
      else fat_lfn_str_nlength_loop str size fuel (offset + 2)
    else offset

/-- The function `fat_lfn_str_nlength` of `fat_dentry.c`. -/
def fat_lfn_str_nlength (str : Nat → Nat) (size : Nat) : Nat :=
  fat_lfn_str_nlength_loop str size size 0

/-- The function `fat_lfn_size` of `fat_dentry.c`. -/
def fat_lfn_size (d : fat_dentry_t) : Nat :=
  fat_lfn_str_nlength (FAT_LFN_PART1 d) FAT_LFN_PART1_SIZE +
    fat_lfn_str_nlength (FAT_LFN_PART2 d) FAT_LFN_PART2_SIZE +
    fat_lfn_str_nlength (FAT_LFN_PART3 d) FAT_LFN_PART3_SIZE

/-- The body of the loop of `fat_lfn_copy_part` at the index `i`: a code unit
0x0000 or 0xFFFF is skipped, any other unit is stored in front of `offset`. -/
def fat_lfn_copy_part_body (src : Nat → Nat) (i : Nat) (dst : Nat → Nat) (offset : Nat) :
    (Nat → Nat) × Nat :=
  if (src i = 0x00 ∧ src (i - 1) = 0x00) ∨ (src i = 0xff ∧ src (i - 1) = 0xff) then
    (dst, offset)
  else
    (Function.update (Function.update dst (offset - 1) (src i)) (offset - 2) (src (i - 1)),
      offset - 2)

/-- The loop `for (i = src_size - 1; i > 0 && (*offset) > 1; i -= 2)` of
`fat_lfn_copy_part`, started at the index `i`; the result is the destination
buffer and `*offset`. -/
def fat_lfn_copy_part_loop (src : Nat → Nat) : Nat → (Nat → Nat) → Nat → (Nat → Nat) × Nat
  | 0, dst, offset => (dst, offset)
  | 1, dst, offset =>
    if offset > 1 then fat_lfn_copy_part_body src 1 dst offset else (dst, offset)
  | i + 2, dst, offset =>
    if offset > 1 then
      fat_lfn_copy_part_loop src i (fat_lfn_copy_part_body src (i + 2) dst offset).1
        (fat_lfn_copy_part_body src (i + 2) dst offset).2
    else (dst, offset)

/-- The function `fat_lfn_copy_part` of `fat_dentry.c`. -/
def fat_lfn_copy_part (src : Nat → Nat) (src_size : Nat) (dst : Nat → Nat) (offset : Nat) :
    (Nat → Nat) × Nat :=
  fat_lfn_copy_part_loop src (src_size - 1) dst offset

/-- The function `fat_lfn_copy_entry` of `fat_dentry.c`. -/
def fat_lfn_copy_entry (d : fat_dentry_t) (dst : Nat → Nat) (offset : Nat) :
    (Nat → Nat) × Nat :=
  let r3 := fat_lfn_copy_part (FAT_LFN_PART3 d) FAT_LFN_PART3_SIZE dst offset
  let r2 := fat_lfn_copy_part (FAT_LFN_PART2 d) FAT_LFN_PART2_SIZE r3.1 r3.2
  fat_lfn_copy_part (FAT_LFN_PART1 d) FAT_LFN_PART1_SIZE r2.1 r2.2

/-- The byte `j` of the 26 name bytes of a long-file-name entry: slice 1, then
slice 2, then slice 3. -/
def lfn_byte (d : fat_dentry_t) (j : Nat) : Nat :=
  if j < 10 then FAT_LFN_PART1 d j
  else if j < 22 then FAT_LFN_PART2 d (j - 10)
  else FAT_LFN_PART3 d (j - 22)

/-- Whether the code unit `j` of an array of code units is 0x0000 or 0xFFFF. -/
def unit_is_pad (src : Nat → Nat) (j : Nat) : Prop :=
  (src (2 * j) = 0x00 ∧ src (2 * j + 1) = 0x00) ∨ (src (2 * j) = 0xff ∧ src (2 * j + 1) = 0xff)

/-! ## The walk of `libfs_lookup` on its own -/

/-- How the loop of `libfs_lookup` is left: the loop condition fails or the
path is just a slash, and the code behind the loop runs (`finished`); the
request is answered with an error code from inside the loop (`answered`); the
request is forwarded at the mount point `tmp` with `next` as the position in
the path (`forwarded`); an assertion fails; or the bound on the iterations is
reached. The state, `par`, `cur` and `tmp` are the values with which the
handler leaves the loop. -/
inductive walk_end_t (σ : Type) where
  | finished (s : σ) (par cur : Option fs_node_t) (component : List Nat)
  | answered (rc : Int) (s : σ) (par cur tmp : Option fs_node_t)
  | forwarded (next : Nat) (s : σ) (par cur tmp : Option fs_node_t)
  | assert_failed
  | unfinished
  deriving DecidableEq

/-- The loop `while (next != last)` of `libfs_lookup` without the code behind
it: the events of the iterations (calls of `match` and `node_put`) and the way
the loop is left. It is the function `libfs_lookup_walk` cut in front of the
code that follows the loop. -/
def libfs_lookup_walk_end {σ : Type} (reg : fs_reg_t) (ops : libfs_ops_t σ)
    (lflag last : Nat) :
    Nat → σ → Option fs_node_t → Option fs_node_t → Nat → List Nat → Nat →
      List event_t × walk_end_t σ
  | 0, s, par, cur, next, component, _ =>
    if next = last then ([], walk_end_t.finished s par cur component)
    else ([], walk_end_t.unfinished)
  | fuel + 1, s, par, cur, next, component, clen =>
    if next = last then ([], walk_end_t.finished s par cur component)
    else
      match cur with
      | none => ([], walk_end_t.answered ENOENT s par none none)
      | some c =>
        if !ops.is_directory s c then ([], walk_end_t.answered ENOTDIR s par cur none)
        else
          let g := plb_get_component reg component clen next last
          if g.1 = ERANGE then ([], walk_end_t.assert_failed)
          else if g.1 ≠ EOK then ([], walk_end_t.answered g.1 s par cur none)
          else if g.2.2.1 = 0 then ([], walk_end_t.finished s par cur g.2.1)
          else
            let m := ops.match_ s c (cstr g.2.1)
            if m.1 ≠ EOK then
              ([event_t.match_ c (cstr g.2.1) m.1 m.2.1],
                walk_end_t.answered m.1 m.2.2 par cur m.2.1)
            else if m.2.1.any (fun t => t.mp_data.mp_active) &&
                (decide (lflag &&& L_MP = 0) || decide (g.2.2.2 < last)) then
              ([event_t.match_ c (cstr g.2.1) m.1 m.2.1],
                walk_end_t.forwarded g.2.2.2 m.2.2 par cur m.2.1)
            else
              match par with
              | some p =>
                if (ops.node_put m.2.2 p).1 ≠ EOK then
                  ([event_t.match_ c (cstr g.2.1) m.1 m.2.1,
                    event_t.node_put p (ops.node_put m.2.2 p).1],
                    walk_end_t.answered (ops.node_put m.2.2 p).1 (ops.node_put m.2.2 p).2
                      par cur m.2.1)
                else
                  (event_t.match_ c (cstr g.2.1) m.1 m.2.1 ::
                    event_t.node_put p (ops.node_put m.2.2 p).1 ::
                      (libfs_lookup_walk_end reg ops lflag last fuel (ops.node_put m.2.2 p).2
                        cur m.2.1 g.2.2.2 g.2.1 g.2.2.1).1,
                    (libfs_lookup_walk_end reg ops lflag last fuel (ops.node_put m.2.2 p).2
                      cur m.2.1 g.2.2.2 g.2.1 g.2.2.1).2)
              | none =>
                (event_t.match_ c (cstr g.2.1) m.1 m.2.1 ::
                  (libfs_lookup_walk_end reg ops lflag last fuel m.2.2 cur m.2.1 g.2.2.2 g.2.1
                    g.2.2.1).1,
                  (libfs_lookup_walk_end reg ops lflag last fuel m.2.2 cur m.2.1 g.2.2.2 g.2.1
                    g.2.2.1).2)

/-- What `libfs_lookup` does once the loop is left. -/
def libfs_lookup_after {σ : Type} (ops : libfs_ops_t σ) (fs_handle service_id lflag last : Nat) :
    walk_end_t σ → List event_t
  | walk_end_t.finished s par cur component =>
    libfs_lookup_finish ops fs_handle service_id lflag s par cur component
  | walk_end_t.answered rc s par cur tmp =>
    event_t.answer_0 rc :: libfs_lookup_out ops s par cur tmp
  | walk_end_t.forwarded next s par cur tmp =>
    event_t.forward_lookup (tmp.elim 0 (fun t => t.mp_data.sess)) next
        ((last + 2 ^ 32 - next) % 2 ^ 32) (tmp.elim 0 (fun t => t.mp_data.service_id))
        (2 ^ 32 - 1) lflag ::
      libfs_lookup_out ops s par cur tmp
  | walk_end_t.assert_failed => [event_t.assert_fail]
  | walk_end_t.unfinished => [event_t.unfinished]

/-- The walk of the request `req`, started on the node `c` in the state `s`. -/
def libfs_lookup_walk_of {σ : Type} (reg : fs_reg_t) (ops : libfs_ops_t σ) (req : ipc_call_t)
    (s : σ) (c : fs_node_t) : List event_t × walk_end_t σ :=
  libfs_lookup_walk_end reg ops (req.arg5 % 2 ^ 32)
    ((req.arg1 % 2 ^ 32 + req.arg2 % 2 ^ 32) % 2 ^ 32) (req.arg2 % 2 ^ 32) s none (some c)
    (req.arg1 % 2 ^ 32) [] 0

/-- The call of `root_get` or `node_get` with which `libfs_lookup` obtains its
starting node. -/
def libfs_lookup_start {σ : Type} (ops : libfs_ops_t σ) (req : ipc_call_t) (s : σ) :
    Int × Option fs_node_t × σ :=
  if req.arg4 % 2 ^ 32 = 2 ^ 32 - 1 then ops.root_get s req.arg3
  else ops.node_get s req.arg3 (req.arg4 % 2 ^ 32)

/-- The lookup of the request `req` reaches the code behind the walk: the
starting node exists and is not an active mount point, and the walk is left
through its end with the state `s2`, the nodes `par` and `cur` and the
component buffer `component`, after the events `evs`. -/
def lookup_reaches {σ : Type} (reg : fs_reg_t) (ops : libfs_ops_t σ) (req : ipc_call_t)
    (s : σ) (evs : List event_t) (s2 : σ) (par cur : Option fs_node_t)
    (component : List Nat) : Prop :=
  ∃ c s1, libfs_lookup_start ops req s = (EOK, some c, s1) ∧ c.mp_data.mp_active = false ∧
    libfs_lookup_walk_of reg ops req s1 c = (evs, walk_end_t.finished s2 par cur component)

/-- The position in the path behind `n` components, counted from `pos`: the
position at which `plb_get_component` stops, `n` times in a row. -/
def plb_skip (reg : fs_reg_t) (last : Nat) : Nat → Nat → Nat
  | 0, pos => pos
  | n + 1, pos => plb_skip reg last n (plb_get_component reg [] 0 pos last).2.2.2

/-- The number of calls of `match` in a run. -/
def match_count (tr : List event_t) : Nat :=
  (tr.filter (fun e =>
    match e with
    | event_t.match_ _ _ _ _ => true
    | _ => false)).length

/-- The calls of the backend operations `create`, `link`, `unlink`, `destroy`
and `node_open` in a run. -/
def mutations (tr : List event_t) : List event_t :=
  tr.filter (fun e =>
    match e with
    | event_t.create _ _ _ _ => true
    | event_t.link _ _ _ _ => true
    | event_t.unlink _ _ _ _ => true
    | event_t.destroy _ _ => true
    | event_t.node_open _ _ => true
    | _ => false)

/-- A run that answers or forwards the request exactly once and neither stops
at a failed assertion nor reaches the bound of the walk. -/
def single_reply (tr : List event_t) : Prop :=
  event_t.assert_fail ∉ tr ∧ event_t.unfinished ∉ tr ∧ ∃ e, replies tr = [e]

/-- The forwards of the request in a run. -/
def forwards (tr : List event_t) : List event_t :=
  tr.filter (fun e =>
    match e with
    | event_t.forward_lookup _ _ _ _ _ _ => true
    | _ => false)

/-- The first event of a run of `libfs_lookup`: the call of `root_get` or of
`node_get` with its result. -/
def libfs_lookup_start_event {σ : Type} (ops : libfs_ops_t σ) (req : ipc_call_t) (s : σ) :
    event_t :=
  if req.arg4 % 2 ^ 32 = 2 ^ 32 - 1 then
    event_t.root_get req.arg3 (libfs_lookup_start ops req s).1 (libfs_lookup_start ops req s).2.1
  else
    event_t.node_get req.arg3 (req.arg4 % 2 ^ 32) (libfs_lookup_start ops req s).1
      (libfs_lookup_start ops req s).2.1

/-- The distance from the position `pos` to the end `last` of the path in the
path lookup buffer, in the arithmetic of `unsigned`. -/
def plb_dist (last pos : Nat) : Nat := (last + 2 ^ 32 - pos) % 2 ^ 32

/-! ## More example backends -/

/-- The node `a` of the example backends as an active mount point: session 42,
mounted file system 3, mounted service 9. -/
def demo_mount_node : fs_node_t := ⟨⟨true, 42, 3, 9⟩, 1⟩

/-- The example backend in which the directory `a` below the root is an active
mount point. -/
def demo_mount_ops : libfs_ops_t Unit :=
  { demo_ops (fun _ => EOK) with
    match_ := fun s n c =>
      (EOK, if n.data = 0 ∧ c = [97] then some demo_mount_node else none, s) }

/-- An example backend with a state, the link count of the file `b`: the root
directory (identity 0) holds the directory `a` (identity 1), which holds the
file `b` (identity 2). `unlink` takes one link from the count. `create`
returns the node `created`, and `link` returns `link_rc`. -/
def demo_state_ops (created : Option fs_node_t) (link_rc : Int) : libfs_ops_t Nat where
  root_get := fun s _ => (EOK, some (demo_node 0), s)
  node_get := fun s _ index => (EOK, if index ≤ 2 then some (demo_node index) else none, s)
  node_put := fun s _ => (EOK, s)
  node_open := fun s _ => (EOK, s)
  match_ := fun s n c =>
    (EOK,
      if n.data = 0 ∧ c = [97] then some (demo_node 1)
      else if n.data = 1 ∧ c = [98] then some (demo_node 2)
      else none, s)
  create := fun s _ _ => (EOK, created, s)
  destroy := fun s _ => (EOK, s)
  link := fun s _ _ _ => (link_rc, s)
  unlink := fun s _ _ _ => (EOK, s - 1)
  index_get := fun _ n => n.data
  size_get := fun _ n => if n.data = 2 then 5 else 0
  lnkcnt_get := fun s n => if n.data = 2 then s else 1
  is_directory := fun _ n => decide (n.data ≤ 1)
  is_file := fun _ n => decide (2 ≤ n.data)

/-! ## `libfs_mount` -/

/-- Modelled from the spec: `EBUSY` of `errno.h` (not among the sources). -/
def EBUSY : Int := -15

/-- The macro `combine_rc` of `libfs.c`. -/
def combine_rc (rc1 rc2 : Int) : Int := if rc1 = EOK then rc2 else rc1

/-- What the transport hands to `libfs_mount`: the session returned by
`async_clone_receive` (0 for NULL), the session returned by
`async_clone_establish` (0 for NULL) with the value of `errno` behind it, and
the return value and the answer of `async_data_write_forward_1_1`. The async
framework is not among the sources. -/
structure mount_env_t where
  mountee_sess : Nat
  sess : Nat
  errno : Int
  rc : Int
  answer : ipc_call_t

/-- What `libfs_mount` and `libfs_unmount` do to the outside: the calls of
`node_get` and `node_put` (with their results), the calls of the transport
and the answers to the request. -/
inductive mount_event_t where
  | node_get (service_id index : Nat) (rc : Int) (res : Option fs_node_t)
  | node_put (n : fs_node_t) (rc : Int)
  | hangup (sess : Nat)
  | data_write_void (rc : Int)
  | clone_establish (sess : Nat)
  | data_write_forward_mounted (sess service_id : Nat)
  | req_unmounted (sess service_id : Nat)
  | answer_0 (rc : Int)
  | answer_4 (rc : Int) (arg1 arg2 arg3 arg4 : Nat)
  deriving DecidableEq

/-- The outcome of a run of `libfs_mount` or `libfs_unmount`: the events, the
mount-point node as the handler leaves it (`none` when no node was obtained),
and the backend state. -/
structure mount_run_t (σ : Type) where
  events : List mount_event_t
  fn : Option fs_node_t
  state : σ

/-- The function `libfs_mount` of `libfs.c`, started in the backend state `s`.
The node is a value here, so the stores to `fn->mp_data` show in the node of
the outcome. -/
def libfs_mount {σ : Type} (ops : libfs_ops_t σ) (_fs_handle : Nat) (req : ipc_call_t)
    (env : mount_env_t) (s : σ) : mount_run_t σ :=
  let mp_service_id := req.arg1
  let mp_fs_index := req.arg2 % 2 ^ 32
  let mr_fs_handle := req.arg3
  let mr_service_id := req.arg4
  if env.mountee_sess = 0 then ⟨[mount_event_t.answer_0 EINVAL], none, s⟩
  else
    let r := ops.node_get s mp_service_id mp_fs_index
    match r.2.1 with
    | none =>
      ⟨[mount_event_t.node_get mp_service_id mp_fs_index r.1 none,
        mount_event_t.hangup env.mountee_sess,
        mount_event_t.data_write_void (combine_rc r.1 ENOENT),
        mount_event_t.answer_0 (combine_rc r.1 ENOENT)], none, r.2.2⟩
    | some fn =>
      if r.1 ≠ EOK then
        ⟨[mount_event_t.node_get mp_service_id mp_fs_index r.1 (some fn),
          mount_event_t.hangup env.mountee_sess,
          mount_event_t.data_write_void (combine_rc r.1 ENOENT),
          mount_event_t.answer_0 (combine_rc r.1 ENOENT)], some fn, r.2.2⟩
      else if fn.mp_data.mp_active then
        ⟨[mount_event_t.node_get mp_service_id mp_fs_index r.1 (some fn),
          mount_event_t.hangup env.mountee_sess,
          mount_event_t.node_put fn (ops.node_put r.2.2 fn).1,
          mount_event_t.data_write_void EBUSY,
          mount_event_t.answer_0 EBUSY], some fn, (ops.node_put r.2.2 fn).2⟩
      else if env.sess = 0 then
        ⟨[mount_event_t.node_get mp_service_id mp_fs_index r.1 (some fn),
          mount_event_t.clone_establish env.mountee_sess,
          mount_event_t.hangup env.mountee_sess,
          mount_event_t.node_put fn (ops.node_put r.2.2 fn).1,
          mount_event_t.data_write_void env.errno,
          mount_event_t.answer_0 env.errno], some fn, (ops.node_put r.2.2 fn).2⟩
      else
        ⟨[mount_event_t.node_get mp_service_id mp_fs_index r.1 (some fn),
          mount_event_t.clone_establish env.mountee_sess,
          mount_event_t.data_write_forward_mounted env.mountee_sess mr_service_id,
          mount_event_t.answer_4 env.rc env.answer.arg1 env.answer.arg2 env.answer.arg3
            env.answer.arg4],
          (if env.rc = EOK then
            some { fn with mp_data := ⟨true, env.mountee_sess, mr_fs_handle, mr_service_id⟩ }
          else some fn), r.2.2⟩

/-- An example backend for mounts: `node_get` returns the node `fn` for the
index 1 and no node for any other index. -/
def demo_mp_ops (fn : fs_node_t) : libfs_ops_t Unit :=
  { demo_ops (fun _ => EOK) with
    node_get := fun s _ index => (EOK, if index = 1 then some fn else none, s) }

/-! ## `libfs_unmount` and the life of a mount point -/

/-- The function `libfs_unmount` of `libfs.c`, started in the backend state
`s`; `res` is the return value of `async_req_1_0` for `VFS_OUT_UNMOUNTED`
(the async framework is not among the sources). The node is a value here, so
the stores to `fn->mp_data` show in the node of the outcome, and the calls of
`node_put` behind the stores receive the node with its record reset. -/
def libfs_unmount {σ : Type} (ops : libfs_ops_t σ) (req : ipc_call_t) (res : Int) (s : σ) :
    mount_run_t σ :=
  let mp_service_id := req.arg1
  let mp_fs_index := req.arg2 % 2 ^ 32
  let r := ops.node_get s mp_service_id mp_fs_index
  match r.2.1 with
  | none =>
    ⟨[mount_event_t.node_get mp_service_id mp_fs_index r.1 none,
      mount_event_t.answer_0 (combine_rc r.1 ENOENT)], none, r.2.2⟩
  | some fn =>
    if r.1 ≠ EOK then
      ⟨[mount_event_t.node_get mp_service_id mp_fs_index r.1 (some fn),
        mount_event_t.answer_0 (combine_rc r.1 ENOENT)], some fn, r.2.2⟩
    else if !fn.mp_data.mp_active then
      ⟨[mount_event_t.node_get mp_service_id mp_fs_index r.1 (some fn),
        mount_event_t.node_put fn (ops.node_put r.2.2 fn).1,
        mount_event_t.answer_0 EINVAL], some fn, (ops.node_put r.2.2 fn).2⟩
    else if res = EOK then
      let fn1 : fs_node_t := { fn with mp_data := ⟨false, 0, 0, 0⟩ }
      ⟨[mount_event_t.node_get mp_service_id mp_fs_index r.1 (some fn),
        mount_event_t.req_unmounted fn.mp_data.sess fn.mp_data.service_id,
        mount_event_t.hangup fn.mp_data.sess,
        mount_event_t.node_put fn1 (ops.node_put r.2.2 fn1).1,
        mount_event_t.node_put fn1 (ops.node_put (ops.node_put r.2.2 fn1).2 fn1).1,
        mount_event_t.answer_0 res], some fn1,
        (ops.node_put (ops.node_put r.2.2 fn1).2 fn1).2⟩
    else
      ⟨[mount_event_t.node_get mp_service_id mp_fs_index r.1 (some fn),
        mount_event_t.req_unmounted fn.mp_data.sess fn.mp_data.service_id,
        mount_event_t.node_put fn (ops.node_put r.2.2 fn).1,
        mount_event_t.answer_0 res], some fn, (ops.node_put r.2.2 fn).2⟩

/-- The function `fs_node_initialize` of `libfs.c`: the node is filled with
zero bytes. -/
def fs_node_initialize (_fn : fs_node_t) : fs_node_t := ⟨⟨false, 0, 0, 0⟩, 0⟩

/-- The number of calls of `node_get` in a run of a mount handler. -/
def mount_gets (tr : List mount_event_t) : Nat :=
  (tr.filter (fun e =>
    match e with
    | mount_event_t.node_get _ _ _ _ => true
    | _ => false)).length

/-- The number of calls of `node_put` in a run of a mount handler. -/
def mount_puts (tr : List mount_event_t) : Nat :=
  (tr.filter (fun e =>
    match e with
    | mount_event_t.node_put _ _ => true
    | _ => false)).length

/-- The hang-ups of sessions in a run of a mount handler. -/
def mount_hangups (tr : List mount_event_t) : List mount_event_t :=
  tr.filter (fun e =>
    match e with
    | mount_event_t.hangup _ => true
    | _ => false)

/-- One request handled on the node `fn`: some backend hands `fn` to
`libfs_mount` or to `libfs_unmount` as the result of `node_get`, and the
handler leaves the node as `fn1`. The `MOUNT` requests are those that satisfy
`P`. -/
def mp_step (P : ipc_call_t → Prop) (fn fn1 : fs_node_t) : Prop :=
  ∃ (σ : Type) (ops : libfs_ops_t σ) (s : σ) (req : ipc_call_t),
    (ops.node_get s req.arg1 (req.arg2 % 2 ^ 32)).2.1 = some fn ∧
      ((∃ (fs_handle : Nat) (env : mount_env_t),
          P req ∧ (libfs_mount ops fs_handle req env s).fn = some fn1) ∨
        (∃ res : Int, (libfs_unmount ops req res s).fn = some fn1))

/-- The nodes reachable from a node filled by `fs_node_initialize` (to which
the backend attaches its data `d`) through a sequence of `MOUNT` and `UNMOUNT`
requests, the `MOUNT` requests satisfying `P`. -/
def mp_reachable (P : ipc_call_t → Prop) (fn : fs_node_t) : Prop :=
  ∃ (fn0 : fs_node_t) (d : Nat),
    Relation.ReflTransGen (mp_step P) { fs_node_initialize fn0 with data := d } fn

/-- The invariant of the mount-point record as the specification words it: an
active record has a session, a file-system handle and a service id other than
zero, and a record that is not active has its four fields at their defaults. -/
def mp_invariant (fn : fs_node_t) : Prop :=
  (fn.mp_data.mp_active = true →
      fn.mp_data.sess ≠ 0 ∧ fn.mp_data.fs_handle ≠ 0 ∧ fn.mp_data.service_id ≠ 0) ∧
    (fn.mp_data.mp_active = false → fn.mp_data = ⟨false, 0, 0, 0⟩)

/-! ## The registry of instances -/

/-- Modelled from the spec: `ENOMEM` of `errno.h` (not among the sources). -/
def ENOMEM : Int := -2

/-- The structure `fs_instance_t` of `libfs.c`, without its list link: the
registry `instances_list` is the list of its members from head to tail, and
the pointer `data` is a number. -/
structure fs_instance_t where
  service_id : Nat
  data : Nat
  deriving DecidableEq

/-- The loop `list_foreach(instances_list, link)` of `fs_instance_create` from
the member `cur` on, and the `list_append` behind it. The list operations of
`adt/list.h` are not among the sources: `list_foreach` visits the members from
head to tail, `list_insert_before` puts the new member in front of `cur`, and
`list_append` puts it at the tail. -/
def fs_instance_create_loop (inst : fs_instance_t) :
    List fs_instance_t → Int × List fs_instance_t
  | [] => (EOK, [inst])
  | cur :: rest =>
    if cur.service_id = inst.service_id then (EEXIST, cur :: rest)
    else if cur.service_id < inst.service_id then (EOK, inst :: cur :: rest)
    else ((fs_instance_create_loop inst rest).1, cur :: (fs_instance_create_loop inst rest).2)

/-- The function `fs_instance_create` of `libfs.c` on the registry
`instances_list`; `alloc` tells whether `malloc` returns memory. The result is
the return value and the registry after the call. -/
def fs_instance_create (alloc : Bool) (instances_list : List fs_instance_t)
    (service_id data : Nat) : Int × List fs_instance_t :=
  if !alloc then (ENOMEM, instances_list)
  else fs_instance_create_loop ⟨service_id, data⟩ instances_list

/-- The function `fs_instance_get` of `libfs.c`: the return value and the
value stored to `*idp`, `none` when nothing is stored. -/
def fs_instance_get : List fs_instance_t → Nat → Int × Option Nat
  | [], _ => (ENOENT, none)
  | inst :: rest, service_id =>
    if inst.service_id = service_id then (EOK, some inst.data)
    else fs_instance_get rest service_id

/-- The function `fs_instance_destroy` of `libfs.c`: the return value and the
registry after the call. -/
def fs_instance_destroy : List fs_instance_t → Nat → Int × List fs_instance_t
  | [], _ => (ENOENT, [])
  | inst :: rest, service_id =>
    if inst.service_id = service_id then (EOK, rest)
    else ((fs_instance_destroy rest service_id).1,
      inst :: (fs_instance_destroy rest service_id).2)

/-- A call of one of the three functions of the registry (allocation
succeeding in `create`). -/
inductive fs_instance_op_t where
  | create (service_id data : Nat)
  | get (service_id : Nat)
  | destroy (service_id : Nat)
  deriving DecidableEq

/-- One call on the registry `l`: the return value (with the data stored by
`get`), and the registry after the call. -/
def fs_instance_call (l : List fs_instance_t) :
    fs_instance_op_t → (Int × Option Nat) × List fs_instance_t
  | fs_instance_op_t.create service_id data =>
    (((fs_instance_create true l service_id data).1, none),
      (fs_instance_create true l service_id data).2)
  | fs_instance_op_t.get service_id => (fs_instance_get l service_id, l)
  | fs_instance_op_t.destroy service_id =>
    (((fs_instance_destroy l service_id).1, none), (fs_instance_destroy l service_id).2)

/-- A sequence of calls on the registry `l`: the return values in the order of
the calls, and the registry at the end. -/
def fs_instance_run : List fs_instance_op_t → List fs_instance_t →
    List (Int × Option Nat) × List fs_instance_t
  | [], l => ([], l)
  | op :: ops, l =>
    ((fs_instance_call l op).1 :: (fs_instance_run ops (fs_instance_call l op).2).1,
      (fs_instance_run ops (fs_instance_call l op).2).2)

/-- The binding of `service_id` in the registry `l`: the data of the first
member with that id. -/
def registry_map (l : List fs_instance_t) (service_id : Nat) : Option Nat :=
  (l.find? (fun inst => decide (inst.service_id = service_id))).map (fun inst => inst.data)

/-- Modelled from the spec: `create` on a finite map from service ids to data
(spec §4.7): `EEXIST` and no change when the id is bound, otherwise `EOK` and
the id is bound to the data. -/
def map_create (m : Nat → Option Nat) (service_id data : Nat) : Int × (Nat → Option Nat) :=
  if (m service_id).isSome then (EEXIST, m) else (EOK, Function.update m service_id (some data))

/-- Modelled from the spec: `get` on a finite map (spec §4.7): `EOK` with the
data bound to the id, or `ENOENT`. -/
def map_get (m : Nat → Option Nat) (service_id : Nat) : Int × Option Nat :=
  match m service_id with
  | some data => (EOK, some data)
  | none => (ENOENT, none)

/-- Modelled from the spec: `destroy` on a finite map (spec §4.7): `EOK` and
the binding of the id is removed, or `ENOENT` and no change. -/
def map_destroy (m : Nat → Option Nat) (service_id : Nat) : Int × (Nat → Option Nat) :=
  if (m service_id).isSome then (EOK, Function.update m service_id none) else (ENOENT, m)

/-- Modelled from the spec: one call on a finite map, with the return value
and the map after the call. -/
def map_call (m : Nat → Option Nat) :
    fs_instance_op_t → (Int × Option Nat) × (Nat → Option Nat)
  | fs_instance_op_t.create service_id data =>
    (((map_create m service_id data).1, none), (map_create m service_id data).2)
  | fs_instance_op_t.get service_id => (map_get m service_id, m)
  | fs_instance_op_t.destroy service_id =>
    (((map_destroy m service_id).1, none), (map_destroy m service_id).2)

/-- Modelled from the spec: a sequence of calls on a finite map, with the
return values in the order of the calls and the map at the end. -/
def map_run : List fs_instance_op_t → (Nat → Option Nat) →
    List (Int × Option Nat) × (Nat → Option Nat)
  | [], m => ([], m)
  | op :: ops, m =>
    ((map_call m op).1 :: (map_run ops (map_call m op).2).1,
      (map_run ops (map_call m op).2).2)

/-! ## The length of a path component -/

/-- The number of bytes from the position `p` up to the first slash or up to
`last`, counted over `fuel` positions at most. -/
def plb_component_len_loop (reg : fs_reg_t) (last : Nat) : Nat → Nat → Nat
  | 0, _ => 0
  | fuel + 1, p =>
    if p = last ∨ plb_get_char reg p = 47 then 0
    else plb_component_len_loop reg last fuel ((p + 1) % 2 ^ 32) + 1

/-- The number of bytes of the component that starts at `p0`: the bytes from
`p0` up to the first slash or up to `last`, which is `plb_dist last p0`
positions away. -/
def plb_component_len (reg : fs_reg_t) (last p0 : Nat) : Nat :=
  plb_component_len_loop reg last (plb_dist last p0) p0

/-- The bytes of the path lookup buffer at the `n` positions from `p0` on. -/
def plb_bytes (reg : fs_reg_t) (p0 n : Nat) : List Nat :=
  (List.range n).map (fun k => plb_get_char reg ((p0 + k) % 2 ^ 32))

/-! # Properties -/


/-! ## Classification of directory entries -/

/-- C4 (the code's behaviour): an entry whose `attr` is `FAT_ATTR_LFN` is
classified as `FAT_DENTRY_LFN` whatever its sequence byte holds, because the
erased flag is tested on `attr` (which equals 0x0F there) and not on the
sequence byte; in particular an erased long-file-name entry is not reported
as free. -/
theorem fat_classify_dentry_lfn_ignores_erased (d : fat_dentry_t)
    (h : d.attr = FAT_ATTR_LFN) : fat_classify_dentry d = FAT_DENTRY_LFN := by
  unfold fat_classify_dentry
  rw [if_pos h, h]
  decide

/-- C4, at a concrete entry: `attr` is 0x0F and the sequence byte 0xE5 has
the erased flag 0x80 set, and the result is `FAT_DENTRY_LFN`, not
`FAT_DENTRY_FREE`. -/
theorem fat_classify_dentry_lfn_ignores_erased_witness :
    (fat_dentry_t.ofList [0xe5, 0, 0, 0, 0, 0, 0, 0, 0, 0, 0, 0x0f]).attr = FAT_ATTR_LFN ∧
    FAT_LFN_ORDER (fat_dentry_t.ofList [0xe5, 0, 0, 0, 0, 0, 0, 0, 0, 0, 0, 0x0f])
      &&& FAT_LFN_ERASED ≠ 0 ∧
    fat_classify_dentry (fat_dentry_t.ofList [0xe5, 0, 0, 0, 0, 0, 0, 0, 0, 0, 0, 0x0f])
      = FAT_DENTRY_LFN ∧
    fat_classify_dentry (fat_dentry_t.ofList [0xe5, 0, 0, 0, 0, 0, 0, 0, 0, 0, 0, 0x0f])
      ≠ FAT_DENTRY_FREE := by
  have h := fat_classify_dentry_lfn_ignores_erased
    (fat_dentry_t.ofList [0xe5, 0, 0, 0, 0, 0, 0, 0, 0, 0, 0, 0x0f]) (by decide)
  refine ⟨by decide, by decide, h, ?_⟩
  rw [h]
  decide

/-- C5: `fat_classify_dentry` returns one of the five classes for every
entry, and for an entry whose `attr` is not `FAT_ATTR_LFN` the result follows
the table in order: SKIP when `attr` has the volume-label bit, otherwise FREE
when `name[0]` is 0xE5, LAST when it is 0x00, SKIP when it is a dot, and
VALID in every other case. -/
theorem fat_classify_dentry_table (d : fat_dentry_t) :
    (fat_classify_dentry d = FAT_DENTRY_FREE ∨ fat_classify_dentry d = FAT_DENTRY_LFN ∨
      fat_classify_dentry d = FAT_DENTRY_SKIP ∨ fat_classify_dentry d = FAT_DENTRY_LAST ∨
      fat_classify_dentry d = FAT_DENTRY_VALID) ∧
    (d.attr ≠ 0x0f →
      (d.attr &&& 0x08 ≠ 0 → fat_classify_dentry d = FAT_DENTRY_SKIP) ∧
      (d.attr &&& 0x08 = 0 → d.name 0 = 0xe5 → fat_classify_dentry d = FAT_DENTRY_FREE) ∧
      (d.attr &&& 0x08 = 0 → d.name 0 = 0x00 → fat_classify_dentry d = FAT_DENTRY_LAST) ∧
      (d.attr &&& 0x08 = 0 → d.name 0 = 0x2e → fat_classify_dentry d = FAT_DENTRY_SKIP) ∧
      (d.attr &&& 0x08 = 0 → d.name 0 ≠ 0xe5 → d.name 0 ≠ 0x00 → d.name 0 ≠ 0x2e →
        fat_classify_dentry d = FAT_DENTRY_VALID)) := by
  constructor
  · cases h : fat_classify_dentry d <;> simp
  · intro hattr
    unfold fat_classify_dentry
    simp only [FAT_ATTR_LFN, FAT_ATTR_VOLLABEL, FAT_DENTRY_ERASED, FAT_DENTRY_UNUSED,
      FAT_DENTRY_DOT, if_neg hattr]
    refine ⟨?_, ?_, ?_, ?_, ?_⟩
    · intro h; simp [h]
    · intro h h0; simp [h, h0]
    · intro h h0; simp [h, h0]
    · intro h h0; simp [h, h0]
    · intro h h1 h2 h3; simp [h, h1, h2, h3]

/-- C5, at concrete entries: a volume label whose first byte is 0xE5 is
skipped, an erased entry is free, a never used entry is the last one. -/
theorem fat_classify_dentry_table_witness :
    fat_classify_dentry (fat_dentry_t.ofList [0xe5, 0, 0, 0, 0, 0, 0, 0, 0, 0, 0, 0x08])
      = FAT_DENTRY_SKIP ∧
    fat_classify_dentry (fat_dentry_t.ofList [0xe5, 0, 0, 0, 0, 0, 0, 0, 0, 0, 0, 0x20])
      = FAT_DENTRY_FREE ∧
    fat_classify_dentry (fat_dentry_t.ofList [0x00, 0, 0, 0, 0, 0, 0, 0, 0, 0, 0, 0x20])
      = FAT_DENTRY_LAST :=
  ⟨(fat_classify_dentry_table
      (fat_dentry_t.ofList [0xe5, 0, 0, 0, 0, 0, 0, 0, 0, 0, 0, 0x08])).2 (by decide) |>.1
      (by decide),
   (fat_classify_dentry_table
      (fat_dentry_t.ofList [0xe5, 0, 0, 0, 0, 0, 0, 0, 0, 0, 0, 0x20])).2 (by decide) |>.2.1
      (by decide) (by decide),
   (fat_classify_dentry_table
      (fat_dentry_t.ofList [0x00, 0, 0, 0, 0, 0, 0, 0, 0, 0, 0, 0x20])).2 (by decide) |>.2.2.1
      (by decide) (by decide)⟩

/-! ## The short-name checksum -/

theorem fat_dentry_chksum_step_lt (sum b : Nat) : fat_dentry_chksum_step sum b < 256 := by
  unfold fat_dentry_chksum_step
  omega

theorem fat_dentry_chksum_step_eq (sum b : Nat) (h : sum < 256) :
    fat_dentry_chksum_step sum b = (rotate_right8 sum + b) % 256 := by
  unfold fat_dentry_chksum_step rotate_right8
  have h1 : sum &&& 1 = sum % 2 := Nat.and_one_is_mod sum
  have h2 : sum >>> 1 = sum / 2 := by simp [Nat.shiftRight_eq_div_pow]
  rw [h1, h2, Nat.mod_eq_of_lt h]
  rcases Nat.mod_two_eq_zero_or_one sum with h3 | h3 <;> simp [h3]
  all_goals omega

theorem fat_dentry_chksum_loop_eq (name : Nat → Nat) (cnt : Nat) :
    ∀ i sum, sum < 256 →
      fat_dentry_chksum_loop name cnt i sum
        = (((List.range cnt).map (fun k => name (i + k))).foldl
            (fun acc b => (rotate_right8 acc + b) % 256) sum) := by
  induction cnt with
  | zero => intro i sum _; simp [fat_dentry_chksum_loop]
  | succ n ih =>
    intro i sum h
    rw [fat_dentry_chksum_loop, ih (i + 1) _ (fat_dentry_chksum_step_lt _ _),
      List.range_succ_eq_map, fat_dentry_chksum_step_eq _ _ h]
    simp only [List.map_cons, List.map_map, List.foldl_cons, Nat.add_zero]
    congr 2
    funext k
    simp [Nat.add_assoc, Nat.add_comm 1 k]

theorem fat_dentry_chksum_loop_lt (name : Nat → Nat) (cnt : Nat) :
    ∀ i sum, sum < 256 → fat_dentry_chksum_loop name cnt i sum < 256 := by
  induction cnt with
  | zero => intro i sum h; simpa [fat_dentry_chksum_loop] using h
  | succ n ih =>
    intro i sum _
    rw [fat_dentry_chksum_loop]
    exact ih _ _ (fat_dentry_chksum_step_lt _ _)

/-- C7: for every array `b`, `fat_dentry_chksum b` is the value obtained from
0 by rotating the 8-bit accumulator right by one bit and adding the byte
modulo 256, for each of the bytes `b[0] .. b[10]` in order; so it is a
function of these 11 bytes only, and it is below 256. -/
theorem fat_dentry_chksum_rotate (b : Nat → Nat) :
    fat_dentry_chksum b = chksum_spec ((List.range 11).map b) ∧ fat_dentry_chksum b < 256 := by
  constructor
  · unfold fat_dentry_chksum chksum_spec
    rw [fat_dentry_chksum_loop_eq b _ 0 0 (by decide)]
    simp [FAT_NAME_LEN, FAT_EXT_LEN]
  · exact fat_dentry_chksum_loop_lt b _ 0 0 (by decide)

/-- C7, at the name `TEST    TXT`: the checksum is 0x8F, computed by the code
and by the rotate-and-add formula alike. -/
theorem fat_dentry_chksum_rotate_witness :
    fat_dentry_chksum (bytes [84, 69, 83, 84, 32, 32, 32, 32, 84, 88, 84]) = 143 ∧
    chksum_spec [84, 69, 83, 84, 32, 32, 32, 32, 84, 88, 84] = 143 := by
  have h := (fat_dentry_chksum_rotate (bytes [84, 69, 83, 84, 32, 32, 32, 32, 84, 88, 84])).1
  have h2 : chksum_spec [84, 69, 83, 84, 32, 32, 32, 32, 84, 88, 84] = 143 := by decide
  refine ⟨?_, h2⟩
  rw [h]
  exact h2


/-! ## Validation of 8.3 names -/

theorem is_d_char_iff (c : Nat) :
    is_d_char c = true ↔ (isalpha c = true ∨ isdigit c = true ∨ c = 95) := by
  simp [is_d_char, isalnum, or_assoc]

theorem is_d_char_ne_zero {c : Nat} (h : is_d_char c = true) : c ≠ 0 := by
  simp [is_d_char, isalnum, isalpha, islower, isupper, isdigit] at h
  omega

theorem is_d_char_ne_dot {c : Nat} (h : is_d_char c = true) : c ≠ 46 := by
  simp [is_d_char, isalnum, isalpha, islower, isupper, isdigit] at h
  omega

/-- The verification loop walks over a run of name characters, counting them. -/
theorem fat_dentry_name_verify_loop_run (base : List Nat)
    (hb : ∀ c ∈ base, is_d_char c = true) :
    ∀ (r : List Nat) (i dot : Nat) (df : Bool),
      fat_dentry_name_verify_loop (base ++ r) i dot df
        = fat_dentry_name_verify_loop r (i + base.length) dot df := by
  induction base with
  | nil => intro r i dot df; simp
  | cons c cs ih =>
    intro r i dot df
    have hc : is_d_char c = true := hb c (List.mem_cons_self _ _)
    have h0 := is_d_char_ne_zero hc
    have h1 := is_d_char_ne_dot hc
    rw [List.cons_append, fat_dentry_name_verify_loop]
    simp only [h0, h1, hc, if_false, Bool.not_true]
    rw [ih (fun x hx => hb x (List.mem_cons_of_mem _ hx))]
    simp [Nat.add_assoc, Nat.add_comm 1]

/-- Every string splits into its leading run of name characters and a rest
that is empty or starts with another character. -/
theorem d_char_split (name : List Nat) :
    ∃ base r, name = base ++ r ∧ (∀ c ∈ base, is_d_char c = true) ∧
      (r = [] ∨ ∃ c r1, r = c :: r1 ∧ is_d_char c = false) := by
  refine ⟨name.takeWhile is_d_char, name.dropWhile is_d_char,
    (List.takeWhile_append_dropWhile _ _).symm, fun c hc => List.mem_takeWhile_imp hc, ?_⟩
  cases h : name.dropWhile is_d_char with
  | nil => exact Or.inl rfl
  | cons c r1 =>
    refine Or.inr ⟨c, r1, rfl, ?_⟩
    have := List.head_dropWhile_not is_d_char name (by simp [h])
    simpa [h] using this

/-- The verification loop once a dot has been seen. -/
theorem fat_dentry_name_verify_loop_after_dot (r : List Nat) (h0 : 0 ∉ r) (i dot : Nat) :
    (∀ c ∈ r, is_d_char c = true) ∧
      fat_dentry_name_verify_loop r i dot true = some (i + r.length, dot, true)
    ∨ (¬ (∀ c ∈ r, is_d_char c = true)) ∧ fat_dentry_name_verify_loop r i dot true = none := by
  obtain ⟨base, r1, rfl, hb, hr⟩ := d_char_split r
  rw [fat_dentry_name_verify_loop_run base hb]
  rcases hr with rfl | ⟨c, r2, rfl, hc⟩
  · left
    refine ⟨by simpa using hb, by simp [fat_dentry_name_verify_loop]⟩
  · right
    have hc0 : c ≠ 0 := by
      intro h; apply h0; simp [h]
    refine ⟨fun hall => ?_, ?_⟩
    · have := hall c (by simp)
      simp [hc] at this
    · rw [fat_dentry_name_verify_loop]
      by_cases h46 : c = 46 <;> simp [hc0, h46, hc]

/-- C6: for a C string `name` (a list of bytes without NUL),
`fat_dentry_name_verify name` is true if and only if every character is an
ASCII letter, a digit, an underscore or a dot, there is at most one dot, and
either there is no dot and the name has at most 8 characters, or the part
before the dot has at most 8 and the part after it at most 3 characters. -/
theorem fat_dentry_name_verify_iff (name : List Nat) (h0 : 0 ∉ name) :
    fat_dentry_name_verify name = true ↔
      (∀ c ∈ name, isalpha c = true ∨ isdigit c = true ∨ c = 95 ∨ c = 46) ∧
      name.count 46 ≤ 1 ∧
      ((46 ∉ name ∧ name.length ≤ 8) ∨
        (∃ base ext, name = base ++ 46 :: ext ∧ base.length ≤ 8 ∧ ext.length ≤ 3)) := by
  obtain ⟨base, r, rfl, hb, hr⟩ := d_char_split name
  have hbdot : 46 ∉ base := fun h => is_d_char_ne_dot (hb 46 h) rfl
  have hbok : ∀ c ∈ base, isalpha c = true ∨ isdigit c = true ∨ c = 95 ∨ c = 46 := by
    intro c hc
    rcases (is_d_char_iff c).1 (hb c hc) with h | h | h
    · exact Or.inl h
    · exact Or.inr (Or.inl h)
    · exact Or.inr (Or.inr (Or.inl h))
  unfold fat_dentry_name_verify
  rw [fat_dentry_name_verify_loop_run base hb]
  rcases hr with rfl | ⟨c, r1, rfl, hc⟩
  · -- no dot at all
    simp only [fat_dentry_name_verify_loop, List.append_nil, Nat.zero_add, FAT_NAME_LEN]
    have hcount : List.count 46 base = 0 := List.count_eq_zero.2 hbdot
    constructor
    · intro h
      refine ⟨hbok, by omega, Or.inl ⟨hbdot, ?_⟩⟩
      by_contra hlen
      simp [Nat.lt_of_not_le hlen] at h
    · rintro ⟨_, _, ⟨_, hlen⟩ | ⟨b2, e2, heq, _, _⟩⟩
      · simp [Nat.not_lt.2 hlen]
      · exact absurd (heq ▸ (by simp : (46 : Nat) ∈ b2 ++ 46 :: e2)) hbdot
  · have hc0 : c ≠ 0 := by
      intro h; apply h0; simp [h]
    by_cases h46 : c = 46
    · -- the first dot
      subst h46
      have h0r : 0 ∉ r1 := fun h => h0 (by simp [h])
      rw [fat_dentry_name_verify_loop]
      simp only [if_pos, if_false, Bool.false_eq_true, Nat.zero_add]
      simp only [show ((46 : Nat) = 0) = False from by simp, if_false]
      rcases fat_dentry_name_verify_loop_after_dot r1 h0r (base.length + 1) base.length with
        ⟨hall, hloop⟩ | ⟨hnall, hloop⟩
      · rw [hloop]
        have hrdot : 46 ∉ r1 := fun h => is_d_char_ne_dot (hall 46 h) rfl
        have hcount : List.count 46 (base ++ 46 :: r1) = 1 := by
          simp [List.count_append, List.count_cons, List.count_eq_zero.2 hbdot,
            List.count_eq_zero.2 hrdot]
        simp only [FAT_NAME_LEN, FAT_EXT_LEN, if_true]
        constructor
        · intro h
          refine ⟨?_, by omega, Or.inr ⟨base, r1, rfl, ?_, ?_⟩⟩
          · intro x hx
            rcases List.mem_append.1 hx with hx | hx
            · exact hbok x hx
            · rcases List.mem_cons.1 hx with hx | hx
              · exact Or.inr (Or.inr (Or.inr hx))
              · rcases (is_d_char_iff x).1 (hall x hx) with h | h | h
                · exact Or.inl h
                · exact Or.inr (Or.inl h)
                · exact Or.inr (Or.inr (Or.inl h))
          · by_contra hlen
            simp [Nat.lt_of_not_le hlen] at h
          · by_contra hlen
            have : base.length + 1 + r1.length - base.length > 3 + 1 := by omega
            simp [this] at h
        · rintro ⟨_, _, ⟨hno, _⟩ | ⟨b2, e2, heq, hb2, he2⟩⟩
          · exact absurd (by simp) hno
          · have hb2dot : 46 ∉ b2 := by
              intro hin
              have : List.count 46 (b2 ++ 46 :: e2) ≥ 2 := by
                have := List.count_pos_iff.2 hin
                simp [List.count_append, List.count_cons]
                omega
              rw [← heq] at this
              omega
            have hsplit := List.append_eq_append_iff.1 heq
            have hbase : base = b2 := by
              rcases hsplit with ⟨a, h1, h2⟩ | ⟨a, h1, h2⟩
              · cases a with
                | nil => simpa using h1.symm
                | cons x xs =>
                  simp at h2
                  exact absurd (h1 ▸ (by simp [h2.1] : (46 : Nat) ∈ base ++ x :: xs)) hb2dot
              · cases a with
                | nil => simpa using h1
                | cons x xs =>
                  simp at h2
                  exact absurd (h1 ▸ (by simp [h2.1] : (46 : Nat) ∈ b2 ++ x :: xs)) hbdot
            subst hbase
            have he : r1 = e2 := by simpa using heq
            subst he
            have h1 : ¬ (base.length > 8) := by omega
            have h2 : ¬ (base.length + 1 + r1.length - base.length > 3 + 1) := by omega
            simp [h1, h2]
      · rw [hloop]
        simp only [Bool.false_eq_true, false_iff, not_and]
        intro hok hcnt _
        apply hnall
        intro x hx
        have hx46 : x ≠ 46 := by
          intro h; subst h
          have : List.count 46 (base ++ 46 :: r1) ≥ 2 := by
            have := List.count_pos_iff.2 hx
            simp [List.count_append, List.count_cons]
            omega
          omega
        rcases hok x (by simp [hx]) with h | h | h | h
        · exact (is_d_char_iff x).2 (Or.inl h)
        · exact (is_d_char_iff x).2 (Or.inr (Or.inl h))
        · exact (is_d_char_iff x).2 (Or.inr (Or.inr h))
        · exact absurd h hx46
    · -- a character that is neither a name character nor a dot
      rw [fat_dentry_name_verify_loop]
      simp only [hc0, h46, hc, if_false, Bool.not_false, if_true, Bool.false_eq_true, false_iff,
        not_and]
      intro hok
      exfalso
      rcases hok c (by simp) with h | h | h | h
      · have := (is_d_char_iff c).2 (Or.inl h); simp [hc] at this
      · have := (is_d_char_iff c).2 (Or.inr (Or.inl h)); simp [hc] at this
      · have := (is_d_char_iff c).2 (Or.inr (Or.inr h)); simp [hc] at this
      · exact h46 h


/-- C6, at the names of the specification: `README.TXT` is accepted through
the characterisation, the empty name and `README` are accepted, `a.b.c`,
`toolongname` and `hi!` are rejected. -/
theorem fat_dentry_name_verify_iff_witness :
    fat_dentry_name_verify [82, 69, 65, 68, 77, 69, 46, 84, 88, 84] = true ∧
    fat_dentry_name_verify [] = true ∧
    fat_dentry_name_verify [82, 69, 65, 68, 77, 69] = true ∧
    fat_dentry_name_verify [97, 46, 98, 46, 99] = false ∧
    fat_dentry_name_verify [116, 111, 111, 108, 111, 110, 103, 110, 97, 109, 101] = false ∧
    fat_dentry_name_verify [104, 105, 33] = false :=
  ⟨(fat_dentry_name_verify_iff [82, 69, 65, 68, 77, 69, 46, 84, 88, 84] (by decide)).2
      ⟨by decide, by decide,
        Or.inr ⟨[82, 69, 65, 68, 77, 69], [84, 88, 84], rfl, by decide, by decide⟩⟩,
    by decide, by decide, by decide, by decide, by decide⟩

/-! ## Comparison of a stored name with a path component -/

theorem tolower_eq_zero_iff (c : Nat) : tolower c = 0 ↔ c = 0 := by
  unfold tolower isupper
  by_cases h : 65 ≤ c ∧ c ≤ 90 <;> simp [h]
  all_goals omega

/-- The case-insensitive comparison returns 0 exactly on strings that are
equal after `tolower`. -/
theorem stricmp_eq_zero_iff (a : List Nat) :
    ∀ (b : List Nat), 0 ∉ a → 0 ∉ b →
      (stricmp a b = 0 ↔ a.map tolower = b.map tolower) := by
  induction a with
  | nil =>
    intro b _ hb
    cases b with
    | nil => simp [stricmp]
    | cons y ys =>
      have hy : y ≠ 0 := fun h => hb (by simp [h])
      have : tolower y ≠ 0 := fun h => hy ((tolower_eq_zero_iff y).1 h)
      simp only [stricmp, List.map_nil, List.map_cons]
      constructor
      · intro h
        have h0 : tolower 0 = 0 := (tolower_eq_zero_iff 0).2 rfl
        rw [h0] at h
        omega
      · intro h; cases h
  | cons x xs ih =>
    intro b ha hb
    have hx : x ≠ 0 := fun h => ha (by simp [h])
    have hxs : 0 ∉ xs := fun h => ha (by simp [h])
    cases b with
    | nil =>
      have : tolower x ≠ 0 := fun h => hx ((tolower_eq_zero_iff x).1 h)
      simp only [stricmp, List.map_nil, List.map_cons]
      constructor
      · intro h
        have h0 : tolower 0 = 0 := (tolower_eq_zero_iff 0).2 rfl
        rw [h0] at h
        omega
      · intro h; cases h
    | cons y ys =>
      have hy : y ≠ 0 := fun h => hb (by simp [h])
      have hys : 0 ∉ ys := fun h => hb (by simp [h])
      rw [stricmp]
      by_cases hxy : tolower x = tolower y
      · rw [if_pos ⟨hx, hy, hxy⟩, ih ys hxs hys]
        simp [hxy]
      · rw [if_neg (fun h => hxy h.2.2)]
        simp only [List.map_cons, List.cons.injEq, hxy, false_and, iff_false]
        omega

/-- A list of bytes without NUL is the C string it holds. -/
theorem cstr_eq_self (s : List Nat) (h : 0 ∉ s) : cstr s = s := by
  unfold cstr
  rw [List.takeWhile_eq_self_iff]
  intro c hc
  have : c ≠ 0 := fun h0 => h (h0 ▸ hc)
  simpa using this

/-- C8: for C strings `name` and `component`, `fat_dentry_namecmp` returns 0
if and only if the two are equal ignoring letter case, or `name` holds no dot
and `name` followed by one dot equals `component` ignoring letter case. -/
theorem fat_dentry_namecmp_eq_zero_iff (name component : List Nat)
    (hn : 0 ∉ name) (hc : 0 ∉ component) :
    fat_dentry_namecmp name component = 0 ↔
      (name.map tolower = component.map tolower ∨
        (46 ∉ name ∧ (name ++ [46]).map tolower = component.map tolower)) := by
  have hdot : 0 ∉ name ++ [46] := by
    intro h
    rcases List.mem_append.1 h with h | h
    · exact hn h
    · simp at h
  unfold fat_dentry_namecmp
  simp only [str_chr, str_size, cstr_eq_self name hn, List.take_length]
  by_cases h1 : stricmp name component = 0
  · simp only [h1, if_true, true_iff]
    exact Or.inl ((stricmp_eq_zero_iff name component hn hc).1 h1)
  · have h1' : ¬ (name.map tolower = component.map tolower) :=
      fun h => h1 ((stricmp_eq_zero_iff name component hn hc).2 h)
    simp only [h1, if_false]
    by_cases h2 : 46 ∈ name
    · have : name.contains 46 = true := by simpa using h2
      simp [this, h1, h1', h2]
    · have : name.contains 46 = false := by simpa using h2
      simp only [this, Bool.not_false, if_true]
      rw [stricmp_eq_zero_iff _ _ hdot hc]
      simp [h1', h2]

/-- C8, at the names of the specification: `FOO` matches `foo` and `foo.`,
`FOO.BAR` matches `foo.bar`, and `FOO` does not match `bar`. -/
theorem fat_dentry_namecmp_eq_zero_iff_witness :
    fat_dentry_namecmp [70, 79, 79] [102, 111, 111] = 0 ∧
    fat_dentry_namecmp [70, 79, 79] [102, 111, 111, 46] = 0 ∧
    fat_dentry_namecmp [70, 79, 79, 46, 66, 65, 82] [102, 111, 111, 46, 98, 97, 114] = 0 ∧
    fat_dentry_namecmp [70, 79, 79] [98, 97, 114] ≠ 0 :=
  ⟨(fat_dentry_namecmp_eq_zero_iff [70, 79, 79] [102, 111, 111] (by decide) (by decide)).2
      (Or.inl (by decide)),
   (fat_dentry_namecmp_eq_zero_iff [70, 79, 79] [102, 111, 111, 46] (by decide) (by decide)).2
      (Or.inr ⟨by decide, by decide⟩),
   (fat_dentry_namecmp_eq_zero_iff [70, 79, 79, 46, 66, 65, 82]
      [102, 111, 111, 46, 98, 97, 114] (by decide) (by decide)).2 (Or.inl (by decide)),
   fun h => absurd
     ((fat_dentry_namecmp_eq_zero_iff [70, 79, 79] [98, 97, 114] (by decide) (by decide)).1 h)
     (by decide)⟩

/-! ## Conversion of long file names -/

theorem shl8_or_eq (lo hi : Nat) (hlo : lo < 256) (hhi : hi < 256) :
    ((lo <<< 8) ||| hi) % 2 ^ 16 = 256 * lo + hi := by
  have h := Nat.mul_add_lt_is_or (show hi < 2 ^ 8 from hhi) lo
  rw [Nat.shiftLeft_eq, Nat.mul_comm lo (2 ^ 8), ← h]
  have : 2 ^ 8 * lo + hi < 2 ^ 16 := by norm_num; omega
  rw [Nat.mod_eq_of_lt this]
  norm_num

/-- C9 (the code's behaviour): when the first code unit of the source is
stored as the bytes `(lo, hi)` with `hi ≠ 0`, the code point handed to
`chr_encode` is `256 * lo + hi`: the byte at the even offset is taken as the
high byte, so the unit is read in big-endian order. -/
theorem fat_lfn_convert_name_code_point
    (chr_encode : Nat → (Nat → Nat) → Nat → Nat → Int × (Nat → Nat) × Nat)
    (src : Nat → Nat) (src_size : Nat) (dst : Nat → Nat) (dst_size : Nat)
    (hsize : 0 < src_size) (hlo : src 0 < 256) (hhi : src 1 < 256) (hnz : src 1 ≠ 0) :
    fat_lfn_convert_name chr_encode src src_size dst dst_size =
      if (chr_encode (256 * src 0 + src 1) dst 0 dst_size).1 ≠ EOK then
        ((chr_encode (256 * src 0 + src 1) dst 0 dst_size).1,
         (chr_encode (256 * src 0 + src 1) dst 0 dst_size).2.1)
      else
        fat_lfn_convert_name_loop chr_encode src dst_size ((src_size + 1) / 2 - 1) 2
          (chr_encode (256 * src 0 + src 1) dst 0 dst_size).2.1
          (chr_encode (256 * src 0 + src 1) dst 0 dst_size).2.2 := by
  unfold fat_lfn_convert_name
  obtain ⟨k, hk⟩ : ∃ k, (src_size + 1) / 2 = k + 1 := ⟨(src_size + 1) / 2 - 1, by omega⟩
  rw [hk, fat_lfn_convert_name_loop]
  simp only [Nat.zero_add, hnz, if_false, shl8_or_eq _ _ hlo hhi, Nat.add_sub_cancel]

/-- C9, at the code unit U+0141 stored little-endian as the bytes 0x41, 0x01:
the code point that reaches the encoder is 0x4101, not 0x0141. -/
theorem fat_lfn_convert_name_code_point_witness :
    (fat_lfn_convert_name chr_encode_probe (bytes [0x41, 0x01]) 2 (fun _ => 0) 8).2 0 = 0x4101 ∧
    (0x4101 : Nat) ≠ 0x41 + 256 * 0x01 := by
  have h := fat_lfn_convert_name_code_point chr_encode_probe (bytes [0x41, 0x01]) 2
    (fun _ => 0) 8 (by decide) (by decide) (by decide) (by decide)
  refine ⟨?_, by decide⟩
  rw [h]
  simp [chr_encode_probe, bytes, EOK, fat_lfn_convert_name_loop]


/-- The loop of `fat_lfn_convert_name` on code units with a zero high byte,
started at unit `j` with `offset = j`. -/
theorem fat_lfn_convert_name_loop_ascii
    (chr_encode : Nat → (Nat → Nat) → Nat → Nat → Int × (Nat → Nat) × Nat)
    (src : Nat → Nat) (dst_size : Nat) :
    ∀ (cnt j : Nat) (dst : Nat → Nat),
      (∀ k, j ≤ k → k < j + cnt → src (2 * k + 1) = 0) → j < dst_size →
      (j + cnt < dst_size →
        (fat_lfn_convert_name_loop chr_encode src dst_size cnt (2 * j) dst j).1 = EOK ∧
        (∀ k, j ≤ k → k < j + cnt →
          (fat_lfn_convert_name_loop chr_encode src dst_size cnt (2 * j) dst j).2 k
            = src (2 * k)) ∧
        (fat_lfn_convert_name_loop chr_encode src dst_size cnt (2 * j) dst j).2 (j + cnt) = 0 ∧
        (∀ k, k < j →
          (fat_lfn_convert_name_loop chr_encode src dst_size cnt (2 * j) dst j).2 k = dst k)) ∧
      (¬ j + cnt < dst_size →
        (fat_lfn_convert_name_loop chr_encode src dst_size cnt (2 * j) dst j).1 = EOVERFLOW ∧
        (∀ idx, dst_size - 1 ≤ idx →
          (fat_lfn_convert_name_loop chr_encode src dst_size cnt (2 * j) dst j).2 idx
            = dst idx)) := by
  intro cnt
  induction cnt with
  | zero =>
    intro j dst _ hj
    simp only [fat_lfn_convert_name_loop, Nat.add_zero]
    refine ⟨fun _ => ⟨trivial, ?_, ?_, ?_⟩, fun h => absurd hj h⟩
    · intro k h1 h2; omega
    · simp
    · intro k hk
      rw [Function.update_noteq (by omega)]
  | succ n ih =>
    intro j dst hsrc hj
    have h0 : src (2 * j + 1) = 0 := hsrc j (Nat.le_refl _) (by omega)
    rw [fat_lfn_convert_name_loop]
    simp only [h0, if_true]
    by_cases hroom : j + 1 < dst_size
    · simp only [hroom, if_true]
      have hrec := ih (j + 1) (Function.update dst j (src (2 * j)))
        (fun k h1 h2 => hsrc k (by omega) (by omega)) hroom
      have e : 2 * (j + 1) = 2 * j + 2 := by ring
      rw [e] at hrec
      obtain ⟨hok, hov⟩ := hrec
      refine ⟨fun hlt => ?_, fun hge => ?_⟩
      · obtain ⟨h1, h2, h3, h4⟩ := hok (by omega)
        refine ⟨h1, ?_, ?_, ?_⟩
        · intro k hk1 hk2
          by_cases hkj : k = j
          · subst hkj
            rw [h4 k (by omega)]
            simp
          · exact h2 k (by omega) (by omega)
        · have : j + (n + 1) = j + 1 + n := by omega
          rw [this]; exact h3
        · intro k hk
          rw [h4 k (by omega), Function.update_noteq (by omega)]
      · obtain ⟨h1, h2⟩ := hov (by omega)
        refine ⟨h1, fun idx hidx => ?_⟩
        rw [h2 idx hidx, Function.update_noteq (by omega)]
    · simp only [hroom, if_false]
      exact ⟨fun hlt => by omega, fun _ => ⟨trivial, fun _ _ => trivial⟩⟩

/-- C10: for a source of `n` code units that all have a zero high byte and a
destination of size at least 1, `fat_lfn_convert_name` returns `EOK` exactly
when `n < dst_size`; then `dst[0..n)` holds the `n` low bytes in order and
`dst[n]` is 0. Otherwise it returns `EOVERFLOW` and no byte at an index
`≥ dst_size - 1` has been changed. -/
theorem fat_lfn_convert_name_ascii
    (chr_encode : Nat → (Nat → Nat) → Nat → Nat → Int × (Nat → Nat) × Nat)
    (src : Nat → Nat) (n : Nat) (dst : Nat → Nat) (dst_size : Nat)
    (hhi : ∀ k, k < n → src (2 * k + 1) = 0) (hsz : 1 ≤ dst_size) :
    ((fat_lfn_convert_name chr_encode src (2 * n) dst dst_size).1 = EOK ↔ n < dst_size) ∧
    (n < dst_size →
      (∀ k, k < n → (fat_lfn_convert_name chr_encode src (2 * n) dst dst_size).2 k
        = src (2 * k)) ∧
      (fat_lfn_convert_name chr_encode src (2 * n) dst dst_size).2 n = 0) ∧
    (¬ n < dst_size →
      (fat_lfn_convert_name chr_encode src (2 * n) dst dst_size).1 = EOVERFLOW ∧
      (∀ idx, dst_size - 1 ≤ idx →
        (fat_lfn_convert_name chr_encode src (2 * n) dst dst_size).2 idx = dst idx)) := by
  have hcnt : (2 * n + 1) / 2 = n := by omega
  have h := fat_lfn_convert_name_loop_ascii chr_encode src dst_size n 0 dst
    (fun k _ hk => hhi k (by omega)) (by omega)
  simp only [Nat.mul_zero, Nat.zero_add] at h
  unfold fat_lfn_convert_name
  rw [hcnt]
  obtain ⟨hok, hov⟩ := h
  refine ⟨⟨fun heq => ?_, fun hlt => (hok hlt).1⟩, fun hlt => ?_, fun hge => hov hge⟩
  · by_contra hge
    rw [(hov hge).1] at heq
    exact absurd heq (by decide)
  · obtain ⟨_, h2, h3, _⟩ := hok hlt
    exact ⟨fun k hk => h2 k (Nat.zero_le _) hk, h3⟩

/-- C10, at the three code units `A`, `B`, `C`: with a destination of 4 bytes
the result is `EOK` and the string `ABC`; with a destination of 3 bytes the
result is `EOVERFLOW` and the bytes from index 2 on are untouched. -/
theorem fat_lfn_convert_name_ascii_witness :
    ((fat_lfn_convert_name chr_encode_probe (bytes [65, 0, 66, 0, 67, 0]) (2 * 3)
        (fun _ => 255) 4).1 = EOK ↔ 3 < 4) ∧
    (fat_lfn_convert_name chr_encode_probe (bytes [65, 0, 66, 0, 67, 0]) (2 * 3)
        (fun _ => 255) 4).2 3 = 0 ∧
    (fat_lfn_convert_name chr_encode_probe (bytes [65, 0, 66, 0, 67, 0]) (2 * 3)
        (fun _ => 255) 3).1 = EOVERFLOW ∧
    (fat_lfn_convert_name chr_encode_probe (bytes [65, 0, 66, 0, 67, 0]) (2 * 3)
        (fun _ => 255) 3).2 2 = 255 := by
  have hsrc : ∀ k, k < 3 → bytes [65, 0, 66, 0, 67, 0] (2 * k + 1) = 0 := by decide
  have h4 := fat_lfn_convert_name_ascii chr_encode_probe (bytes [65, 0, 66, 0, 67, 0]) 3
    (fun _ => 255) 4 hsrc (by decide)
  have h3 := fat_lfn_convert_name_ascii chr_encode_probe (bytes [65, 0, 66, 0, 67, 0]) 3
    (fun _ => 255) 3 hsrc (by decide)
  exact ⟨h4.1, (h4.2.1 (by decide)).2, (h3.2.2 (by decide)).1,
    (h3.2.2 (by decide)).2 2 (by decide)⟩


/-! ## The 8.3 name round trip -/

theorem d_char_facts {c : Nat} (h : is_d_char c = true) :
    c ≠ 0xe5 ∧ c ≠ 0 ∧ c ≠ 46 ∧ toupper c % 256 = toupper c ∧ toupper c ≠ FAT_PAD ∧
      toupper c ≠ FAT_DENTRY_E5_ESC ∧ (isalpha c && !islower c) = isupper c ∧
      (isupper c = false → tolower (toupper c) = c) := by
  simp only [is_d_char, isalnum, isalpha, islower, isupper, isdigit, Bool.or_eq_true,
    Bool.and_eq_true, decide_eq_true_eq, ite_eq_left_iff, Bool.not_eq_true] at h
  have hc : (97 ≤ c ∧ c ≤ 122) ∨ (65 ≤ c ∧ c ≤ 90) ∨ (48 ≤ c ∧ c ≤ 57) ∨ c = 95 := by
    by_contra hn
    have := h (by omega)
    simp at this
  unfold toupper tolower islower isupper isalpha FAT_PAD FAT_DENTRY_E5_ESC
  rcases hc with hc | hc | hc | hc
  · have h1 : (decide (97 ≤ c) && decide (c ≤ 122)) = true := by simp [hc]
    have h2 : (decide (65 ≤ c) && decide (c ≤ 90)) = false := by
      simp only [Bool.and_eq_false_iff, decide_eq_false_iff_not, not_le]; omega
    have h3 : (decide (65 ≤ c - 32) && decide (c - 32 ≤ 90)) = true := by
      simp only [Bool.and_eq_true, decide_eq_true_eq]; omega
    simp only [islower, isupper, h1, h2, h3, if_true]
    refine ⟨by omega, by omega, by omega, by omega, by omega, by omega, by simp, ?_⟩
    intro _; omega
  · have h1 : (decide (97 ≤ c) && decide (c ≤ 122)) = false := by
      simp only [Bool.and_eq_false_iff, decide_eq_false_iff_not, not_le]; omega
    have h2 : (decide (65 ≤ c) && decide (c ≤ 90)) = true := by simp [hc]
    simp only [islower, isupper, h1, h2, if_true]
    refine ⟨by omega, by omega, by omega, ?_, ?_, ?_, by simp, ?_⟩
    · simp; omega
    · simp; omega
    · simp; omega
    · intro hf; simp at hf
  · have h1 : (decide (97 ≤ c) && decide (c ≤ 122)) = false := by
      simp only [Bool.and_eq_false_iff, decide_eq_false_iff_not, not_le]; omega
    have h2 : (decide (65 ≤ c) && decide (c ≤ 90)) = false := by
      simp only [Bool.and_eq_false_iff, decide_eq_false_iff_not, not_le]; omega
    simp only [islower, isupper, h1, h2]
    refine ⟨by omega, by omega, by omega, ?_, ?_, ?_, by simp, ?_⟩
    · simp; omega
    · simp; omega
    · simp; omega
    · intro _; simp; omega
  · subst hc
    decide


theorem set_name_raw (d : fat_dentry_t) (i v j : Nat) :
    (d.set_name i v).raw j = if j = i then v else d.raw j := by
  simp [fat_dentry_t.set_name, Function.update_apply]

theorem set_ext_raw (d : fat_dentry_t) (i v j : Nat) :
    (d.set_ext i v).raw j = if j = 8 + i then v else d.raw j := by
  simp [fat_dentry_t.set_ext, Function.update_apply]

theorem set_lcase_raw (d : fat_dentry_t) (v j : Nat) :
    (d.set_lcase v).raw j = if j = 12 then v else d.raw j := by
  simp [fat_dentry_t.set_lcase, Function.update_apply]

/-- The first loop of `fat_dentry_name_set` on a run `base` of name
characters that is followed by the end of the string or by a dot: the run is
stored in upper case, the rest of the field is padded, the pointer stops
behind the run, and the flag records whether the run has an upper-case
letter. -/
theorem fat_dentry_name_set_name_run :
    ∀ (cnt i : Nat) (d : fat_dentry_t) (base rest : List Nat) (lower : Bool),
      (∀ c ∈ base, is_d_char c = true) → base.length ≤ cnt →
      (deref rest = 0 ∨ deref rest = 46) →
      (fat_dentry_name_set_name cnt i d (base ++ rest) lower).2.1 = rest ∧
      (fat_dentry_name_set_name cnt i d (base ++ rest) lower).2.2
        = (lower && !base.any isupper) ∧
      (∀ j, j < base.length →
        (fat_dentry_name_set_name cnt i d (base ++ rest) lower).1.raw (i + j)
          = toupper (base.getD j 0)) ∧
      (∀ j, base.length ≤ j → j < cnt →
        (fat_dentry_name_set_name cnt i d (base ++ rest) lower).1.raw (i + j) = FAT_PAD) ∧
      (∀ j, (j < i ∨ i + cnt ≤ j) →
        (fat_dentry_name_set_name cnt i d (base ++ rest) lower).1.raw j = d.raw j) := by
  intro cnt
  induction cnt with
  | zero =>
    intro i d base rest lower _ hlen _
    have : base = [] := List.length_eq_zero.1 (Nat.le_zero.1 hlen)
    subst this
    simp [fat_dentry_name_set_name]
  | succ n ih =>
    intro i d base rest lower hb hlen hrest
    cases base with
    | nil =>
      have h1 : deref rest ≠ 0xe5 := by rcases hrest with h | h <;> rw [h] <;> decide
      rw [List.nil_append, fat_dentry_name_set_name, if_neg h1, if_pos hrest]
      obtain ⟨r1, r2, _, r4, r5⟩ := ih (i + 1) (d.set_name i FAT_PAD) [] rest lower
        (by simp) (by simp) hrest
      rw [List.nil_append] at r1 r2 r4 r5
      refine ⟨r1, by simpa using r2, fun j hj => by simp at hj, fun j _ hj => ?_, fun j hj => ?_⟩
      · by_cases hj0 : j = 0
        · subst hj0
          rw [r5 (i + 0) (by omega), set_name_raw]
          simp
        · have e : i + j = i + 1 + (j - 1) := by omega
          rw [e]
          exact r4 (j - 1) (by simp) (by omega)
      · rw [r5 j (by omega), set_name_raw, if_neg (by omega)]
    | cons c cs =>
      have hc := d_char_facts (hb c (List.mem_cons_self _ _))
      obtain ⟨c1, c2, c3, c4, _, _, c7, _⟩ := hc
      have hd : deref (c :: cs ++ rest) = c := rfl
      have ht : (c :: cs ++ rest).tail = cs ++ rest := rfl
      rw [fat_dentry_name_set_name, hd, ht, if_neg c1, if_neg (by simp [c2, c3]), c4, c7]
      obtain ⟨r1, r2, r3, r4, r5⟩ := ih (i + 1) (d.set_name i (toupper c)) cs rest
        (if isupper c = true then false else lower)
        (fun x hx => hb x (List.mem_cons_of_mem _ hx)) (by simpa using hlen) hrest
      refine ⟨r1, ?_, fun j hj => ?_, fun j hj1 hj2 => ?_, fun j hj => ?_⟩
      · rw [r2]
        cases hu : isupper c <;> simp [hu]
      · by_cases hj0 : j = 0
        · subst hj0
          rw [r5 (i + 0) (by omega), set_name_raw]
          simp
        · have e : i + j = i + 1 + (j - 1) := by omega
          obtain ⟨k, rfl⟩ : ∃ k, j = k + 1 := ⟨j - 1, by omega⟩
          rw [e]
          simp only [Nat.add_sub_cancel, List.getD_cons_succ]
          exact r3 k (by simpa using hj)
      · simp only [List.length_cons] at hj1
        have e : i + j = i + 1 + (j - 1) := by omega
        rw [e]
        exact r4 (j - 1) (by omega) (by omega)
      · rw [r5 j (by omega), set_name_raw, if_neg (by omega)]

/-- The second loop of `fat_dentry_name_set` on a run `ext` of name
characters that is followed by the end of the string. -/
theorem fat_dentry_name_set_ext_run :
    ∀ (cnt i : Nat) (d : fat_dentry_t) (ext : List Nat) (lower : Bool),
      (∀ c ∈ ext, is_d_char c = true) → ext.length ≤ cnt →
      (fat_dentry_name_set_ext cnt i d ext lower).2.2 = (lower && !ext.any isupper) ∧
      (∀ j, j < ext.length →
        (fat_dentry_name_set_ext cnt i d ext lower).1.raw (8 + i + j)
          = toupper (ext.getD j 0)) ∧
      (∀ j, ext.length ≤ j → j < cnt →
        (fat_dentry_name_set_ext cnt i d ext lower).1.raw (8 + i + j) = FAT_PAD) ∧
      (∀ j, (j < 8 + i ∨ 8 + i + cnt ≤ j) →
        (fat_dentry_name_set_ext cnt i d ext lower).1.raw j = d.raw j) := by
  intro cnt
  induction cnt with
  | zero =>
    intro i d ext lower _ hlen
    have : ext = [] := List.length_eq_zero.1 (Nat.le_zero.1 hlen)
    subst this
    simp [fat_dentry_name_set_ext]
  | succ n ih =>
    intro i d ext lower hb hlen
    cases ext with
    | nil =>
      have hd : deref ([] : List Nat) = 0 := rfl
      rw [fat_dentry_name_set_ext, hd, if_neg (by decide), if_pos rfl]
      obtain ⟨r2, _, r4, r5⟩ := ih (i + 1) (d.set_ext i FAT_PAD) [] lower (by simp) (by simp)
      refine ⟨by simpa using r2, fun j hj => by simp at hj, fun j _ hj => ?_, fun j hj => ?_⟩
      · by_cases hj0 : j = 0
        · subst hj0
          rw [r5 (8 + i + 0) (by omega), set_ext_raw]
          simp
        · have e : 8 + i + j = 8 + (i + 1) + (j - 1) := by omega
          rw [e]
          exact r4 (j - 1) (by simp) (by omega)
      · rw [r5 j (by omega), set_ext_raw, if_neg (by omega)]
    | cons c cs =>
      have hc := d_char_facts (hb c (List.mem_cons_self _ _))
      obtain ⟨c1, c2, _, c4, _, _, c7, _⟩ := hc
      have hd : deref (c :: cs) = c := rfl
      have ht : (c :: cs).tail = cs := rfl
      rw [fat_dentry_name_set_ext, hd, ht, if_neg c1, if_neg c2, c4, c7]
      obtain ⟨r2, r3, r4, r5⟩ := ih (i + 1) (d.set_ext i (toupper c)) cs
        (if isupper c = true then false else lower)
        (fun x hx => hb x (List.mem_cons_of_mem _ hx)) (by simpa using hlen)
      refine ⟨?_, fun j hj => ?_, fun j hj1 hj2 => ?_, fun j hj => ?_⟩
      · rw [r2]
        cases hu : isupper c <;> simp [hu]
      · by_cases hj0 : j = 0
        · subst hj0
          rw [r5 (8 + i + 0) (by omega), set_ext_raw]
          simp
        · have e : 8 + i + j = 8 + (i + 1) + (j - 1) := by omega
          obtain ⟨k, rfl⟩ : ∃ k, j = k + 1 := ⟨j - 1, by omega⟩
          rw [e]
          simp only [Nat.add_sub_cancel, List.getD_cons_succ]
          exact r3 k (by simpa using hj)
      · simp only [List.length_cons] at hj1
        have e : 8 + i + j = 8 + (i + 1) + (j - 1) := by omega
        rw [e]
        exact r4 (j - 1) (by omega) (by omega)
      · rw [r5 j (by omega), set_ext_raw, if_neg (by omega)]


/-- The first loop of `fat_dentry_name_get` on a name field that holds the
bytes `stored` followed by padding. -/
theorem fat_dentry_name_get_name_run (d : fat_dentry_t) :
    ∀ (cnt i : Nat) (buf stored : List Nat), stored.length ≤ cnt →
      (∀ j, j < stored.length → d.raw (i + j) = stored.getD j 0) →
      (stored.length < cnt → d.raw (i + stored.length) = FAT_PAD) →
      (∀ c ∈ stored, c ≠ FAT_PAD ∧ c ≠ FAT_DENTRY_E5_ESC) →
      fat_dentry_name_get_name d cnt i buf
        = buf ++ stored.map
            (fun c => if d.lcase &&& FAT_LCASE_LOWER_NAME ≠ 0 then tolower c else c) := by
  intro cnt
  induction cnt with
  | zero =>
    intro i buf stored hlen _ _ _
    have : stored = [] := List.length_eq_zero.1 (Nat.le_zero.1 hlen)
    subst this
    simp [fat_dentry_name_get_name]
  | succ n ih =>
    intro i buf stored hlen hst hpad hne
    cases stored with
    | nil =>
      have : d.name i = FAT_PAD := by simpa [fat_dentry_t.name] using hpad (by simp)
      rw [fat_dentry_name_get_name, if_pos this]
      simp
    | cons c cs =>
      have hci : d.name i = c := by simpa [fat_dentry_t.name] using hst 0 (by simp)
      obtain ⟨hc1, hc2⟩ := hne c (List.mem_cons_self _ _)
      have hrec := fun b => ih (i + 1) b cs (by simpa using hlen)
        (fun j hj => by
          have := hst (j + 1) (by simpa using hj)
          simpa [Nat.add_assoc, Nat.add_comm 1 j] using this)
        (fun hj => by
          have := hpad (by simpa using hj)
          simpa [Nat.add_assoc, Nat.add_comm 1] using this)
        (fun x hx => hne x (List.mem_cons_of_mem _ hx))
      rw [fat_dentry_name_get_name, hci, if_neg hc1, if_neg hc2]
      by_cases hl : d.lcase &&& FAT_LCASE_LOWER_NAME ≠ 0
      · rw [if_pos hl, hrec]
        simp [hl]
      · rw [if_neg hl, hrec]
        simp [hl]

/-- The second loop of `fat_dentry_name_get` on an extension field that holds
the bytes `stored` followed by padding. -/
theorem fat_dentry_name_get_ext_run (d : fat_dentry_t) :
    ∀ (cnt i : Nat) (buf stored : List Nat), stored.length ≤ cnt →
      (∀ j, j < stored.length → d.raw (8 + i + j) = stored.getD j 0) →
      (stored.length < cnt → d.raw (8 + i + stored.length) = FAT_PAD) →
      (∀ c ∈ stored, c ≠ FAT_PAD ∧ c ≠ FAT_DENTRY_E5_ESC) →
      fat_dentry_name_get_ext d cnt i buf
        = buf ++ stored.map
            (fun c => if d.lcase &&& FAT_LCASE_LOWER_EXT ≠ 0 then tolower c else c) := by
  intro cnt
  induction cnt with
  | zero =>
    intro i buf stored hlen _ _ _
    have : stored = [] := List.length_eq_zero.1 (Nat.le_zero.1 hlen)
    subst this
    simp [fat_dentry_name_get_ext]
  | succ n ih =>
    intro i buf stored hlen hst hpad hne
    cases stored with
    | nil =>
      have : d.ext i = FAT_PAD := by simpa [fat_dentry_t.ext] using hpad (by simp)
      rw [fat_dentry_name_get_ext, if_pos this]
      simp
    | cons c cs =>
      have hci : d.ext i = c := by simpa [fat_dentry_t.ext] using hst 0 (by simp)
      obtain ⟨hc1, hc2⟩ := hne c (List.mem_cons_self _ _)
      have hrec := fun b => ih (i + 1) b cs (by simpa using hlen)
        (fun j hj => by
          have := hst (j + 1) (by simpa using hj)
          simpa [Nat.add_assoc, Nat.add_comm 1 j] using this)
        (fun hj => by
          have := hpad (by simpa using hj)
          simpa [Nat.add_assoc, Nat.add_comm 1] using this)
        (fun x hx => hne x (List.mem_cons_of_mem _ hx))
      rw [fat_dentry_name_get_ext, hci, if_neg hc1, if_neg hc2]
      by_cases hl : d.lcase &&& FAT_LCASE_LOWER_EXT ≠ 0
      · rw [if_pos hl, hrec]
        simp [hl]
      · rw [if_neg hl, hrec]
        simp [hl]

/-- Reading back a part that was stored in upper case under its case flag
gives the part under the case rule. -/
theorem map_case_flag (p : List Nat) (hp : ∀ c ∈ p, is_d_char c = true) (x : Nat)
    (hx : x ≠ 0 ↔ p.any isupper = false) :
    (p.map toupper).map (fun c => if x ≠ 0 then tolower c else c) = canonical_part p := by
  unfold canonical_part
  cases hany : p.any isupper
  · have hx1 : x ≠ 0 := hx.2 hany
    simp only [hx1, ne_eq, not_false_eq_true, if_true, Bool.false_eq_true, if_false,
      List.map_map]
    conv_rhs => rw [← List.map_id p]
    apply List.map_congr_left
    intro c hc
    have hnu : isupper c = false := by
      have := List.any_eq_false.1 hany c hc
      simpa using this
    simpa using (d_char_facts (hp c hc)).2.2.2.2.2.2.2 hnu
  · have hx1 : ¬ (x ≠ 0) := fun h => by
      have := hx.1 h
      rw [hany] at this
      cases this
    simp [hx1]

/-- Reading an entry whose name and extension fields hold the parts `base`
and `ext` in upper case, padded, with the case flags set accordingly. -/
theorem fat_dentry_name_get_of_layout (d : fat_dentry_t) (base ext : List Nat)
    (hb : ∀ c ∈ base, is_d_char c = true) (he : ∀ c ∈ ext, is_d_char c = true)
    (hbl : base.length ≤ 8) (hel : ext.length ≤ 3)
    (h1 : ∀ j, j < base.length → d.raw j = toupper (base.getD j 0))
    (h2 : ∀ j, base.length ≤ j → j < 8 → d.raw j = FAT_PAD)
    (h3 : ∀ j, j < ext.length → d.raw (8 + j) = toupper (ext.getD j 0))
    (h4 : ∀ j, ext.length ≤ j → j < 3 → d.raw (8 + j) = FAT_PAD)
    (h5 : d.lcase &&& FAT_LCASE_LOWER_NAME ≠ 0 ↔ base.any isupper = false)
    (h6 : d.lcase &&& FAT_LCASE_LOWER_EXT ≠ 0 ↔ ext.any isupper = false) :
    fat_dentry_name_get d
      = canonical_part base ++ (if ext = [] then [] else 46 :: canonical_part ext) := by
  have hstored : ∀ (p : List Nat), (∀ c ∈ p, is_d_char c = true) →
      ∀ c ∈ p.map toupper, c ≠ FAT_PAD ∧ c ≠ FAT_DENTRY_E5_ESC := by
    intro p hp c hc
    obtain ⟨x, hx, rfl⟩ := List.mem_map.1 hc
    have := d_char_facts (hp x hx)
    exact ⟨this.2.2.2.2.1, this.2.2.2.2.2.1⟩
  have hname := fat_dentry_name_get_name_run d 8 0 [] (base.map toupper) (by simpa using hbl)
    (fun j hj => by
      have hj' : j < base.length := by simpa using hj
      rw [Nat.zero_add, h1 j hj', List.getD_eq_getElem _ _ hj, List.getD_eq_getElem _ _ hj']
      simp)
    (fun hj => by
      have hj' : base.length < 8 := by simpa using hj
      simpa using h2 base.length (Nat.le_refl _) hj')
    (hstored base hb)
  have hext := fun b => fat_dentry_name_get_ext_run d 3 0 b (ext.map toupper)
    (by simpa using hel)
    (fun j hj => by
      have hj' : j < ext.length := by simpa using hj
      rw [Nat.add_zero, h3 j hj', List.getD_eq_getElem _ _ hj, List.getD_eq_getElem _ _ hj']
      simp)
    (fun hj => by
      have hj' : ext.length < 3 := by simpa using hj
      simpa using h4 ext.length (Nat.le_refl _) hj')
    (hstored ext he)
  unfold fat_dentry_name_get
  simp only [FAT_NAME_LEN, FAT_EXT_LEN]
  rw [hname, hext, map_case_flag base hb _ h5, map_case_flag ext he _ h6]
  cases ext with
  | nil =>
    have : d.ext 0 = FAT_PAD := by simpa [fat_dentry_t.ext] using h4 0 (by simp) (by decide)
    simp [this, canonical_part]
  | cons c cs =>
    have hne : d.ext 0 ≠ FAT_PAD := by
      have := h3 0 (by simp)
      simp only [Nat.add_zero, List.getD_cons_zero] at this
      simp only [fat_dentry_t.ext, Nat.add_zero, this]
      exact (d_char_facts (he c (List.mem_cons_self _ _))).2.2.2.2.1
    simp [hne]


theorem and_two_pow_ne_zero_iff (x k : Nat) : x &&& 2 ^ k ≠ 0 ↔ x.testBit k = true := by
  constructor
  · intro h
    by_contra hb
    apply h
    apply Nat.eq_of_testBit_eq
    intro i
    simp only [Nat.testBit_and, Nat.testBit_two_pow, Nat.zero_testBit]
    by_cases hik : k = i
    · subst hik; simp [hb]
    · simp [hik]
  · intro h h0
    have := congrArg (fun y => Nat.testBit y k) h0
    simp [Nat.testBit_and, Nat.testBit_two_pow, h] at this

theorem lcase_bits (x : Nat) (b1 b2 : Bool) :
    ((if b2 = true then (if b1 = true then x ||| 8 else x &&& (255 - 8)) ||| 16
        else (if b1 = true then x ||| 8 else x &&& (255 - 8)) &&& (255 - 16)) &&& 8 ≠ 0
      ↔ b1 = true) ∧
    ((if b2 = true then (if b1 = true then x ||| 8 else x &&& (255 - 8)) ||| 16
        else (if b1 = true then x ||| 8 else x &&& (255 - 8)) &&& (255 - 16)) &&& 16 ≠ 0
      ↔ b2 = true) := by
  have e8 := and_two_pow_ne_zero_iff
  have t1 : Nat.testBit 8 3 = true := by decide
  have t2 : Nat.testBit 16 3 = false := by decide
  have t3 : Nat.testBit 247 3 = false := by decide
  have t4 : Nat.testBit 239 3 = true := by decide
  have t5 : Nat.testBit 8 4 = false := by decide
  have t6 : Nat.testBit 16 4 = true := by decide
  have t7 : Nat.testBit 247 4 = true := by decide
  have t8 : Nat.testBit 239 4 = false := by decide
  constructor
  · rw [show (8 : Nat) = 2 ^ 3 from rfl, e8]
    cases b1 <;> cases b2 <;> simp [t1, t2, t3, t4]
  · rw [show (16 : Nat) = 2 ^ 4 from rfl, e8]
    cases b1 <;> cases b2 <;> simp [t5, t6, t7, t8]

/-- The two case flags as `fat_dentry_name_set` leaves them in `lcase`; no
other byte of the entry is touched by the flag updates. -/
theorem name_set_lcase_layout (d2 : fat_dentry_t) (lb le : Bool) :
    (∀ j, j ≠ 12 →
      (if le = true then
          (if lb = true then d2.set_lcase (d2.lcase ||| FAT_LCASE_LOWER_NAME)
            else d2.set_lcase (d2.lcase &&& (255 - FAT_LCASE_LOWER_NAME))).set_lcase
            ((if lb = true then d2.set_lcase (d2.lcase ||| FAT_LCASE_LOWER_NAME)
              else d2.set_lcase (d2.lcase &&& (255 - FAT_LCASE_LOWER_NAME))).lcase
              ||| FAT_LCASE_LOWER_EXT)
        else
          (if lb = true then d2.set_lcase (d2.lcase ||| FAT_LCASE_LOWER_NAME)
            else d2.set_lcase (d2.lcase &&& (255 - FAT_LCASE_LOWER_NAME))).set_lcase
            ((if lb = true then d2.set_lcase (d2.lcase ||| FAT_LCASE_LOWER_NAME)
              else d2.set_lcase (d2.lcase &&& (255 - FAT_LCASE_LOWER_NAME))).lcase
              &&& (255 - FAT_LCASE_LOWER_EXT))).raw j = d2.raw j) ∧
    ((if le = true then
          (if lb = true then d2.set_lcase (d2.lcase ||| FAT_LCASE_LOWER_NAME)
            else d2.set_lcase (d2.lcase &&& (255 - FAT_LCASE_LOWER_NAME))).set_lcase
            ((if lb = true then d2.set_lcase (d2.lcase ||| FAT_LCASE_LOWER_NAME)
              else d2.set_lcase (d2.lcase &&& (255 - FAT_LCASE_LOWER_NAME))).lcase
              ||| FAT_LCASE_LOWER_EXT)
        else
          (if lb = true then d2.set_lcase (d2.lcase ||| FAT_LCASE_LOWER_NAME)
            else d2.set_lcase (d2.lcase &&& (255 - FAT_LCASE_LOWER_NAME))).set_lcase
            ((if lb = true then d2.set_lcase (d2.lcase ||| FAT_LCASE_LOWER_NAME)
              else d2.set_lcase (d2.lcase &&& (255 - FAT_LCASE_LOWER_NAME))).lcase
              &&& (255 - FAT_LCASE_LOWER_EXT))).lcase &&& FAT_LCASE_LOWER_NAME ≠ 0
      ↔ lb = true) ∧
    ((if le = true then
          (if lb = true then d2.set_lcase (d2.lcase ||| FAT_LCASE_LOWER_NAME)
            else d2.set_lcase (d2.lcase &&& (255 - FAT_LCASE_LOWER_NAME))).set_lcase
            ((if lb = true then d2.set_lcase (d2.lcase ||| FAT_LCASE_LOWER_NAME)
              else d2.set_lcase (d2.lcase &&& (255 - FAT_LCASE_LOWER_NAME))).lcase
              ||| FAT_LCASE_LOWER_EXT)
        else
          (if lb = true then d2.set_lcase (d2.lcase ||| FAT_LCASE_LOWER_NAME)
            else d2.set_lcase (d2.lcase &&& (255 - FAT_LCASE_LOWER_NAME))).set_lcase
            ((if lb = true then d2.set_lcase (d2.lcase ||| FAT_LCASE_LOWER_NAME)
              else d2.set_lcase (d2.lcase &&& (255 - FAT_LCASE_LOWER_NAME))).lcase
              &&& (255 - FAT_LCASE_LOWER_EXT))).lcase &&& FAT_LCASE_LOWER_EXT ≠ 0
      ↔ le = true) := by
  have hbits := lcase_bits (d2.raw 12) lb le
  refine ⟨fun j hj => ?_, ?_, ?_⟩
  · cases lb <;> cases le <;> simp [set_lcase_raw, hj]
  · cases lb <;> cases le <;>
      simpa [fat_dentry_t.lcase, set_lcase_raw, FAT_LCASE_LOWER_NAME, FAT_LCASE_LOWER_EXT]
        using hbits.1
  · cases lb <;> cases le <;>
      simpa [fat_dentry_t.lcase, set_lcase_raw, FAT_LCASE_LOWER_NAME, FAT_LCASE_LOWER_EXT]
        using hbits.2

/-- The second loop of `fat_dentry_name_set` on the replacement extension of
three spaces: the extension field is padded and the flag stays set. -/
theorem fat_dentry_name_set_ext_fake (d : fat_dentry_t) :
    (fat_dentry_name_set_ext 3 0 d [32, 32, 32] true).2.2 = true ∧
    (∀ j, j < 3 → (fat_dentry_name_set_ext 3 0 d [32, 32, 32] true).1.raw (8 + j) = FAT_PAD) ∧
    (∀ j, j < 8 → (fat_dentry_name_set_ext 3 0 d [32, 32, 32] true).1.raw j = d.raw j) := by
  have ht : toupper 32 % 256 = 32 := by decide
  have ha : (isalpha 32 && !islower 32) = false := by decide
  simp only [fat_dentry_name_set_ext, deref, List.headD_cons, List.tail_cons, ht, ha,
    show ((32 : Nat) = 229) = False from by simp, show ((32 : Nat) = 0) = False from by simp,
    if_false, Bool.false_eq_true, List.headD_nil, set_ext_raw, FAT_PAD]
  refine ⟨trivial, fun j hj => ?_, fun j hj => ?_⟩
  · have : j = 0 ∨ j = 1 ∨ j = 2 := by omega
    rcases this with h | h | h <;> subst h <;> simp
  · rw [if_neg (by omega), if_neg (by omega), if_neg (by omega)]


/-- The round trip on a name given by its parts: `base` alone, or `base`, a
dot and `ext`. -/
theorem fat_dentry_name_roundtrip_parts (d : fat_dentry_t) (base ext rest : List Nat)
    (hb : ∀ c ∈ base, is_d_char c = true) (he : ∀ c ∈ ext, is_d_char c = true)
    (hbl : base.length ≤ 8) (hel : ext.length ≤ 3)
    (hrest : (rest = [] ∧ ext = []) ∨ rest = 46 :: ext) :
    fat_dentry_name_get (fat_dentry_name_set d (base ++ rest))
      = canonical_part base ++ (if ext = [] then [] else 46 :: canonical_part ext) := by
  have hderef : deref rest = 0 ∨ deref rest = 46 := by
    rcases hrest with ⟨h, _⟩ | h <;> subst h
    · exact Or.inl rfl
    · exact Or.inr rfl
  obtain ⟨r1, r2, r3, r4, r5⟩ :=
    fat_dentry_name_set_name_run 8 0 d base rest true hb hbl hderef
  unfold fat_dentry_name_set
  simp only [FAT_NAME_LEN, FAT_EXT_LEN]
  generalize fat_dentry_name_set_name 8 0 d (base ++ rest) true = R1 at r1 r2 r3 r4 r5 ⊢
  obtain ⟨d1, p1, lb⟩ := R1
  simp only at r1 r2 r3 r4 r5 ⊢
  subst r1
  have hlb : (lb = true ↔ base.any isupper = false) := by
    rw [r2]; simp
  rcases hrest with ⟨h, hext⟩ | h
  · subst h; subst hext
    obtain ⟨f1, f2, f3⟩ := fat_dentry_name_set_ext_fake d1
    have hne : deref ([] : List Nat) ≠ 46 := by decide
    simp only [if_pos hne]
    generalize fat_dentry_name_set_ext 3 0 d1 [32, 32, 32] true = R2 at f1 f2 f3 ⊢
    obtain ⟨d2, p2, le⟩ := R2
    simp only at f1 f2 f3 ⊢
    obtain ⟨l1, l2, l3⟩ := name_set_lcase_layout d2 lb le
    refine fat_dentry_name_get_of_layout _ base [] hb he hbl hel ?_ ?_ ?_ ?_ ?_ ?_
    · intro j hj
      rw [l1 j (by omega), f3 j (by omega)]
      simpa using r3 j hj
    · intro j hj1 hj2
      rw [l1 j (by omega), f3 j hj2]
      simpa using r4 j hj1 hj2
    · intro j hj; simp at hj
    · intro j _ hj
      rw [l1 (8 + j) (by omega)]
      exact f2 j hj
    · rw [l2]; exact hlb
    · rw [l3, f1]; simp
  · subst h
    have hd : deref (46 :: ext) = 46 := rfl
    have ht : (46 :: ext).tail = ext := rfl
    have hnn : ¬ ((46 : Nat) ≠ 46) := by simp
    simp only [hd, ht, if_neg hnn]
    obtain ⟨e2, e3, e4, e5⟩ := fat_dentry_name_set_ext_run 3 0 d1 ext true he hel
    generalize fat_dentry_name_set_ext 3 0 d1 ext true = R2 at e2 e3 e4 e5 ⊢
    obtain ⟨d2, p2, le⟩ := R2
    simp only at e2 e3 e4 e5 ⊢
    obtain ⟨l1, l2, l3⟩ := name_set_lcase_layout d2 lb le
    refine fat_dentry_name_get_of_layout _ base ext hb he hbl hel ?_ ?_ ?_ ?_ ?_ ?_
    · intro j hj
      rw [l1 j (by omega), e5 j (by omega)]
      simpa using r3 j hj
    · intro j hj1 hj2
      rw [l1 j (by omega), e5 j (by omega)]
      simpa using r4 j hj1 hj2
    · intro j hj
      rw [l1 (8 + j) (by omega)]
      simpa using e3 j hj
    · intro j hj1 hj2
      rw [l1 (8 + j) (by omega)]
      simpa using e4 j hj1 hj2
    · rw [l2]; exact hlb
    · rw [l3, e2]; simp

/-- A name accepted by `fat_dentry_name_verify` is a run of at most 8 name
characters, alone or followed by a dot and a run of at most 3 name
characters. -/
theorem fat_dentry_name_verify_parts (n : List Nat) (h0 : 0 ∉ n)
    (hv : fat_dentry_name_verify n = true) :
    ∃ base ext rest, n = base ++ rest ∧ (∀ c ∈ base, is_d_char c = true) ∧
      (∀ c ∈ ext, is_d_char c = true) ∧ base.length ≤ 8 ∧ ext.length ≤ 3 ∧
      ((rest = [] ∧ ext = []) ∨ rest = 46 :: ext) := by
  obtain ⟨base, r, rfl, hb, hr⟩ := d_char_split n
  unfold fat_dentry_name_verify at hv
  rw [fat_dentry_name_verify_loop_run base hb] at hv
  rcases hr with rfl | ⟨c, r1, rfl, hc⟩
  · refine ⟨base, [], [], rfl, hb, by simp, ?_, by simp, Or.inl ⟨rfl, rfl⟩⟩
    simp only [fat_dentry_name_verify_loop, Nat.zero_add, FAT_NAME_LEN] at hv
    by_contra hlen
    simp [Nat.lt_of_not_le hlen] at hv
  · have hc0 : c ≠ 0 := by
      intro h; apply h0; simp [h]
    by_cases h46 : c = 46
    · subst h46
      have h0r : 0 ∉ r1 := fun h => h0 (by simp [h])
      rw [fat_dentry_name_verify_loop] at hv
      simp only [show ((46 : Nat) = 0) = False from by simp, if_false, if_true,
        Bool.false_eq_true, Nat.zero_add] at hv
      rcases fat_dentry_name_verify_loop_after_dot r1 h0r (base.length + 1) base.length with
        ⟨hall, hloop⟩ | ⟨_, hloop⟩
      · rw [hloop] at hv
        simp only [FAT_NAME_LEN, FAT_EXT_LEN, if_true] at hv
        refine ⟨base, r1, 46 :: r1, rfl, hb, hall, ?_, ?_, Or.inr rfl⟩
        · by_contra hlen
          simp [Nat.lt_of_not_le hlen] at hv
        · by_contra hlen
          have h1 : base.length + 1 + r1.length - base.length > 3 + 1 := by omega
          simp [h1] at hv
      · rw [hloop] at hv
        simp at hv
    · rw [fat_dentry_name_verify_loop] at hv
      simp [hc0, h46, hc] at hv

/-- C3 (amended): for every name `n` accepted by `fat_dentry_name_verify` and
every entry `d`, `fat_dentry_name_get` applied to `fat_dentry_name_set d n`
yields the canonical form of `n` in which each part is left unchanged when it
has no upper-case letter and is upper-cased as a whole otherwise, and in
which the dot is kept only in front of a non-empty extension. -/
theorem fat_dentry_name_roundtrip (d : fat_dentry_t) (n : List Nat) (h0 : 0 ∉ n)
    (hv : fat_dentry_name_verify n = true) :
    fat_dentry_name_get (fat_dentry_name_set d n) = canonical_stored n := by
  obtain ⟨base, ext, rest, rfl, hb, he, hbl, hel, hrest⟩ :=
    fat_dentry_name_verify_parts n h0 hv
  have hp : ∀ x ∈ base, (fun c => decide (c ≠ 46)) x = true := by
    intro x hx
    have : x ≠ 46 := is_d_char_ne_dot (hb x hx)
    simpa using this
  rw [fat_dentry_name_roundtrip_parts d base ext rest hb he hbl hel hrest]
  unfold canonical_stored
  rcases hrest with ⟨rfl, rfl⟩ | rfl
  · rw [List.append_nil, List.dropWhile_eq_nil_iff.2 hp, List.takeWhile_eq_self_iff.2 hp]
    simp
  · rw [List.dropWhile_append_of_pos hp, List.takeWhile_append_of_pos hp]
    simp

/-- C3 (amended), at the names `Readme.txt` and `foo.`: the first comes back
as `README.txt`, the second as `foo`. -/
theorem fat_dentry_name_roundtrip_witness :
    fat_dentry_name_get (fat_dentry_name_set (fat_dentry_t.ofList [])
        [82, 101, 97, 100, 109, 101, 46, 116, 120, 116])
      = [82, 69, 65, 68, 77, 69, 46, 116, 120, 116] ∧
    fat_dentry_name_get (fat_dentry_name_set (fat_dentry_t.ofList []) [102, 111, 111, 46])
      = [102, 111, 111] := by
  have h1 := fat_dentry_name_roundtrip (fat_dentry_t.ofList [])
    [82, 101, 97, 100, 109, 101, 46, 116, 120, 116] (by decide) (by decide)
  have h2 := fat_dentry_name_roundtrip (fat_dentry_t.ofList []) [102, 111, 111, 46]
    (by decide) (by decide)
  have c1 : canonical_stored [82, 101, 97, 100, 109, 101, 46, 116, 120, 116]
      = [82, 69, 65, 68, 77, 69, 46, 116, 120, 116] := by decide
  have c2 : canonical_stored [102, 111, 111, 46] = [102, 111, 111] := by decide
  exact ⟨h1.trans c1, h2.trans c2⟩

/-- C3 as stated fails: the name `foo.` is accepted by
`fat_dentry_name_verify`, its canonical form under the case rule alone is
`foo.`, and the round trip yields `foo`. -/
theorem fat_dentry_name_roundtrip_trailing_dot :
    fat_dentry_name_verify [102, 111, 111, 46] = true ∧
    canonical [102, 111, 111, 46] = [102, 111, 111, 46] ∧
    fat_dentry_name_get (fat_dentry_name_set (fat_dentry_t.ofList []) [102, 111, 111, 46])
      ≠ canonical [102, 111, 111, 46] := by
  refine ⟨by decide, by decide, ?_⟩
  decide


/-! ## Path resolution by `libfs_lookup` -/


theorem replies_append (a b : List event_t) : replies (a ++ b) = replies a ++ replies b := by
  simp [replies]

theorem replies_put {σ : Type} (ops : libfs_ops_t σ) (s : σ) (n : Option fs_node_t) :
    replies (libfs_lookup_put ops s n).1 = [] := by
  cases n <;> simp [libfs_lookup_put, replies]

theorem replies_out {σ : Type} (ops : libfs_ops_t σ) (s : σ) (par cur tmp : Option fs_node_t) :
    replies (libfs_lookup_out ops s par cur tmp) = [] := by
  simp [libfs_lookup_out, replies_append, replies_put]

theorem replies_answer_0 (rc : Int) (tr : List event_t) :
    replies (event_t.answer_0 rc :: tr) = event_t.answer_0 rc :: replies tr := by
  simp [replies]

theorem replies_answer_5 (a b c d e f : Nat) (tr : List event_t) :
    replies (event_t.answer_5 a b c d e f :: tr) = event_t.answer_5 a b c d e f :: replies tr := by
  simp [replies]

theorem replies_match (p : fs_node_t) (c : List Nat) (rc : Int) (r : Option fs_node_t)
    (tr : List event_t) : replies (event_t.match_ p c rc r :: tr) = replies tr := by
  simp [replies]

/-- C2 (the code's behaviour at a failing input): on the example backend with
a `node_put` that fails on the root, the lookup of `/a/b` obtains the root,
`a` and `b` once each, and hands the root to `node_put` twice: once when the
walk descends below `a`, where the error makes the handler leave, and once
more behind the label `out`, where `par` still points to the root. -/
theorem libfs_lookup_node_put_twice :
    acquired (libfs_lookup (demo_reg [47, 97, 47, 98])
        (demo_ops (fun k => if k = 0 then EINVAL else EOK)) 7 ⟨0, 4, 3, 2 ^ 32 - 1, 0⟩ ())
      = [demo_node 0, demo_node 1, demo_node 2] ∧
    released (libfs_lookup (demo_reg [47, 97, 47, 98])
        (demo_ops (fun k => if k = 0 then EINVAL else EOK)) 7 ⟨0, 4, 3, 2 ^ 32 - 1, 0⟩ ())
      = [demo_node 0, demo_node 0, demo_node 1, demo_node 2] ∧
    replies (libfs_lookup (demo_reg [47, 97, 47, 98])
        (demo_ops (fun k => if k = 0 then EINVAL else EOK)) 7 ⟨0, 4, 3, 2 ^ 32 - 1, 0⟩ ())
      = [event_t.answer_0 EINVAL] := by
  refine ⟨by decide, by decide, by decide⟩

/-! ## Long file name fragments -/

/-- One iteration of the loop of `fat_lfn_copy_part`, by code units: started at
the last byte of the unit `n`, the loop handles that unit and goes on with the
units below it. -/
theorem fat_lfn_copy_part_loop_unit (src : Nat → Nat) (n : Nat) (dst : Nat → Nat)
    (offset : Nat) :
    fat_lfn_copy_part_loop src (2 * (n + 1) - 1) dst offset
      = if offset > 1 then
          fat_lfn_copy_part_loop src (2 * n - 1)
            (fat_lfn_copy_part_body src (2 * n + 1) dst offset).1
            (fat_lfn_copy_part_body src (2 * n + 1) dst offset).2
        else (dst, offset) := by
  cases n with
  | zero =>
    simp only [Nat.mul_zero, Nat.zero_add, Nat.mul_one, Nat.add_one_sub_one]
    show fat_lfn_copy_part_loop src 1 dst offset
      = if offset > 1 then fat_lfn_copy_part_loop src 0 _ _ else _
    simp only [fat_lfn_copy_part_loop]
  | succ k =>
    have e1 : 2 * (k + 1 + 1) - 1 = (2 * k + 1) + 2 := by omega
    have e2 : 2 * (k + 1) - 1 = 2 * k + 1 := by omega
    have e3 : 2 * (k + 1) + 1 = (2 * k + 1) + 2 := by omega
    rw [e1, e2, e3, fat_lfn_copy_part_loop]

/-- The loop of `fat_lfn_copy_part` on `n` code units of which the first `m`
are name units and the others are 0x0000 or 0xFFFF: the `2 * m` name bytes
are stored in front of `offset`, in their order, and nothing else changes. -/
theorem fat_lfn_copy_part_loop_names (src : Nat → Nat) :
    ∀ (n m : Nat) (dst : Nat → Nat) (offset : Nat), m ≤ n →
      (∀ j, j < m → ¬ unit_is_pad src j) → (∀ j, m ≤ j → j < n → unit_is_pad src j) →
      2 * m ≤ offset →
      fat_lfn_copy_part_loop src (2 * n - 1) dst offset
        = (fun i => if offset - 2 * m ≤ i ∧ i < offset then src (i - (offset - 2 * m))
            else dst i, offset - 2 * m) := by
  intro n
  induction n with
  | zero =>
    intro m dst offset hm _ _ _
    have : m = 0 := by omega
    subst this
    simp only [Nat.mul_zero, Nat.zero_sub, fat_lfn_copy_part_loop, Nat.sub_zero]
    congr 1
    funext i
    rw [if_neg (by omega)]
  | succ n ih =>
    intro m dst offset hm hname hpad hoff
    rw [fat_lfn_copy_part_loop_unit]
    by_cases ho : offset > 1
    · rw [if_pos ho]
      by_cases hmn : m ≤ n
      · -- the unit `n` is skipped
        have hp := hpad n hmn (Nat.lt_succ_self n)
        have hb : fat_lfn_copy_part_body src (2 * n + 1) dst offset = (dst, offset) := by
          unfold fat_lfn_copy_part_body
          rw [if_pos]
          unfold unit_is_pad at hp
          simp only [Nat.add_sub_cancel]
          rcases hp with ⟨h1, h2⟩ | ⟨h1, h2⟩
          · exact Or.inl ⟨h2, h1⟩
          · exact Or.inr ⟨h2, h1⟩
        rw [hb]
        exact ih m dst offset hmn hname (fun j h1 h2 => hpad j h1 (by omega)) hoff
      · -- the unit `n` is the last name unit
        have hmeq : m = n + 1 := by omega
        subst hmeq
        have hp := hname n (Nat.lt_succ_self n)
        have hb : fat_lfn_copy_part_body src (2 * n + 1) dst offset
            = (Function.update (Function.update dst (offset - 1) (src (2 * n + 1)))
                (offset - 2) (src (2 * n)), offset - 2) := by
          unfold fat_lfn_copy_part_body
          rw [if_neg]
          · simp only [Nat.add_sub_cancel]
          · unfold unit_is_pad at hp
            simp only [Nat.add_sub_cancel]
            rintro (⟨h1, h2⟩ | ⟨h1, h2⟩)
            · exact hp (Or.inl ⟨h2, h1⟩)
            · exact hp (Or.inr ⟨h2, h1⟩)
        rw [hb]
        simp only []
        rw [ih n _ (offset - 2) (Nat.le_refl n) (fun j hj => hname j (by omega))
          (fun j h1 h2 => by omega) (by omega)]
        have e : offset - 2 - 2 * n = offset - 2 * (n + 1) := by omega
        rw [e]
        congr 1
        funext i
        by_cases h1 : offset - 2 * (n + 1) ≤ i ∧ i < offset - 2
        · rw [if_pos h1, if_pos ⟨h1.1, by omega⟩]
        · rw [if_neg h1]
          by_cases h2 : i = offset - 2
          · subst h2
            rw [Function.update_same, if_pos ⟨by omega, by omega⟩]
            congr 1
            omega
          · rw [Function.update_noteq h2]
            by_cases h3 : i = offset - 1
            · subst h3
              rw [Function.update_same, if_pos ⟨by omega, by omega⟩]
              congr 1
              omega
            · rw [Function.update_noteq h3, if_neg (by omega)]
    · rw [if_neg ho]
      have : m = 0 := by omega
      subst this
      simp only [Nat.mul_zero, Nat.sub_zero]
      congr 1
      funext i
      rw [if_neg (by omega)]

/-- The loop of `fat_lfn_str_nlength` on `n` code units of which the first `m`
are name units and the others are 0x0000 or 0xFFFF, started at the unit `j`. -/
theorem fat_lfn_str_nlength_loop_names (str : Nat → Nat) (n m : Nat) (hm : m ≤ n)
    (hname : ∀ j, j < m → ¬ unit_is_pad str j)
    (hpad : ∀ j, m ≤ j → j < n → unit_is_pad str j) :
    ∀ (fuel j : Nat), j ≤ m → n - j ≤ fuel →
      fat_lfn_str_nlength_loop str (2 * n) fuel (2 * j) = 2 * m := by
  intro fuel
  induction fuel with
  | zero =>
    intro j hj hf
    have : j = m := by omega
    subst this
    rfl
  | succ k ih =>
    intro j hj hf
    rw [fat_lfn_str_nlength_loop]
    by_cases hjn : 2 * j < 2 * n
    · rw [if_pos hjn]
      by_cases hjm : j < m
      · have h := hname j hjm
        unfold unit_is_pad at h
        rw [if_neg h]
        exact ih (j + 1) (by omega) (by omega)
      · have : j = m := by omega
        subst this
        have h := hpad j (Nat.le_refl j) (by omega)
        unfold unit_is_pad at h
        rw [if_pos h]
    · rw [if_neg hjn]
      omega


theorem lfn_byte_part1 (d : fat_dentry_t) (j : Nat) (h : j < 10) :
    lfn_byte d j = FAT_LFN_PART1 d j := by
  unfold lfn_byte
  rw [if_pos h]

theorem lfn_byte_part2 (d : fat_dentry_t) (j : Nat) (h : j < 12) :
    lfn_byte d (10 + j) = FAT_LFN_PART2 d j := by
  unfold lfn_byte
  rw [if_neg (by omega), if_pos (by omega)]
  congr 1
  omega

theorem lfn_byte_part3 (d : fat_dentry_t) (j : Nat) :
    lfn_byte d (22 + j) = FAT_LFN_PART3 d j := by
  unfold lfn_byte
  rw [if_neg (by omega), if_neg (by omega)]
  congr 1
  omega

/-- The code units of the three slices are the code units 0..4, 5..10 and
11..12 of the entry. -/
theorem unit_is_pad_parts (d : fat_dentry_t) :
    (∀ j, j < 5 → (unit_is_pad (FAT_LFN_PART1 d) j ↔ unit_is_pad (lfn_byte d) j)) ∧
    (∀ j, j < 6 → (unit_is_pad (FAT_LFN_PART2 d) j ↔ unit_is_pad (lfn_byte d) (5 + j))) ∧
    (∀ j, j < 2 → (unit_is_pad (FAT_LFN_PART3 d) j ↔ unit_is_pad (lfn_byte d) (11 + j))) := by
  refine ⟨fun j hj => ?_, fun j hj => ?_, fun j _ => ?_⟩
  · unfold unit_is_pad
    rw [lfn_byte_part1 d (2 * j) (by omega), lfn_byte_part1 d (2 * j + 1) (by omega)]
  · unfold unit_is_pad
    have e1 : 2 * (5 + j) = 10 + 2 * j := by omega
    have e2 : 10 + 2 * j + 1 = 10 + (2 * j + 1) := by omega
    rw [e1, e2, lfn_byte_part2 d (2 * j) (by omega), lfn_byte_part2 d (2 * j + 1) (by omega)]
  · unfold unit_is_pad
    have e1 : 2 * (11 + j) = 22 + 2 * j := by omega
    have e2 : 22 + 2 * j + 1 = 22 + (2 * j + 1) := by omega
    rw [e1, e2, lfn_byte_part3, lfn_byte_part3]

/-- C11: for every long-file-name entry whose 13 code units (slice 1, slice 2,
slice 3) are `k` name units, none of them 0x0000 or 0xFFFF, followed only by
units 0x0000 or 0xFFFF, and for every `offset ≥ 2 * k`, `fat_lfn_copy_entry`
decreases `offset` by `2 * k`, which is `fat_lfn_size d`, leaves the `2 * k`
name bytes in `dst[offset - 2 * k .. offset)` in their order, and changes no
other byte of `dst`. -/
theorem fat_lfn_copy_entry_assembles (d : fat_dentry_t) (dst : Nat → Nat) (offset k : Nat)
    (hk : k ≤ 13)
    (hname : ∀ j, j < k → ¬ unit_is_pad (lfn_byte d) j)
    (hpad : ∀ j, k ≤ j → j < 13 → unit_is_pad (lfn_byte d) j)
    (hoff : 2 * k ≤ offset) :
    (fat_lfn_copy_entry d dst offset).2 = offset - 2 * k ∧
    fat_lfn_size d = 2 * k ∧
    (∀ j, j < 2 * k → (fat_lfn_copy_entry d dst offset).1 (offset - 2 * k + j) = lfn_byte d j) ∧
    (∀ i, (i < offset - 2 * k ∨ offset ≤ i) → (fat_lfn_copy_entry d dst offset).1 i = dst i) := by
  obtain ⟨hu1, hu2, hu3⟩ := unit_is_pad_parts d
  obtain ⟨m1, m2, m3, h1, h2, h3, hsum, h12, h23⟩ :
      ∃ m1 m2 m3, m1 ≤ 5 ∧ m2 ≤ 6 ∧ m3 ≤ 2 ∧ m1 + m2 + m3 = k ∧
        (m1 < 5 → m2 = 0) ∧ (m2 < 6 → m3 = 0) := by
    by_cases c1 : k ≤ 5
    · exact ⟨k, 0, 0, by omega, by omega, by omega, by omega, by omega, by omega⟩
    · by_cases c2 : k ≤ 11
      · exact ⟨5, k - 5, 0, by omega, by omega, by omega, by omega, by omega, by omega⟩
      · exact ⟨5, 6, k - 11, by omega, by omega, by omega, by omega, by omega, by omega⟩
  -- the name units and the padding units of each slice
  have n1 : ∀ j, j < m1 → ¬ unit_is_pad (FAT_LFN_PART1 d) j :=
    fun j hj h => hname j (by omega) ((hu1 j (by omega)).1 h)
  have p1 : ∀ j, m1 ≤ j → j < 5 → unit_is_pad (FAT_LFN_PART1 d) j :=
    fun j hj hj5 => (hu1 j hj5).2 (hpad j (by omega) (by omega))
  have n2 : ∀ j, j < m2 → ¬ unit_is_pad (FAT_LFN_PART2 d) j :=
    fun j hj h => hname (5 + j) (by omega) ((hu2 j (by omega)).1 h)
  have p2 : ∀ j, m2 ≤ j → j < 6 → unit_is_pad (FAT_LFN_PART2 d) j :=
    fun j hj hj6 => (hu2 j hj6).2 (hpad (5 + j) (by omega) (by omega))
  have n3 : ∀ j, j < m3 → ¬ unit_is_pad (FAT_LFN_PART3 d) j :=
    fun j hj h => hname (11 + j) (by omega) ((hu3 j (by omega)).1 h)
  have p3 : ∀ j, m3 ≤ j → j < 2 → unit_is_pad (FAT_LFN_PART3 d) j :=
    fun j hj hj2 => (hu3 j hj2).2 (hpad (11 + j) (by omega) (by omega))
  -- the three copies
  have c3 := fat_lfn_copy_part_loop_names (FAT_LFN_PART3 d) 2 m3 dst offset h3 n3 p3 (by omega)
  have c2 := fun dst2 => fat_lfn_copy_part_loop_names (FAT_LFN_PART2 d) 6 m2 dst2
    (offset - 2 * m3) h2 n2 p2 (by omega)
  have c1 := fun dst1 => fat_lfn_copy_part_loop_names (FAT_LFN_PART1 d) 5 m1 dst1
    (offset - 2 * m3 - 2 * m2) h1 n1 p1 (by omega)
  have hcopy : fat_lfn_copy_entry d dst offset
      = (fun i =>
          if offset - 2 * m3 - 2 * m2 - 2 * m1 ≤ i ∧ i < offset - 2 * m3 - 2 * m2 then
            FAT_LFN_PART1 d (i - (offset - 2 * m3 - 2 * m2 - 2 * m1))
          else if offset - 2 * m3 - 2 * m2 ≤ i ∧ i < offset - 2 * m3 then
            FAT_LFN_PART2 d (i - (offset - 2 * m3 - 2 * m2))
          else if offset - 2 * m3 ≤ i ∧ i < offset then FAT_LFN_PART3 d (i - (offset - 2 * m3))
          else dst i, offset - 2 * m3 - 2 * m2 - 2 * m1) := by
    unfold fat_lfn_copy_entry fat_lfn_copy_part
    simp only [FAT_LFN_PART1_SIZE, FAT_LFN_PART2_SIZE, FAT_LFN_PART3_SIZE]
    have e3 : 4 - 1 = 2 * 2 - 1 := rfl
    have e2 : 12 - 1 = 2 * 6 - 1 := rfl
    have e1 : 10 - 1 = 2 * 5 - 1 := rfl
    rw [e3, e2, e1, c3, c2, c1]
  have s1 := fat_lfn_str_nlength_loop_names (FAT_LFN_PART1 d) 5 m1 h1 n1 p1 10 0 (by omega)
    (by omega)
  have s2 := fat_lfn_str_nlength_loop_names (FAT_LFN_PART2 d) 6 m2 h2 n2 p2 12 0 (by omega)
    (by omega)
  have s3 := fat_lfn_str_nlength_loop_names (FAT_LFN_PART3 d) 2 m3 h3 n3 p3 4 0 (by omega)
    (by omega)
  rw [hcopy]
  refine ⟨by simp only []; omega, ?_, ?_, ?_⟩
  · unfold fat_lfn_size fat_lfn_str_nlength
    simp only [FAT_LFN_PART1_SIZE, FAT_LFN_PART2_SIZE, FAT_LFN_PART3_SIZE]
    have e1 : (10 : Nat) = 2 * 5 := rfl
    have e2 : (12 : Nat) = 2 * 6 := rfl
    have e3 : (4 : Nat) = 2 * 2 := rfl
    have z : (0 : Nat) = 2 * 0 := rfl
    have t1 : fat_lfn_str_nlength_loop (FAT_LFN_PART1 d) 10 10 0 = 2 * m1 := s1
    have t2 : fat_lfn_str_nlength_loop (FAT_LFN_PART2 d) 12 12 0 = 2 * m2 := s2
    have t3 : fat_lfn_str_nlength_loop (FAT_LFN_PART3 d) 4 4 0 = 2 * m3 := s3
    rw [t1, t2, t3]
    omega
  · intro j hj
    simp only []
    by_cases a1 : j < 2 * m1
    · rw [if_pos ⟨by omega, by omega⟩, lfn_byte_part1 d j (by omega)]
      congr 1
      omega
    · rw [if_neg (by omega)]
      by_cases a2 : j < 10 + 2 * m2
      · have hm1 : m1 = 5 := by
          by_contra hne
          have := h12 (by omega)
          omega
        rw [if_pos ⟨by omega, by omega⟩]
        have e : j = 10 + (j - 10) := by omega
        rw [e, lfn_byte_part2 d (j - 10) (by omega)]
        congr 1
        omega
      · have hm1 : m1 = 5 := by
          by_contra hne
          have := h12 (by omega)
          omega
        have hm2 : m2 = 6 := by
          by_contra hne
          have := h23 (by omega)
          omega
        rw [if_neg (by omega), if_pos ⟨by omega, by omega⟩]
        have e : j = 22 + (j - 22) := by omega
        rw [e, lfn_byte_part3 d (j - 22)]
        congr 1
        omega
  · intro i hi
    simp only []
    rw [if_neg (by omega), if_neg (by omega), if_neg (by omega)]

/-- C11, at the entry that holds the three code units `a`, `b`, `c` followed
by 0x0000 and nine units 0xFFFF: the entry has 6 name bytes and they are
copied to `dst[4 .. 10)`. -/
theorem fat_lfn_copy_entry_assembles_witness :
    (fat_lfn_copy_entry
        (fat_dentry_t.ofList [1, 97, 0, 98, 0, 99, 0, 0, 0, 255, 255, 15, 0, 0,
          255, 255, 255, 255, 255, 255, 255, 255, 255, 255, 255, 255, 0, 0, 255, 255, 255, 255])
        (fun _ => 7) 10).2 = 10 - 2 * 3 ∧
    fat_lfn_size
        (fat_dentry_t.ofList [1, 97, 0, 98, 0, 99, 0, 0, 0, 255, 255, 15, 0, 0,
          255, 255, 255, 255, 255, 255, 255, 255, 255, 255, 255, 255, 0, 0, 255, 255, 255, 255])
      = 2 * 3 ∧
    (fat_lfn_copy_entry
        (fat_dentry_t.ofList [1, 97, 0, 98, 0, 99, 0, 0, 0, 255, 255, 15, 0, 0,
          255, 255, 255, 255, 255, 255, 255, 255, 255, 255, 255, 255, 0, 0, 255, 255, 255, 255])
        (fun _ => 7) 10).1 (10 - 2 * 3 + 2) = 98 := by
  have h := fat_lfn_copy_entry_assembles
    (fat_dentry_t.ofList [1, 97, 0, 98, 0, 99, 0, 0, 0, 255, 255, 15, 0, 0,
      255, 255, 255, 255, 255, 255, 255, 255, 255, 255, 255, 255, 0, 0, 255, 255, 255, 255])
    (fun _ => 7) 10 3 (by decide)
    (by
      intro j hj
      have : j = 0 ∨ j = 1 ∨ j = 2 := by omega
      rcases this with h | h | h <;> subst h <;>
        simp [unit_is_pad, lfn_byte, FAT_LFN_PART1, fat_dentry_t.ofList])
    (by
      intro j h1 h2
      have : j = 3 ∨ j = 4 ∨ j = 5 ∨ j = 6 ∨ j = 7 ∨ j = 8 ∨ j = 9 ∨ j = 10 ∨ j = 11 ∨
          j = 12 := by omega
      rcases this with h | h | h | h | h | h | h | h | h | h <;> subst h <;>
        simp [unit_is_pad, lfn_byte, FAT_LFN_PART1, FAT_LFN_PART2, FAT_LFN_PART3,
          fat_dentry_t.ofList])
    (by decide)
  exact ⟨h.1, h.2.1, (h.2.2.1 2 (by decide)).trans (by
    simp [lfn_byte, FAT_LFN_PART1, fat_dentry_t.ofList])⟩

/-! ## The shape of the runs of `libfs_lookup` -/

/-- The loop of `libfs_lookup` followed by the rest of the function is the
loop on its own followed by what the function does once the loop is left. -/
theorem libfs_lookup_walk_eq {σ : Type} (reg : fs_reg_t) (ops : libfs_ops_t σ)
    (fs_handle service_id lflag last : Nat) :
    ∀ (fuel : Nat) (s : σ) (par cur : Option fs_node_t) (next : Nat) (component : List Nat)
      (clen : Nat),
      libfs_lookup_walk reg ops fs_handle service_id lflag last fuel s par cur next component clen
        = (libfs_lookup_walk_end reg ops lflag last fuel s par cur next component clen).1 ++
          libfs_lookup_after ops fs_handle service_id lflag last
            (libfs_lookup_walk_end reg ops lflag last fuel s par cur next component clen).2 := by
  intro fuel
  induction fuel with
  | zero =>
    intro s par cur next component clen
    unfold libfs_lookup_walk libfs_lookup_walk_end
    split <;> simp [libfs_lookup_after]
  | succ k ih =>
    intro s par cur next component clen
    unfold libfs_lookup_walk libfs_lookup_walk_end
    split
    · simp [libfs_lookup_after]
    · cases cur with
      | none => simp [libfs_lookup_after]
      | some c =>
        simp only []
        split
        · simp [libfs_lookup_after]
        · split
          · simp [libfs_lookup_after]
          · split
            · simp [libfs_lookup_after]
            · split
              · simp [libfs_lookup_after]
              · split
                · simp [libfs_lookup_after]
                · split
                  · simp [libfs_lookup_after]
                  · cases par with
                    | none =>
                      simp only [List.cons_append]
                      rw [ih]
                    | some p =>
                      simp only []
                      split
                      · simp [libfs_lookup_after]
                      · simp only [List.cons_append]
                        rw [ih]

/-- The events of the loop of `libfs_lookup` are calls of `match` and of
`node_put`. -/
theorem libfs_lookup_walk_end_events {σ : Type} (reg : fs_reg_t) (ops : libfs_ops_t σ)
    (lflag last : Nat) :
    ∀ (fuel : Nat) (s : σ) (par cur : Option fs_node_t) (next : Nat) (component : List Nat)
      (clen : Nat),
      ∀ e ∈ (libfs_lookup_walk_end reg ops lflag last fuel s par cur next component clen).1,
        (∃ p c rc r, e = event_t.match_ p c rc r) ∨ (∃ p rc, e = event_t.node_put p rc) := by
  intro fuel
  induction fuel with
  | zero =>
    intro s par cur next component clen e he
    unfold libfs_lookup_walk_end at he
    split at he <;> simp at he
  | succ k ih =>
    intro s par cur next component clen e he
    unfold libfs_lookup_walk_end at he
    split at he
    · simp at he
    · cases cur with
      | none => simp at he
      | some c =>
        simp only [] at he
        split at he
        · simp at he
        · split at he
          · simp at he
          · split at he
            · simp at he
            · split at he
              · simp at he
              · split at he
                · simp only [List.mem_singleton] at he
                  exact Or.inl ⟨_, _, _, _, he⟩
                · split at he
                  · simp only [List.mem_singleton] at he
                    exact Or.inl ⟨_, _, _, _, he⟩
                  · cases par with
                    | none =>
                      simp only [List.mem_cons] at he
                      rcases he with he | he
                      · exact Or.inl ⟨_, _, _, _, he⟩
                      · exact ih _ _ _ _ _ _ e he
                    | some p =>
                      simp only [] at he
                      split at he
                      · simp only [List.mem_cons, List.mem_singleton, List.not_mem_nil,
                          or_false] at he
                        rcases he with he | he
                        · exact Or.inl ⟨_, _, _, _, he⟩
                        · exact Or.inr ⟨_, _, he⟩
                      · simp only [List.mem_cons] at he
                        rcases he with he | he | he
                        · exact Or.inl ⟨_, _, _, _, he⟩
                        · exact Or.inr ⟨_, _, he⟩
                        · exact ih _ _ _ _ _ _ e he

/-- A run that consists of calls of `match` and of `node_put` holds no reply,
no call of a mutating operation, no failed assertion and no bound reached. -/
theorem walk_events_facts (evs : List event_t)
    (h : ∀ e ∈ evs, (∃ p c rc r, e = event_t.match_ p c rc r) ∨
      (∃ p rc, e = event_t.node_put p rc)) :
    replies evs = [] ∧ mutations evs = [] ∧ event_t.assert_fail ∉ evs ∧
      event_t.unfinished ∉ evs := by
  refine ⟨?_, ?_, ?_, ?_⟩
  · unfold replies
    rw [List.filter_eq_nil_iff]
    intro e he
    rcases h e he with ⟨_, _, _, _, rfl⟩ | ⟨_, _, rfl⟩ <;> simp
  · unfold mutations
    rw [List.filter_eq_nil_iff]
    intro e he
    rcases h e he with ⟨_, _, _, _, rfl⟩ | ⟨_, _, rfl⟩ <;> simp
  · intro he
    rcases h _ he with ⟨_, _, _, _, h1⟩ | ⟨_, _, h1⟩ <;> cases h1
  · intro he
    rcases h _ he with ⟨_, _, _, _, h1⟩ | ⟨_, _, h1⟩ <;> cases h1

/-- The events behind the label `out` are calls of `node_put`. -/
theorem libfs_lookup_out_events {σ : Type} (ops : libfs_ops_t σ) (s : σ)
    (par cur tmp : Option fs_node_t) :
    ∀ e ∈ libfs_lookup_out ops s par cur tmp, ∃ p rc, e = event_t.node_put p rc := by
  intro e he
  unfold libfs_lookup_out at he
  simp only [List.mem_append] at he
  have hput : ∀ (s' : σ) (n : Option fs_node_t), e ∈ (libfs_lookup_put ops s' n).1 →
      ∃ p rc, e = event_t.node_put p rc := by
    intro s' n hn
    cases n with
    | none => simp [libfs_lookup_put] at hn
    | some x =>
      simp only [libfs_lookup_put, List.mem_singleton] at hn
      exact ⟨_, _, hn⟩
  rcases he with he | he | he
  · exact hput _ _ he
  · exact hput _ _ he
  · exact hput _ _ he

theorem libfs_lookup_out_facts {σ : Type} (ops : libfs_ops_t σ) (s : σ)
    (par cur tmp : Option fs_node_t) :
    mutations (libfs_lookup_out ops s par cur tmp) = [] ∧
      event_t.assert_fail ∉ libfs_lookup_out ops s par cur tmp ∧
      event_t.unfinished ∉ libfs_lookup_out ops s par cur tmp :=
  have h := walk_events_facts (libfs_lookup_out ops s par cur tmp)
    (fun e he => Or.inr (libfs_lookup_out_events ops s par cur tmp e he))
  ⟨h.2.1, h.2.2.1, h.2.2.2⟩

theorem mutations_append (a b : List event_t) :
    mutations (a ++ b) = mutations a ++ mutations b := by
  simp [mutations]

/-- An answer followed by the cleanup is a single reply. -/
theorem single_reply_answer_0 {σ : Type} (ops : libfs_ops_t σ) (s : σ)
    (par cur tmp : Option fs_node_t) (rc : Int) :
    single_reply (event_t.answer_0 rc :: libfs_lookup_out ops s par cur tmp) := by
  obtain ⟨_, h2, h3⟩ := libfs_lookup_out_facts ops s par cur tmp
  refine ⟨?_, ?_, event_t.answer_0 rc, ?_⟩
  · simp [h2]
  · simp [h3]
  · rw [replies_answer_0, replies_out]

theorem single_reply_answer_5 {σ : Type} (ops : libfs_ops_t σ) (s : σ)
    (par cur tmp : Option fs_node_t) (a b c d e f : Nat) :
    single_reply (event_t.answer_5 a b c d e f :: libfs_lookup_out ops s par cur tmp) := by
  obtain ⟨_, h2, h3⟩ := libfs_lookup_out_facts ops s par cur tmp
  refine ⟨?_, ?_, event_t.answer_5 a b c d e f, ?_⟩
  · simp [h2]
  · simp [h3]
  · rw [replies_answer_5, replies_out]

theorem single_reply_forward {σ : Type} (ops : libfs_ops_t σ) (s : σ)
    (par cur tmp : Option fs_node_t) (a b c d e f : Nat) :
    single_reply (event_t.forward_lookup a b c d e f :: libfs_lookup_out ops s par cur tmp) := by
  obtain ⟨_, h2, h3⟩ := libfs_lookup_out_facts ops s par cur tmp
  refine ⟨?_, ?_, event_t.forward_lookup a b c d e f, ?_⟩
  · simp [h2]
  · simp [h3]
  · simp [replies, List.filter_cons]
    have := replies_out ops s par cur tmp
    simpa [replies] using this

/-- A call of a backend operation in front of a single reply leaves a single
reply. -/
theorem single_reply_cons (e : event_t) (tr : List event_t) (h : single_reply tr)
    (h1 : replies [e] = []) (h2 : e ≠ event_t.assert_fail) (h3 : e ≠ event_t.unfinished) :
    single_reply (e :: tr) := by
  obtain ⟨a, b, x, hx⟩ := h
  refine ⟨?_, ?_, x, ?_⟩
  · simp only [List.mem_cons, not_or]
    exact ⟨fun h => h2 h.symm, a⟩
  · simp only [List.mem_cons, not_or]
    exact ⟨fun h => h3 h.symm, b⟩
  · have : e :: tr = [e] ++ tr := rfl
    rw [this, replies_append, h1, hx]
    rfl

/-- The code behind the walk stops at a failed assertion or gives a single
reply, whatever the backend does. -/
theorem libfs_lookup_finish_single {σ : Type} (ops : libfs_ops_t σ)
    (fs_handle service_id lflag : Nat) (s : σ) (par cur : Option fs_node_t)
    (component : List Nat) :
    libfs_lookup_finish ops fs_handle service_id lflag s par cur component
        = [event_t.assert_fail] ∨
      single_reply (libfs_lookup_finish ops fs_handle service_id lflag s par cur component) := by
  have hret : ∀ (s' : σ) (cur' : Option fs_node_t),
      single_reply (libfs_lookup_return ops fs_handle service_id lflag s' par cur') := by
    intro s' cur'
    unfold libfs_lookup_return
    cases cur' with
    | none => exact single_reply_answer_0 _ _ _ _ _ _
    | some c =>
      simp only []
      split
      · apply single_reply_cons _ _ _ (by simp [replies]) (by simp) (by simp)
        split
        · exact single_reply_answer_0 _ _ _ _ _ _
        · exact single_reply_answer_5 _ _ _ _ _ _ _ _ _ _ _
      · exact single_reply_answer_5 _ _ _ _ _ _ _ _ _ _ _
  have hcreate : ∀ (s' : σ),
      single_reply (libfs_lookup_create ops fs_handle service_id lflag s' par cur component) := by
    intro s'
    unfold libfs_lookup_create
    split
    · cases cur with
      | some c =>
        simp only []
        split
        · exact single_reply_answer_0 _ _ _ _ _ _
        · exact hret _ _
      | none =>
        simp only []
        apply single_reply_cons _ _ _ (by simp [replies]) (by simp) (by simp)
        split
        · exact single_reply_answer_0 _ _ _ _ _ _
        · split
          · exact single_reply_answer_0 _ _ _ _ _ _
          · apply single_reply_cons _ _ _ (by simp [replies]) (by simp) (by simp)
            split
            · apply single_reply_cons _ _ _ (by simp [replies]) (by simp) (by simp)
              exact single_reply_answer_0 _ _ _ _ _ _
            · exact hret _ _
    · exact hret _ _
  unfold libfs_lookup_finish
  split
  · exact Or.inl rfl
  · split
    · exact Or.inl rfl
    · right
      split
      · exact single_reply_answer_0 _ _ _ _ _ _
      · split
        · exact single_reply_answer_0 _ _ _ _ _ _
        · split
          · split
            · exact single_reply_answer_0 _ _ _ _ _ _
            · exact single_reply_answer_0 _ _ _ _ _ _
            · apply single_reply_cons _ _ _ (by simp [replies]) (by simp) (by simp)
              split
              · exact single_reply_answer_5 _ _ _ _ _ _ _ _ _ _ _
              · exact single_reply_answer_0 _ _ _ _ _ _
          · exact hcreate _

/-! ## Positions in the path lookup buffer -/

theorem plb_get_component_loop_pos_lt (reg : fs_reg_t) (sz0 ppos0 last : Nat)
    (h0 : ppos0 < 2 ^ 32) :
    ∀ (cnt pos size : Nat) (dest : List Nat), pos < 2 ^ 32 →
      (plb_get_component_loop reg sz0 ppos0 last cnt pos size dest).2.2.2 < 2 ^ 32 := by
  intro cnt
  induction cnt with
  | zero =>
    intro pos size dest _
    simpa [plb_get_component_loop] using h0
  | succ k ih =>
    intro pos size dest hp
    unfold plb_get_component_loop
    split
    · exact hp
    · exact ih _ _ _ (Nat.mod_lt _ (by decide))

/-- The position that `plb_get_component` leaves in `*ppos` is a value of the
type `unsigned`. -/
theorem plb_get_component_pos_lt (reg : fs_reg_t) (dest : List Nat) (sz ppos last : Nat)
    (h : ppos < 2 ^ 32) : (plb_get_component reg dest sz ppos last).2.2.2 < 2 ^ 32 := by
  unfold plb_get_component
  split
  · exact h
  · apply plb_get_component_loop_pos_lt reg sz ppos last h
    split
    · exact Nat.mod_lt _ (by decide)
    · exact h

theorem plb_get_component_loop_pos_indep (reg : fs_reg_t) (sz0 sz1 ppos0 last : Nat) :
    ∀ (cnt pos size size1 : Nat) (dest dest1 : List Nat),
      (plb_get_component_loop reg sz0 ppos0 last cnt pos size dest).2.2.2
        = (plb_get_component_loop reg sz1 ppos0 last cnt pos size1 dest1).2.2.2 := by
  intro cnt
  induction cnt with
  | zero =>
    intro pos size size1 dest dest1
    simp [plb_get_component_loop]
  | succ k ih =>
    intro pos size size1 dest dest1
    unfold plb_get_component_loop
    split
    · rfl
    · exact ih _ _ _ _ _

/-- The position that `plb_get_component` leaves in `*ppos` does not depend on
the buffer and the size that the caller passes in. -/
theorem plb_get_component_pos_indep (reg : fs_reg_t) (dest : List Nat) (sz ppos last : Nat) :
    (plb_get_component reg dest sz ppos last).2.2.2
      = (plb_get_component reg [] 0 ppos last).2.2.2 := by
  unfold plb_get_component
  split
  · rfl
  · exact plb_get_component_loop_pos_indep reg sz 0 ppos last _ _ _ _ _ _

theorem plb_skip_lt (reg : fs_reg_t) (last : Nat) :
    ∀ (n pos : Nat), pos < 2 ^ 32 → plb_skip reg last n pos < 2 ^ 32 := by
  intro n
  induction n with
  | zero => intro pos h; exact h
  | succ k ih =>
    intro pos h
    unfold plb_skip
    exact ih _ (plb_get_component_pos_lt reg [] 0 pos last h)

theorem plb_dist_step (last pos : Nat) (hl : last < 2 ^ 32) (hp : pos < 2 ^ 32)
    (hne : pos ≠ last) : plb_dist last ((pos + 1) % 2 ^ 32) + 1 = plb_dist last pos := by
  unfold plb_dist
  omega

theorem plb_get_component_loop_dist (reg : fs_reg_t) (sz0 ppos0 last : Nat)
    (hl : last < 2 ^ 32) :
    ∀ (cnt pos size : Nat) (dest : List Nat), pos < 2 ^ 32 →
      (plb_get_component_loop reg sz0 ppos0 last cnt pos size dest).1 = EOK →
      plb_dist last (plb_get_component_loop reg sz0 ppos0 last cnt pos size dest).2.2.2 +
          (plb_get_component_loop reg sz0 ppos0 last cnt pos size dest).2.2.1
        = plb_dist last pos + size := by
  intro cnt
  induction cnt with
  | zero =>
    intro pos size dest _ h
    simp [plb_get_component_loop, ENAMETOOLONG, EOK] at h
  | succ k ih =>
    intro pos size dest hp h
    unfold plb_get_component_loop at h ⊢
    split
    · rfl
    · rename_i hc
      rw [if_neg hc] at h
      have h1 := ih _ _ _ (Nat.mod_lt (pos + 1) (by decide : 0 < 2 ^ 32)) h
      have h2 := plb_dist_step last pos hl hp (fun e => hc (Or.inl e))
      omega

/-- A component read by `plb_get_component` moves the position towards the
end of the path by the size of the component at least. -/
theorem plb_get_component_dist (reg : fs_reg_t) (dest : List Nat) (sz ppos last : Nat)
    (hl : last < 2 ^ 32) (hp : ppos < 2 ^ 32)
    (h : (plb_get_component reg dest sz ppos last).1 = EOK) :
    plb_dist last (plb_get_component reg dest sz ppos last).2.2.2 +
        (plb_get_component reg dest sz ppos last).2.2.1 ≤ plb_dist last ppos := by
  unfold plb_get_component at h ⊢
  split
  · rename_i hc
    rw [if_pos hc] at h
    simp [ERANGE, EOK] at h
  · rename_i hc
    rw [if_neg hc] at h
    split
    · rename_i hs
      rw [if_pos hs] at h
      have h1 := plb_get_component_loop_dist reg sz ppos last hl _ _ _ _
        (Nat.mod_lt (ppos + 1) (by decide : 0 < 2 ^ 32)) h
      have h2 := plb_dist_step last ppos hl hp hc
      omega
    · rename_i hs
      rw [if_neg hs] at h
      have h1 := plb_get_component_loop_dist reg sz ppos last hl _ _ _ _ hp h
      omega

/-! ## The ways out of the walk -/

/-- With one iteration for each byte of the path that is left, the walk of
`libfs_lookup` does not reach its bound. -/
theorem libfs_lookup_walk_end_finishes {σ : Type} (reg : fs_reg_t) (ops : libfs_ops_t σ)
    (lflag last : Nat) (hl : last < 2 ^ 32) :
    ∀ (fuel : Nat) (s : σ) (par cur : Option fs_node_t) (next : Nat) (component : List Nat)
      (clen : Nat), next < 2 ^ 32 → plb_dist last next ≤ fuel →
      (libfs_lookup_walk_end reg ops lflag last fuel s par cur next component clen).2
        ≠ walk_end_t.unfinished := by
  intro fuel
  induction fuel with
  | zero =>
    intro s par cur next component clen hn hd
    have h : next = last := by
      unfold plb_dist at hd
      omega
    unfold libfs_lookup_walk_end
    simp [h]
  | succ k ih =>
    intro s par cur next component clen hn hd
    unfold libfs_lookup_walk_end
    split
    · simp
    · cases cur with
      | none => simp
      | some c =>
        simp only []
        split
        · simp
        · split
          · simp
          · split
            · simp
            · rename_i hok
              split
              · simp
              · rename_i hsz
                have hg := plb_get_component_dist reg component clen next last hl hn
                  (not_not.mp hok)
                have hlt := plb_get_component_pos_lt reg component clen next last hn
                split
                · simp
                · split
                  · simp
                  · cases par with
                    | none =>
                      simp only []
                      exact ih _ _ _ _ _ _ hlt (by omega)
                    | some p =>
                      simp only []
                      split
                      · simp
                      · simp only []
                        exact ih _ _ _ _ _ _ hlt (by omega)

theorem match_count_cons_match (p : fs_node_t) (c : List Nat) (rc : Int)
    (r : Option fs_node_t) (tr : List event_t) :
    match_count (event_t.match_ p c rc r :: tr) = match_count tr + 1 := by
  simp [match_count]

theorem match_count_cons_node_put (p : fs_node_t) (rc : Int) (tr : List event_t) :
    match_count (event_t.node_put p rc :: tr) = match_count tr := by
  simp [match_count]

theorem acquired_getLast_cons_match (p : fs_node_t) (c : List Nat) (rc : Int)
    (r : Option fs_node_t) (tr : List event_t) (y : fs_node_t)
    (h : (acquired tr).getLast? = some y) :
    (acquired (event_t.match_ p c rc r :: tr)).getLast? = some y := by
  cases r with
  | none => simpa [acquired] using h
  | some n =>
    simp only [acquired]
    cases hq : acquired tr with
    | nil => simp [hq] at h
    | cons a t =>
      rw [hq] at h
      rw [List.getLast?_cons_cons]
      exact h

/-- When the walk of `libfs_lookup` is left by a forward, the position handed
on is the one behind the components matched so far, and the node at which the
request is forwarded is the last node matched, an active mount point. -/
theorem libfs_lookup_walk_end_forwarded {σ : Type} (reg : fs_reg_t) (ops : libfs_ops_t σ)
    (lflag last : Nat) :
    ∀ (fuel : Nat) (s : σ) (par cur : Option fs_node_t) (next : Nat) (component : List Nat)
      (clen : Nat) (evs : List event_t) (out : walk_end_t σ),
      libfs_lookup_walk_end reg ops lflag last fuel s par cur next component clen = (evs, out) →
      ∀ (nx : Nat) (s2 : σ) (par2 cur2 tmp2 : Option fs_node_t),
        out = walk_end_t.forwarded nx s2 par2 cur2 tmp2 →
        nx = plb_skip reg last (match_count evs) next ∧
          ∃ y, tmp2 = some y ∧ y.mp_data.mp_active = true ∧
            (acquired evs).getLast? = some y := by
  intro fuel
  induction fuel with
  | zero =>
    intro s par cur next component clen evs out h nx s2 par2 cur2 tmp2 ho
    unfold libfs_lookup_walk_end at h
    split at h <;> simp only [Prod.mk.injEq] at h <;> obtain ⟨_, rfl⟩ := h <;> cases ho
  | succ k ih =>
    intro s par cur next component clen evs out h nx s2 par2 cur2 tmp2 ho
    unfold libfs_lookup_walk_end at h
    have hstep : (plb_get_component reg component clen next last).2.2.2
        = (plb_get_component reg [] 0 next last).2.2.2 :=
      plb_get_component_pos_indep reg component clen next last
    split at h
    · simp only [Prod.mk.injEq] at h
      obtain ⟨_, rfl⟩ := h
      cases ho
    · cases cur with
      | none =>
        simp only [Prod.mk.injEq] at h
        obtain ⟨_, rfl⟩ := h
        cases ho
      | some c =>
        simp only [] at h
        split at h
        · simp only [Prod.mk.injEq] at h
          obtain ⟨_, rfl⟩ := h
          cases ho
        · split at h
          · simp only [Prod.mk.injEq] at h
            obtain ⟨_, rfl⟩ := h
            cases ho
          · split at h
            · simp only [Prod.mk.injEq] at h
              obtain ⟨_, rfl⟩ := h
              cases ho
            · split at h
              · simp only [Prod.mk.injEq] at h
                obtain ⟨_, rfl⟩ := h
                cases ho
              · split at h
                · simp only [Prod.mk.injEq] at h
                  obtain ⟨_, rfl⟩ := h
                  cases ho
                · split at h
                  · rename_i hm hf
                    simp only [Prod.mk.injEq] at h
                    obtain ⟨rfl, rfl⟩ := h
                    simp only [walk_end_t.forwarded.injEq] at ho
                    obtain ⟨rfl, _, _, _, rfl⟩ := ho
                    refine ⟨?_, ?_⟩
                    · simp only [match_count_cons_match, plb_skip]
                      simp [match_count, plb_skip, hstep]
                    · cases hy : (ops.match_ s c
                          (cstr (plb_get_component reg component clen next last).2.1)).2.1 with
                      | none =>
                        rw [hy] at hf
                        simp at hf
                      | some y =>
                        rw [hy] at hf
                        simp only [Option.any_some, Bool.and_eq_true] at hf
                        exact ⟨y, rfl, hf.1, by simp [acquired]⟩
                  · cases par with
                    | none =>
                      simp only [Prod.mk.injEq] at h
                      obtain ⟨rfl, rfl⟩ := h
                      obtain ⟨h1, y, h2, h3, h4⟩ := ih _ _ _ _ _ _ _ _ rfl nx s2 par2 cur2 tmp2 ho
                      refine ⟨?_, y, h2, h3, acquired_getLast_cons_match _ _ _ _ _ _ h4⟩
                      rw [match_count_cons_match, plb_skip, ← hstep]
                      exact h1
                    | some p =>
                      simp only [] at h
                      split at h
                      · simp only [Prod.mk.injEq] at h
                        obtain ⟨_, rfl⟩ := h
                        cases ho
                      · simp only [Prod.mk.injEq] at h
                        obtain ⟨rfl, rfl⟩ := h
                        obtain ⟨h1, y, h2, h3, h4⟩ :=
                          ih _ _ _ _ _ _ _ _ rfl nx s2 par2 cur2 tmp2 ho
                        refine ⟨?_, y, h2, h3, ?_⟩
                        · rw [match_count_cons_match, match_count_cons_node_put, plb_skip,
                            ← hstep]
                          exact h1
                        · apply acquired_getLast_cons_match
                          simpa [acquired] using h4

/-- When the walk of `libfs_lookup` ends without a parent, no component has
been descended: the walk started without a parent and the current node is the
one it started on. -/
theorem libfs_lookup_walk_end_par {σ : Type} (reg : fs_reg_t) (ops : libfs_ops_t σ)
    (lflag last : Nat) :
    ∀ (fuel : Nat) (s : σ) (par cur : Option fs_node_t) (next : Nat) (component : List Nat)
      (clen : Nat) (evs : List event_t) (out : walk_end_t σ),
      libfs_lookup_walk_end reg ops lflag last fuel s par cur next component clen = (evs, out) →
      ∀ (s2 : σ) (cur2 : Option fs_node_t) (component2 : List Nat),
        out = walk_end_t.finished s2 none cur2 component2 → par = none ∧ cur2 = cur := by
  intro fuel
  induction fuel with
  | zero =>
    intro s par cur next component clen evs out h s2 cur2 component2 ho
    unfold libfs_lookup_walk_end at h
    split at h
    · simp only [Prod.mk.injEq] at h
      obtain ⟨_, rfl⟩ := h
      simp only [walk_end_t.finished.injEq] at ho
      exact ⟨ho.2.1, ho.2.2.1.symm⟩
    · simp only [Prod.mk.injEq] at h
      obtain ⟨_, rfl⟩ := h
      cases ho
  | succ k ih =>
    intro s par cur next component clen evs out h s2 cur2 component2 ho
    unfold libfs_lookup_walk_end at h
    split at h
    · simp only [Prod.mk.injEq] at h
      obtain ⟨_, rfl⟩ := h
      simp only [walk_end_t.finished.injEq] at ho
      exact ⟨ho.2.1, ho.2.2.1.symm⟩
    · cases cur with
      | none =>
        simp only [Prod.mk.injEq] at h
        obtain ⟨_, rfl⟩ := h
        cases ho
      | some c =>
        simp only [] at h
        split at h
        · simp only [Prod.mk.injEq] at h
          obtain ⟨_, rfl⟩ := h
          cases ho
        · split at h
          · simp only [Prod.mk.injEq] at h
            obtain ⟨_, rfl⟩ := h
            cases ho
          · split at h
            · simp only [Prod.mk.injEq] at h
              obtain ⟨_, rfl⟩ := h
              cases ho
            · split at h
              · simp only [Prod.mk.injEq] at h
                obtain ⟨_, rfl⟩ := h
                simp only [walk_end_t.finished.injEq] at ho
                exact ⟨ho.2.1, ho.2.2.1.symm⟩
              · split at h
                · simp only [Prod.mk.injEq] at h
                  obtain ⟨_, rfl⟩ := h
                  cases ho
                · split at h
                  · simp only [Prod.mk.injEq] at h
                    obtain ⟨_, rfl⟩ := h
                    cases ho
                  · cases par with
                    | none =>
                      simp only [Prod.mk.injEq] at h
                      obtain ⟨_, rfl⟩ := h
                      have := (ih _ _ _ _ _ _ _ _ rfl s2 cur2 component2 ho).1
                      cases this
                    | some p =>
                      simp only [] at h
                      split at h
                      · simp only [Prod.mk.injEq] at h
                        obtain ⟨_, rfl⟩ := h
                        cases ho
                      · simp only [Prod.mk.injEq] at h
                        obtain ⟨_, rfl⟩ := h
                        have := (ih _ _ _ _ _ _ _ _ rfl s2 cur2 component2 ho).1
                        cases this

/-! ## The runs of `libfs_lookup` as a whole -/

/-- A run of `libfs_lookup` is the call that obtains the starting node and
then: the answer with the error code of that call; or the failed assertion on
a missing starting node; or the forward at a starting node that is an active
mount point; or the walk and what follows it. -/
theorem libfs_lookup_eq_start {σ : Type} (reg : fs_reg_t) (ops : libfs_ops_t σ)
    (fs_handle : Nat) (req : ipc_call_t) (s : σ) :
    libfs_lookup reg ops fs_handle req s =
      libfs_lookup_start_event ops req s ::
        (if (libfs_lookup_start ops req s).1 ≠ EOK then
          event_t.answer_0 (libfs_lookup_start ops req s).1 ::
            libfs_lookup_out ops (libfs_lookup_start ops req s).2.2 none
              (libfs_lookup_start ops req s).2.1 none
        else
          match (libfs_lookup_start ops req s).2.1 with
          | none => [event_t.assert_fail]
          | some c =>
            if c.mp_data.mp_active then
              [event_t.forward_lookup c.mp_data.sess (req.arg1 % 2 ^ 32)
                 (((req.arg1 % 2 ^ 32 + req.arg2 % 2 ^ 32) % 2 ^ 32 + 2 ^ 32 - req.arg1 % 2 ^ 32)
                   % 2 ^ 32)
                 c.mp_data.service_id (2 ^ 32 - 1) (req.arg5 % 2 ^ 32),
               event_t.node_put c (ops.node_put (libfs_lookup_start ops req s).2.2 c).1]
            else
              (libfs_lookup_walk_of reg ops req (libfs_lookup_start ops req s).2.2 c).1 ++
                libfs_lookup_after ops fs_handle req.arg3 (req.arg5 % 2 ^ 32)
                  ((req.arg1 % 2 ^ 32 + req.arg2 % 2 ^ 32) % 2 ^ 32)
                  (libfs_lookup_walk_of reg ops req (libfs_lookup_start ops req s).2.2 c).2) := by
  unfold libfs_lookup libfs_lookup_start_event libfs_lookup_start libfs_lookup_walk_of
  simp only [libfs_lookup_walk_eq]

/-- The call that obtains the starting node is no reply, no forward, no call
of a mutating operation, no failed assertion and no bound reached. -/
theorem libfs_lookup_start_event_facts {σ : Type} (ops : libfs_ops_t σ) (req : ipc_call_t)
    (s : σ) (tr : List event_t) :
    replies (libfs_lookup_start_event ops req s :: tr) = replies tr ∧
      mutations (libfs_lookup_start_event ops req s :: tr) = mutations tr ∧
      forwards (libfs_lookup_start_event ops req s :: tr) = forwards tr ∧
      match_count (libfs_lookup_start_event ops req s :: tr) = match_count tr ∧
      (event_t.assert_fail ∈ libfs_lookup_start_event ops req s :: tr ↔
        event_t.assert_fail ∈ tr) ∧
      (event_t.unfinished ∈ libfs_lookup_start_event ops req s :: tr ↔
        event_t.unfinished ∈ tr) := by
  unfold libfs_lookup_start_event
  split <;> simp [replies, mutations, forwards, match_count]

/-- The run of a lookup that reaches the code behind the walk. -/
theorem libfs_lookup_of_reaches {σ : Type} (reg : fs_reg_t) (ops : libfs_ops_t σ)
    (fs_handle : Nat) (req : ipc_call_t) (s : σ) (evs : List event_t) (s2 : σ)
    (par cur : Option fs_node_t) (component : List Nat)
    (h : lookup_reaches reg ops req s evs s2 par cur component) :
    libfs_lookup reg ops fs_handle req s =
      libfs_lookup_start_event ops req s ::
        (evs ++ libfs_lookup_finish ops fs_handle req.arg3 (req.arg5 % 2 ^ 32) s2 par cur
          component) := by
  obtain ⟨c, s1, hs, hc, hw⟩ := h
  rw [libfs_lookup_eq_start, hs]
  simp [hc, hw, libfs_lookup_after]

/-- The events of the walk of a lookup that reaches the code behind the walk
hold no reply and no call of a mutating operation. -/
theorem lookup_reaches_events {σ : Type} (reg : fs_reg_t) (ops : libfs_ops_t σ)
    (req : ipc_call_t) (s : σ) (evs : List event_t) (s2 : σ)
    (par cur : Option fs_node_t) (component : List Nat)
    (h : lookup_reaches reg ops req s evs s2 par cur component) :
    replies evs = [] ∧ mutations evs = [] := by
  obtain ⟨c, s1, _, _, hw⟩ := h
  have h1 := libfs_lookup_walk_end_events reg ops (req.arg5 % 2 ^ 32)
    ((req.arg1 % 2 ^ 32 + req.arg2 % 2 ^ 32) % 2 ^ 32) (req.arg2 % 2 ^ 32) s1 none (some c)
    (req.arg1 % 2 ^ 32) [] 0
  unfold libfs_lookup_walk_of at hw
  rw [hw] at h1
  have h2 := walk_events_facts evs h1
  exact ⟨h2.1, h2.2.1⟩

/-- The replies of a lookup that reaches the code behind the walk are the
replies of that code. -/
theorem replies_of_reaches {σ : Type} (reg : fs_reg_t) (ops : libfs_ops_t σ)
    (fs_handle : Nat) (req : ipc_call_t) (s : σ) (evs : List event_t) (s2 : σ)
    (par cur : Option fs_node_t) (component : List Nat)
    (h : lookup_reaches reg ops req s evs s2 par cur component) :
    replies (libfs_lookup reg ops fs_handle req s) =
      replies (libfs_lookup_finish ops fs_handle req.arg3 (req.arg5 % 2 ^ 32) s2 par cur
        component) := by
  rw [libfs_lookup_of_reaches reg ops fs_handle req s evs s2 par cur component h,
    (libfs_lookup_start_event_facts ops req s _).1, replies_append,
    (lookup_reaches_events reg ops req s evs s2 par cur component h).1]
  rfl

/-- The calls of mutating operations in a lookup that reaches the code behind
the walk are those of that code. -/
theorem mutations_of_reaches {σ : Type} (reg : fs_reg_t) (ops : libfs_ops_t σ)
    (fs_handle : Nat) (req : ipc_call_t) (s : σ) (evs : List event_t) (s2 : σ)
    (par cur : Option fs_node_t) (component : List Nat)
    (h : lookup_reaches reg ops req s evs s2 par cur component) :
    mutations (libfs_lookup reg ops fs_handle req s) =
      mutations (libfs_lookup_finish ops fs_handle req.arg3 (req.arg5 % 2 ^ 32) s2 par cur
        component) := by
  rw [libfs_lookup_of_reaches reg ops fs_handle req s evs s2 par cur component h,
    (libfs_lookup_start_event_facts ops req s _).2.1, mutations_append,
    (lookup_reaches_events reg ops req s evs s2 par cur component h).2]
  rfl

/-- A lookup that reaches the code behind the walk without a parent is still
on its starting node. -/
theorem lookup_reaches_par_none {σ : Type} (reg : fs_reg_t) (ops : libfs_ops_t σ)
    (req : ipc_call_t) (s : σ) (evs : List event_t) (s2 : σ)
    (cur : Option fs_node_t) (component : List Nat)
    (h : lookup_reaches reg ops req s evs s2 none cur component) : cur ≠ none := by
  obtain ⟨c, s1, _, _, hw⟩ := h
  unfold libfs_lookup_walk_of at hw
  have := (libfs_lookup_walk_end_par reg ops _ _ _ _ _ _ _ _ _ _ _ hw s2 cur component rfl).2
  rw [this]
  simp

theorem mutations_answer_0 {σ : Type} (ops : libfs_ops_t σ) (s : σ)
    (par cur tmp : Option fs_node_t) (rc : Int) :
    mutations (event_t.answer_0 rc :: libfs_lookup_out ops s par cur tmp) = [] := by
  have h := (libfs_lookup_out_facts ops s par cur tmp).1
  simpa [mutations] using h

theorem mutations_answer_5 {σ : Type} (ops : libfs_ops_t σ) (s : σ)
    (par cur tmp : Option fs_node_t) (a b c d e f : Nat) :
    mutations (event_t.answer_5 a b c d e f :: libfs_lookup_out ops s par cur tmp) = [] := by
  have h := (libfs_lookup_out_facts ops s par cur tmp).1
  simpa [mutations] using h

theorem replies_answer_0_out {σ : Type} (ops : libfs_ops_t σ) (s : σ)
    (par cur tmp : Option fs_node_t) (rc : Int) :
    replies (event_t.answer_0 rc :: libfs_lookup_out ops s par cur tmp)
      = [event_t.answer_0 rc] := by
  rw [replies_answer_0, replies_out]

theorem replies_answer_5_out {σ : Type} (ops : libfs_ops_t σ) (s : σ)
    (par cur tmp : Option fs_node_t) (a b c d e f : Nat) :
    replies (event_t.answer_5 a b c d e f :: libfs_lookup_out ops s par cur tmp)
      = [event_t.answer_5 a b c d e f] := by
  rw [replies_answer_5, replies_out]

/-! ## The code behind the walk -/

theorem libfs_lookup_out_par {σ : Type} (ops : libfs_ops_t σ) (s : σ) (p : fs_node_t) :
    libfs_lookup_out ops s (some p) none none = [event_t.node_put p (ops.node_put s p).1] := by
  simp [libfs_lookup_out, libfs_lookup_put]

/-- The first kind check of `libfs_lookup`. -/
theorem libfs_lookup_finish_eisdir {σ : Type} (ops : libfs_ops_t σ)
    (fs_handle service_id lflag : Nat) (s : σ) (par : Option fs_node_t) (x : fs_node_t)
    (component : List Nat)
    (hassert : ∀ p, par = some p → ops.is_directory s p = true)
    (hF : lflag &&& L_FILE ≠ 0) (hd : ops.is_directory s x = true) :
    libfs_lookup_finish ops fs_handle service_id lflag s par (some x) component
      = event_t.answer_0 EISDIR :: libfs_lookup_out ops s par (some x) none := by
  unfold libfs_lookup_finish
  cases par with
  | none => simp [hF, hd]
  | some p => simp [hF, hd, hassert p rfl]

/-- The second kind check of `libfs_lookup`. -/
theorem libfs_lookup_finish_enotdir {σ : Type} (ops : libfs_ops_t σ)
    (fs_handle service_id lflag : Nat) (s : σ) (par : Option fs_node_t) (x : fs_node_t)
    (component : List Nat)
    (hassert : ∀ p, par = some p → ops.is_directory s p = true)
    (hD : lflag &&& L_DIRECTORY ≠ 0) (hf : ops.is_file s x = true)
    (hnd : ops.is_directory s x = false) :
    libfs_lookup_finish ops fs_handle service_id lflag s par (some x) component
      = event_t.answer_0 ENOTDIR :: libfs_lookup_out ops s par (some x) none := by
  unfold libfs_lookup_finish
  cases par with
  | none => simp [hD, hf, hnd]
  | some p => simp [hD, hf, hnd, hassert p rfl]

/-- The assertions and the kind checks behind the walk, when they are
passed. -/
theorem libfs_lookup_checks_pass {σ : Type} (ops : libfs_ops_t σ) (lflag : Nat) (s : σ)
    (par cur : Option fs_node_t)
    (hassert : ∀ p, par = some p → ops.is_directory s p = true)
    (hnn : par = none → cur ≠ none)
    (hfile : ∀ x, cur = some x → ¬ (lflag &&& L_FILE ≠ 0 ∧ ops.is_directory s x = true))
    (hdir : ∀ x, cur = some x → ¬ (lflag &&& L_DIRECTORY ≠ 0 ∧ ops.is_file s x = true)) :
    par.any (fun p => !ops.is_directory s p) = false ∧
      (par.isNone && cur.isNone) = false ∧
      cur.any (fun c => decide (lflag &&& L_FILE ≠ 0) && ops.is_directory s c) = false ∧
      cur.any (fun c => decide (lflag &&& L_DIRECTORY ≠ 0) && ops.is_file s c) = false := by
  refine ⟨?_, ?_, ?_, ?_⟩
  · cases par with
    | none => rfl
    | some p => simp [hassert p rfl]
  · cases par with
    | some p => rfl
    | none =>
      cases cur with
      | none => exact absurd rfl (hnn rfl)
      | some c => rfl
  · cases cur with
    | none => rfl
    | some c =>
      have := hfile c rfl
      simp only [Option.any_some, Bool.and_eq_false_iff, decide_eq_false_iff_not]
      by_cases hq : lflag &&& L_FILE ≠ 0
      · right
        cases hv : ops.is_directory s c with
        | false => rfl
        | true => exact absurd ⟨hq, hv⟩ this
      · left
        exact hq
  · cases cur with
    | none => rfl
    | some c =>
      have := hdir c rfl
      simp only [Option.any_some, Bool.and_eq_false_iff, decide_eq_false_iff_not]
      by_cases hq : lflag &&& L_DIRECTORY ≠ 0
      · right
        cases hv : ops.is_file s c with
        | false => rfl
        | true => exact absurd ⟨hq, hv⟩ this
      · left
        exact hq

/-- The unlink part of `libfs_lookup` when the target is missing. -/
theorem libfs_lookup_finish_unlink_none {σ : Type} (ops : libfs_ops_t σ)
    (fs_handle service_id lflag : Nat) (s : σ) (p : fs_node_t) (component : List Nat)
    (hassert : ops.is_directory s p = true) (hU : lflag &&& L_UNLINK ≠ 0) :
    libfs_lookup_finish ops fs_handle service_id lflag s (some p) none component =
      event_t.answer_0 ENOENT :: libfs_lookup_out ops s (some p) none none := by
  unfold libfs_lookup_finish
  simp [hassert, hU]

/-- The unlink part of `libfs_lookup` when the target has no parent. -/
theorem libfs_lookup_finish_unlink_root {σ : Type} (ops : libfs_ops_t σ)
    (fs_handle service_id lflag : Nat) (s : σ) (x : fs_node_t) (component : List Nat)
    (hfile : ¬ (lflag &&& L_FILE ≠ 0 ∧ ops.is_directory s x = true))
    (hdir : ¬ (lflag &&& L_DIRECTORY ≠ 0 ∧ ops.is_file s x = true))
    (hU : lflag &&& L_UNLINK ≠ 0) :
    libfs_lookup_finish ops fs_handle service_id lflag s none (some x) component =
      event_t.answer_0 EINVAL :: libfs_lookup_out ops s none (some x) none := by
  obtain ⟨h1, h2, h3, h4⟩ := libfs_lookup_checks_pass ops lflag s none (some x)
    (fun p hp => by cases hp) (fun _ => by simp)
    (fun y hy => by cases hy; exact hfile) (fun y hy => by cases hy; exact hdir)
  unfold libfs_lookup_finish
  rw [h1, h2, h3, h4]
  simp only [Bool.false_eq_true, if_false, if_pos hU]

/-- The unlink part of `libfs_lookup` when the target and its parent exist. -/
theorem libfs_lookup_finish_unlink_some {σ : Type} (ops : libfs_ops_t σ)
    (fs_handle service_id lflag : Nat) (s : σ) (p x : fs_node_t) (component : List Nat)
    (hassert : ops.is_directory s p = true)
    (hfile : ¬ (lflag &&& L_FILE ≠ 0 ∧ ops.is_directory s x = true))
    (hdir : ¬ (lflag &&& L_DIRECTORY ≠ 0 ∧ ops.is_file s x = true))
    (hU : lflag &&& L_UNLINK ≠ 0) :
    libfs_lookup_finish ops fs_handle service_id lflag s (some p) (some x) component =
      event_t.unlink p x (cstr component) (ops.unlink s p x (cstr component)).1 ::
        (if (ops.unlink s p x (cstr component)).1 = EOK then
          event_t.answer_5 fs_handle service_id
              (ops.index_get (ops.unlink s p x (cstr component)).2 x)
              (LOWER32 (ops.size_get (ops.unlink s p x (cstr component)).2 x))
              (UPPER32 (ops.size_get (ops.unlink s p x (cstr component)).2 x))
              (ops.lnkcnt_get s x) ::
            libfs_lookup_out ops (ops.unlink s p x (cstr component)).2 (some p) (some x) none
        else
          event_t.answer_0 (ops.unlink s p x (cstr component)).1 ::
            libfs_lookup_out ops (ops.unlink s p x (cstr component)).2 (some p) (some x)
              none) := by
  obtain ⟨h1, h2, h3, h4⟩ := libfs_lookup_checks_pass ops lflag s (some p) (some x)
    (fun q hq => by cases hq; exact hassert) (fun h => by cases h)
    (fun y hy => by cases hy; exact hfile) (fun y hy => by cases hy; exact hdir)
  unfold libfs_lookup_finish
  rw [h1, h2, h3, h4]
  simp only [Bool.false_eq_true, if_false, if_pos hU]

/-- The create part of `libfs_lookup` is reached when the assertions and the
kind checks are passed and `L_UNLINK` is not set. -/
theorem libfs_lookup_finish_create {σ : Type} (ops : libfs_ops_t σ)
    (fs_handle service_id lflag : Nat) (s : σ) (par cur : Option fs_node_t)
    (component : List Nat)
    (hassert : ∀ p, par = some p → ops.is_directory s p = true)
    (hnn : par = none → cur ≠ none)
    (hfile : ∀ x, cur = some x → ¬ (lflag &&& L_FILE ≠ 0 ∧ ops.is_directory s x = true))
    (hdir : ∀ x, cur = some x → ¬ (lflag &&& L_DIRECTORY ≠ 0 ∧ ops.is_file s x = true))
    (hU : lflag &&& L_UNLINK = 0) :
    libfs_lookup_finish ops fs_handle service_id lflag s par cur component =
      libfs_lookup_create ops fs_handle service_id lflag s par cur component := by
  obtain ⟨h1, h2, h3, h4⟩ := libfs_lookup_checks_pass ops lflag s par cur hassert hnn hfile hdir
  unfold libfs_lookup_finish
  rw [h1, h2, h3, h4]
  simp only [Bool.false_eq_true, if_false, if_neg (not_not.mpr hU)]

/-! ## Forwards at mount points -/

theorem forwards_mem (tr : List event_t) (sess a1 a2 a3 a4 a5 : Nat)
    (h : event_t.forward_lookup sess a1 a2 a3 a4 a5 ∈ tr) :
    event_t.forward_lookup sess a1 a2 a3 a4 a5 ∈ forwards tr := by
  unfold forwards
  rw [List.mem_filter]
  exact ⟨h, rfl⟩

theorem forwards_walk_events (evs : List event_t)
    (h : ∀ e ∈ evs, (∃ p c rc r, e = event_t.match_ p c rc r) ∨
      (∃ p rc, e = event_t.node_put p rc)) :
    forwards evs = [] := by
  unfold forwards
  rw [List.filter_eq_nil_iff]
  intro e he
  rcases h e he with ⟨_, _, _, _, rfl⟩ | ⟨_, _, rfl⟩ <;> simp

theorem forwards_out {σ : Type} (ops : libfs_ops_t σ) (s : σ)
    (par cur tmp : Option fs_node_t) : forwards (libfs_lookup_out ops s par cur tmp) = [] :=
  forwards_walk_events _ (fun e he => Or.inr (libfs_lookup_out_events ops s par cur tmp e he))

theorem forwards_answer_0_out {σ : Type} (ops : libfs_ops_t σ) (s : σ)
    (par cur tmp : Option fs_node_t) (rc : Int) :
    forwards (event_t.answer_0 rc :: libfs_lookup_out ops s par cur tmp) = [] := by
  have h := forwards_out ops s par cur tmp
  simpa [forwards] using h

theorem forwards_answer_5_out {σ : Type} (ops : libfs_ops_t σ) (s : σ)
    (par cur tmp : Option fs_node_t) (a b c d e f : Nat) :
    forwards (event_t.answer_5 a b c d e f :: libfs_lookup_out ops s par cur tmp) = [] := by
  have h := forwards_out ops s par cur tmp
  simpa [forwards] using h

theorem forwards_cons_call (e : event_t) (tr : List event_t) (he : forwards [e] = [])
    (h : forwards tr = []) : forwards (e :: tr) = [] := by
  have : e :: tr = [e] ++ tr := rfl
  rw [this]
  unfold forwards at he h ⊢
  rw [List.filter_append, he, h]
  rfl

/-- The code behind the walk does not forward the request. -/
theorem libfs_lookup_finish_forwards {σ : Type} (ops : libfs_ops_t σ)
    (fs_handle service_id lflag : Nat) (s : σ) (par cur : Option fs_node_t)
    (component : List Nat) :
    forwards (libfs_lookup_finish ops fs_handle service_id lflag s par cur component) = [] := by
  have hret : ∀ (s' : σ) (cur' : Option fs_node_t),
      forwards (libfs_lookup_return ops fs_handle service_id lflag s' par cur') = [] := by
    intro s' cur'
    unfold libfs_lookup_return
    cases cur' with
    | none => exact forwards_answer_0_out _ _ _ _ _ _
    | some c =>
      simp only []
      split
      · apply forwards_cons_call _ _ (by simp [forwards])
        split
        · exact forwards_answer_0_out _ _ _ _ _ _
        · exact forwards_answer_5_out _ _ _ _ _ _ _ _ _ _ _
      · exact forwards_answer_5_out _ _ _ _ _ _ _ _ _ _ _
  have hcreate : ∀ (s' : σ),
      forwards (libfs_lookup_create ops fs_handle service_id lflag s' par cur component)
        = [] := by
    intro s'
    unfold libfs_lookup_create
    split
    · cases cur with
      | some c =>
        simp only []
        split
        · exact forwards_answer_0_out _ _ _ _ _ _
        · exact hret _ _
      | none =>
        simp only []
        apply forwards_cons_call _ _ (by simp [forwards])
        split
        · exact forwards_answer_0_out _ _ _ _ _ _
        · split
          · exact forwards_answer_0_out _ _ _ _ _ _
          · apply forwards_cons_call _ _ (by simp [forwards])
            split
            · apply forwards_cons_call _ _ (by simp [forwards])
              exact forwards_answer_0_out _ _ _ _ _ _
            · exact hret _ _
    · exact hret _ _
  unfold libfs_lookup_finish
  split
  · rfl
  · split
    · rfl
    · split
      · exact forwards_answer_0_out _ _ _ _ _ _
      · split
        · exact forwards_answer_0_out _ _ _ _ _ _
        · split
          · split
            · exact forwards_answer_0_out _ _ _ _ _ _
            · exact forwards_answer_0_out _ _ _ _ _ _
            · apply forwards_cons_call _ _ (by simp [forwards])
              split
              · exact forwards_answer_5_out _ _ _ _ _ _ _ _ _ _ _
              · exact forwards_answer_0_out _ _ _ _ _ _
          · exact hcreate _

theorem match_count_append (a b : List event_t) :
    match_count (a ++ b) = match_count a + match_count b := by
  simp [match_count]

theorem match_count_out {σ : Type} (ops : libfs_ops_t σ) (s : σ)
    (par cur tmp : Option fs_node_t) : match_count (libfs_lookup_out ops s par cur tmp) = 0 := by
  unfold match_count
  rw [List.length_eq_zero, List.filter_eq_nil_iff]
  intro e he
  obtain ⟨_, _, rfl⟩ := libfs_lookup_out_events ops s par cur tmp e he
  simp

theorem acquired_walk_nil (tr : List event_t)
    (h : ∀ e ∈ tr, ∃ p rc, e = event_t.node_put p rc) : acquired tr = [] := by
  induction tr with
  | nil => rfl
  | cons e t ih =>
    obtain ⟨p, rc, rfl⟩ := h e (List.mem_cons_self _ _)
    simp only [acquired]
    exact ih (fun e he => h e (List.mem_cons_of_mem _ he))

theorem acquired_getLast_append (a b : List event_t) (y : fs_node_t)
    (hb : acquired b = []) (h : (acquired a).getLast? = some y) :
    (acquired (a ++ b)).getLast? = some y := by
  have e : acquired (a ++ b) = acquired a := by
    clear h
    induction a with
    | nil => simpa using hb
    | cons x t ih =>
      cases x with
      | root_get sid rc r => cases r <;> simp [acquired, ih]
      | node_get sid idx rc r => cases r <;> simp [acquired, ih]
      | match_ p c rc r => cases r <;> simp [acquired, ih]
      | create sid fl rc r => cases r <;> simp [acquired, ih]
      | node_put n rc => simp [acquired, ih]
      | node_open n rc => simp [acquired, ih]
      | destroy n rc => simp [acquired, ih]
      | link p c comp rc => simp [acquired, ih]
      | unlink p c comp rc => simp [acquired, ih]
      | answer_0 rc => simp [acquired, ih]
      | answer_5 a1 a2 a3 a4 a5 a6 => simp [acquired, ih]
      | forward_lookup a1 a2 a3 a4 a5 a6 => simp [acquired, ih]
      | assert_fail => simp [acquired, ih]
      | unfinished => simp [acquired, ih]
  rw [e]
  exact h

theorem acquired_start_event {σ : Type} (ops : libfs_ops_t σ) (req : ipc_call_t) (s : σ)
    (c : fs_node_t) (tr : List event_t) (h : (libfs_lookup_start ops req s).2.1 = some c) :
    acquired (libfs_lookup_start_event ops req s :: tr) = c :: acquired tr := by
  unfold libfs_lookup_start_event
  split <;> simp [acquired, h]

theorem start_event_ne_forward {σ : Type} (ops : libfs_ops_t σ) (req : ipc_call_t) (s : σ)
    (sess a1 a2 a3 a4 a5 : Nat) :
    event_t.forward_lookup sess a1 a2 a3 a4 a5 ≠ libfs_lookup_start_event ops req s := by
  unfold libfs_lookup_start_event
  split <;> simp

theorem getLast_cons_of_getLast (c y : fs_node_t) (l : List fs_node_t)
    (h : l.getLast? = some y) : (c :: l).getLast? = some y := by
  cases l with
  | nil => simp at h
  | cons a t =>
    rw [List.getLast?_cons_cons]
    exact h

theorem not_mem_of_forwards_nil (tr : List event_t) (sess a1 a2 a3 a4 a5 : Nat)
    (h : forwards tr = []) : event_t.forward_lookup sess a1 a2 a3 a4 a5 ∉ tr := by
  intro hm
  have := forwards_mem tr sess a1 a2 a3 a4 a5 hm
  rw [h] at this
  simp at this

/-- C12: every forward `forward_lookup sess a1 a2 a3 a4 a5` in a run of
`libfs_lookup` is a `LOOKUP` request whose `first` (`a1`) is the position
behind the components matched in the run (the original `first` when none was
matched), whose `first + length` is the original `first + length` in the
arithmetic of `unsigned`, whose index (`a4`) is -1 and whose `lflag` (`a5`) is
the original one; the service id (`a3`) and the session are those of the
mount-point record of the node obtained last, which is an active mount
point. -/
theorem libfs_lookup_forward_suffix {σ : Type} (reg : fs_reg_t) (ops : libfs_ops_t σ)
    (fs_handle : Nat) (req : ipc_call_t) (s : σ) (sess a1 a2 a3 a4 a5 : Nat)
    (h : event_t.forward_lookup sess a1 a2 a3 a4 a5 ∈ libfs_lookup reg ops fs_handle req s) :
    a1 = plb_skip reg ((req.arg1 % 2 ^ 32 + req.arg2 % 2 ^ 32) % 2 ^ 32)
          (match_count (libfs_lookup reg ops fs_handle req s)) (req.arg1 % 2 ^ 32) ∧
      a2 < 2 ^ 32 ∧
      (a1 + a2) % 2 ^ 32 = (req.arg1 % 2 ^ 32 + req.arg2 % 2 ^ 32) % 2 ^ 32 ∧
      a4 = 2 ^ 32 - 1 ∧ a5 = req.arg5 % 2 ^ 32 ∧
      ∃ y, (acquired (libfs_lookup reg ops fs_handle req s)).getLast? = some y ∧
        y.mp_data.mp_active = true ∧ a3 = y.mp_data.service_id ∧ sess = y.mp_data.sess := by
  have hl : (req.arg1 % 2 ^ 32 + req.arg2 % 2 ^ 32) % 2 ^ 32 < 2 ^ 32 :=
    Nat.mod_lt _ (by decide)
  have hf : req.arg1 % 2 ^ 32 < 2 ^ 32 := Nat.mod_lt _ (by decide)
  rw [libfs_lookup_eq_start] at h ⊢
  rw [(libfs_lookup_start_event_facts ops req s _).2.2.2.1]
  rcases List.mem_cons.mp h with h | h
  · exact absurd h (start_event_ne_forward ops req s _ _ _ _ _ _)
  by_cases hrc : (libfs_lookup_start ops req s).1 ≠ EOK
  · rw [if_pos hrc] at h
    exact absurd h (not_mem_of_forwards_nil _ _ _ _ _ _ _ (forwards_answer_0_out _ _ _ _ _ _))
  rw [if_neg hrc] at h ⊢
  cases hn : (libfs_lookup_start ops req s).2.1 with
  | none =>
    rw [hn] at h
    simp at h
  | some c =>
    rw [hn] at h
    simp only [] at h ⊢
    rw [acquired_start_event ops req s c _ hn]
    by_cases hact : c.mp_data.mp_active = true
    · rw [if_pos hact] at h ⊢
      simp only [List.mem_cons, List.mem_singleton, event_t.forward_lookup.injEq,
        List.not_mem_nil, or_false] at h
      rcases h with h | h
      · obtain ⟨rfl, rfl, rfl, rfl, rfl, rfl⟩ := h
        refine ⟨?_, Nat.mod_lt _ (by decide), ?_, rfl, rfl, c, ?_, hact, rfl, rfl⟩
        · simp [match_count, plb_skip]
        · omega
        · simp [acquired]
      · cases h
    · rw [if_neg hact] at h ⊢
      unfold libfs_lookup_walk_of at h ⊢
      rcases List.mem_append.mp h with h | h
      · exact absurd h (not_mem_of_forwards_nil _ _ _ _ _ _ _
          (forwards_walk_events _ (libfs_lookup_walk_end_events reg ops _ _ _ _ _ _ _ _ _)))
      · cases hout : (libfs_lookup_walk_end reg ops (req.arg5 % 2 ^ 32)
            ((req.arg1 % 2 ^ 32 + req.arg2 % 2 ^ 32) % 2 ^ 32) (req.arg2 % 2 ^ 32)
            (libfs_lookup_start ops req s).2.2 none (some c) (req.arg1 % 2 ^ 32) [] 0).2 with
        | finished s2 par2 cur2 component2 =>
          rw [hout] at h
          exact absurd h (not_mem_of_forwards_nil _ _ _ _ _ _ _
            (libfs_lookup_finish_forwards _ _ _ _ _ _ _ _))
        | answered rc s2 par2 cur2 tmp2 =>
          rw [hout] at h
          exact absurd h (not_mem_of_forwards_nil _ _ _ _ _ _ _
            (forwards_answer_0_out _ _ _ _ _ _))
        | assert_failed =>
          rw [hout] at h
          simp [libfs_lookup_after] at h
        | unfinished =>
          rw [hout] at h
          simp [libfs_lookup_after] at h
        | forwarded nx s2 par2 cur2 tmp2 =>
          rw [hout] at h
          obtain ⟨hnx, y, hy, hyact, hylast⟩ :=
            libfs_lookup_walk_end_forwarded reg ops _ _ _ _ _ _ _ _ _ _ _ rfl nx s2 par2 cur2
              tmp2 hout
          subst hy
          simp only [libfs_lookup_after, Option.elim] at h ⊢
          rcases List.mem_cons.mp h with h | h
          · simp only [event_t.forward_lookup.injEq] at h
            obtain ⟨rfl, rfl, rfl, rfl, rfl, rfl⟩ := h
            have hlt := plb_skip_lt reg ((req.arg1 % 2 ^ 32 + req.arg2 % 2 ^ 32) % 2 ^ 32)
              (match_count (libfs_lookup_walk_end reg ops (req.arg5 % 2 ^ 32)
                ((req.arg1 % 2 ^ 32 + req.arg2 % 2 ^ 32) % 2 ^ 32) (req.arg2 % 2 ^ 32)
                (libfs_lookup_start ops req s).2.2 none (some c) (req.arg1 % 2 ^ 32) [] 0).1)
              (req.arg1 % 2 ^ 32) hf
            rw [← hnx] at hlt
            refine ⟨?_, Nat.mod_lt _ (by decide), ?_, rfl, rfl, y, ?_, hyact, rfl, rfl⟩
            · rw [match_count_append]
              have e : match_count (event_t.forward_lookup y.mp_data.sess a1
                  (((req.arg1 % 2 ^ 32 + req.arg2 % 2 ^ 32) % 2 ^ 32 + 2 ^ 32 - a1) % 2 ^ 32)
                  y.mp_data.service_id (2 ^ 32 - 1) (req.arg5 % 2 ^ 32) ::
                  libfs_lookup_out ops s2 par2 cur2 (some y)) = 0 := by
                have := match_count_out ops s2 par2 cur2 (some y)
                simpa [match_count] using this
              rw [e]
              exact hnx
            · omega
            · apply getLast_cons_of_getLast
              apply acquired_getLast_append _ _ _ _ hylast
              simp only [acquired]
              exact acquired_walk_nil _ (libfs_lookup_out_events ops s2 par2 cur2 (some y))
          · exact absurd h (not_mem_of_forwards_nil _ _ _ _ _ _ _ (forwards_out _ _ _ _ _))

/-- C12, at the path `/a/b` on a backend whose directory `a` is an active mount
point with the session 42 and the mounted service 9: the forward carries the
position 2, the length 2, the service 9, the index -1 and the flags 0. -/
theorem libfs_lookup_forward_suffix_witness :
    event_t.forward_lookup 42 2 2 9 (2 ^ 32 - 1) 0 ∈
        libfs_lookup (demo_reg [47, 97, 47, 98]) demo_mount_ops 7 ⟨0, 4, 3, 2 ^ 32 - 1, 0⟩ () ∧
      (2 = plb_skip (demo_reg [47, 97, 47, 98]) ((0 % 2 ^ 32 + 4 % 2 ^ 32) % 2 ^ 32)
          (match_count (libfs_lookup (demo_reg [47, 97, 47, 98]) demo_mount_ops 7
            ⟨0, 4, 3, 2 ^ 32 - 1, 0⟩ ())) (0 % 2 ^ 32) ∧
        2 < 2 ^ 32 ∧
        (2 + 2) % 2 ^ 32 = (0 % 2 ^ 32 + 4 % 2 ^ 32) % 2 ^ 32 ∧
        2 ^ 32 - 1 = 2 ^ 32 - 1 ∧ 0 = 0 % 2 ^ 32 ∧
        ∃ y, (acquired (libfs_lookup (demo_reg [47, 97, 47, 98]) demo_mount_ops 7
            ⟨0, 4, 3, 2 ^ 32 - 1, 0⟩ ())).getLast? = some y ∧
          y.mp_data.mp_active = true ∧ 9 = y.mp_data.service_id ∧ 42 = y.mp_data.sess) :=
  ⟨by decide, libfs_lookup_forward_suffix (demo_reg [47, 97, 47, 98]) demo_mount_ops 7
    ⟨0, 4, 3, 2 ^ 32 - 1, 0⟩ () 42 2 2 9 (2 ^ 32 - 1) 0 (by decide)⟩

/-! ## The last mount point of a path -/

/-- C13, counterexample: the path `/a` looked up with `L_MP | L_FILE`
on a backend whose directory `a` is an active mount point. The mount point is
the last component and `L_MP` is set, so the request is not forwarded; but the
reply is `EISDIR` from the kind check, not the index, size and link count of
the mount-point node. -/
theorem libfs_lookup_mount_point_eisdir :
    libfs_lookup (demo_reg [47, 97]) demo_mount_ops 7 ⟨0, 2, 3, 2 ^ 32 - 1, L_MP ||| L_FILE⟩ ()
        = [event_t.root_get 3 EOK (some (demo_node 0)),
            event_t.match_ (demo_node 0) [97] EOK (some demo_mount_node),
            event_t.answer_0 EISDIR,
            event_t.node_put (demo_node 0) EOK,
            event_t.node_put demo_mount_node EOK] ∧
      demo_mount_node.mp_data.mp_active = true := by
  decide

/-- C13 (amended): in an iteration of the walk that matches the active
mount point `y` (the component ends at the position `nx`, and the positions
do not wrap around: `next ≤ last`), the request is forwarded if and only if
`L_MP` is not set or `nx` is not the end of the path, and the forward goes to
the session of `y` with the rest of the path. Otherwise the request is not
forwarded and, when `node_put` on the old parent succeeds, `y` becomes the
target node of the code behind the walk, with every flag still in force; for
`lflag = L_MP` alone that code answers with the index, size and link count of
`y`. -/
theorem libfs_lookup_mount_point {σ : Type} (reg : fs_reg_t) (ops : libfs_ops_t σ)
    (fs_handle service_id lflag last fuel : Nat) (s s1 : σ) (par : Option fs_node_t)
    (c y : fs_node_t) (next : Nat) (component d : List Nat) (clen sz nx : Nat)
    (hne : next ≠ last) (hnw : next ≤ last) (hl : last < 2 ^ 32)
    (hdir : ops.is_directory s c = true)
    (hg : plb_get_component reg component clen next last = (EOK, d, sz, nx)) (hsz : sz ≠ 0)
    (hm : ops.match_ s c (cstr d) = (EOK, some y, s1))
    (hy : y.mp_data.mp_active = true) :
    (forwards (libfs_lookup_walk reg ops fs_handle service_id lflag last (fuel + 1) s par
        (some c) next component clen) ≠ [] ↔ (lflag &&& L_MP = 0 ∨ nx ≠ last)) ∧
      ((lflag &&& L_MP = 0 ∨ nx ≠ last) →
        libfs_lookup_walk reg ops fs_handle service_id lflag last (fuel + 1) s par (some c) next
            component clen
          = event_t.match_ c (cstr d) EOK (some y) ::
              event_t.forward_lookup y.mp_data.sess nx (plb_dist last nx) y.mp_data.service_id
                (2 ^ 32 - 1) lflag ::
              libfs_lookup_out ops s1 par (some c) (some y)) ∧
      (lflag &&& L_MP ≠ 0 → nx = last →
        (∀ p, par = some p → (ops.node_put s1 p).1 = EOK) →
        libfs_lookup_walk reg ops fs_handle service_id lflag last (fuel + 1) s par (some c) next
            component clen
          = event_t.match_ c (cstr d) EOK (some y) ::
              ((libfs_lookup_put ops s1 par).1 ++
                libfs_lookup_finish ops fs_handle service_id lflag (libfs_lookup_put ops s1 par).2
                  (some c) (some y) d)) ∧
      (lflag = L_MP → nx = last →
        (∀ p, par = some p → (ops.node_put s1 p).1 = EOK) →
        ops.is_directory (libfs_lookup_put ops s1 par).2 c = true →
        replies (libfs_lookup_walk reg ops fs_handle service_id lflag last (fuel + 1) s par
            (some c) next component clen)
          = [event_t.answer_5 fs_handle service_id
              (ops.index_get (libfs_lookup_put ops s1 par).2 y)
              (LOWER32 (ops.size_get (libfs_lookup_put ops s1 par).2 y))
              (UPPER32 (ops.size_get (libfs_lookup_put ops s1 par).2 y))
              (ops.lnkcnt_get (libfs_lookup_put ops s1 par).2 y)]) := by
  have hnxle : nx ≤ last := by
    have h1 := plb_get_component_dist reg component clen next last hl (by omega)
      (by rw [hg])
    have h2 := plb_get_component_pos_lt reg component clen next last (by omega)
    rw [hg] at h1 h2
    simp only [] at h1 h2
    unfold plb_dist at h1
    omega
  have hlt : nx < last ↔ nx ≠ last := by omega
  -- the iteration up to the test for a mount point
  have hstep : libfs_lookup_walk reg ops fs_handle service_id lflag last (fuel + 1) s par
      (some c) next component clen
      = event_t.match_ c (cstr d) EOK (some y) ::
        (if lflag &&& L_MP = 0 ∨ nx ≠ last then
          event_t.forward_lookup y.mp_data.sess nx (plb_dist last nx) y.mp_data.service_id
              (2 ^ 32 - 1) lflag ::
            libfs_lookup_out ops s1 par (some c) (some y)
        else
          match par with
          | some p =>
            event_t.node_put p (ops.node_put s1 p).1 ::
              (if (ops.node_put s1 p).1 ≠ EOK then
                event_t.answer_0 (ops.node_put s1 p).1 ::
                  libfs_lookup_out ops (ops.node_put s1 p).2 par (some c) (some y)
              else
                libfs_lookup_walk reg ops fs_handle service_id lflag last fuel
                  (ops.node_put s1 p).2 (some c) (some y) nx d sz)
          | none =>
            libfs_lookup_walk reg ops fs_handle service_id lflag last fuel s1 (some c) (some y)
              nx d sz) := by
    conv_lhs => unfold libfs_lookup_walk
    rw [if_neg hne]
    simp only [hdir, hg, hm, hy, Bool.not_true, Bool.false_eq_true, if_false, ne_eq,
      not_true_eq_false, Option.any_some, Bool.true_and, Bool.or_eq_true, decide_eq_true_eq,
      hlt, Option.elim, plb_dist]
    have hE : ¬ (EOK = ERANGE) := by decide
    simp only [hE, if_false, hsz]
  have hwalk_last : ∀ (s2 : σ) (par2 cur2 : Option fs_node_t) (comp2 : List Nat) (clen2 : Nat),
      libfs_lookup_walk reg ops fs_handle service_id lflag last fuel s2 par2 cur2 last comp2
        clen2 = libfs_lookup_finish ops fs_handle service_id lflag s2 par2 cur2 comp2 := by
    intro s2 par2 cur2 comp2 clen2
    cases fuel with
    | zero =>
      unfold libfs_lookup_walk
      simp
    | succ k =>
      unfold libfs_lookup_walk
      simp
  have hlocal : ¬ (lflag &&& L_MP = 0 ∨ nx ≠ last) →
      forwards (libfs_lookup_walk reg ops fs_handle service_id lflag last (fuel + 1) s par
        (some c) next component clen) = [] := by
    intro hc
    have hnx : nx = last := by
      by_contra hq
      exact hc (Or.inr hq)
    rw [hstep, if_neg hc, hnx]
    apply forwards_cons_call _ _ (by simp [forwards])
    cases par with
    | none =>
      simp only []
      rw [hwalk_last]
      exact libfs_lookup_finish_forwards _ _ _ _ _ _ _ _
    | some p =>
      simp only []
      apply forwards_cons_call _ _ (by simp [forwards])
      split
      · exact forwards_answer_0_out _ _ _ _ _ _
      · rw [hwalk_last]
        exact libfs_lookup_finish_forwards _ _ _ _ _ _ _ _
  have hdesc : lflag &&& L_MP ≠ 0 → nx = last →
      (∀ p, par = some p → (ops.node_put s1 p).1 = EOK) →
      libfs_lookup_walk reg ops fs_handle service_id lflag last (fuel + 1) s par (some c) next
          component clen
        = event_t.match_ c (cstr d) EOK (some y) ::
            ((libfs_lookup_put ops s1 par).1 ++
              libfs_lookup_finish ops fs_handle service_id lflag (libfs_lookup_put ops s1 par).2
                (some c) (some y) d) := by
    intro hmp hnx hput
    have hc : ¬ (lflag &&& L_MP = 0 ∨ nx ≠ last) := by
      intro hq
      rcases hq with hq | hq
      · exact hmp hq
      · exact hq hnx
    rw [hstep, if_neg hc, hnx]
    cases par with
    | none =>
      simp only [libfs_lookup_put, List.nil_append]
      rw [hwalk_last]
    | some p =>
      have hp := hput p rfl
      simp only [libfs_lookup_put, List.singleton_append, hp, ne_eq, not_true_eq_false,
        if_false]
      rw [hwalk_last]
  refine ⟨⟨fun hf => ?_, fun hc => ?_⟩, fun hc => ?_, hdesc, fun hflag hnx hput hd2 => ?_⟩
  · by_contra hc
    exact hf (hlocal hc)
  · rw [hstep, if_pos hc]
    simp [forwards]
  · rw [hstep, if_pos hc]
  · have hmp : lflag &&& L_MP ≠ 0 := by
      rw [hflag]
      decide
    rw [hdesc hmp hnx hput]
    have e1 : ∀ tr, replies (event_t.match_ c (cstr d) EOK (some y) :: tr) = replies tr :=
      fun tr => replies_match _ _ _ _ _
    rw [e1, replies_append, replies_put, List.nil_append,
      libfs_lookup_finish_create ops fs_handle service_id lflag _ (some c) (some y) d
        (fun q hq => by cases hq; exact hd2) (fun hq => by cases hq)
        (fun x _ hx => by rw [hflag] at hx; exact absurd hx.1 (by decide))
        (fun x _ hx => by rw [hflag] at hx; exact absurd hx.1 (by decide))
        (by rw [hflag]; decide)]
    unfold libfs_lookup_create
    rw [if_neg (by rw [hflag]; decide)]
    unfold libfs_lookup_return
    simp only []
    rw [if_neg (by rw [hflag]; decide), replies_answer_5_out]

/-- C13 (amended), on a backend whose directory `a` is an active mount point:
the path `/a` looked up with `L_MP` is answered with the index 1, size 0 and
link count 1 of `a`; the path `/a/b` looked up with `L_MP` is forwarded at `a`
with the position 2 and the length 2. -/
theorem libfs_lookup_mount_point_witness :
    libfs_lookup_walk (demo_reg [47, 97]) demo_mount_ops 7 3 L_MP 2 2 () none
        (some (demo_node 0)) 0 [] 0
        = [event_t.match_ (demo_node 0) [97] EOK (some demo_mount_node),
            event_t.answer_5 7 3 1 0 0 1,
            event_t.node_put (demo_node 0) EOK,
            event_t.node_put demo_mount_node EOK] ∧
      replies (libfs_lookup_walk (demo_reg [47, 97]) demo_mount_ops 7 3 L_MP 2 (1 + 1) () none
        (some (demo_node 0)) 0 [] 0) = [event_t.answer_5 7 3 1 0 0 1] ∧
      libfs_lookup_walk (demo_reg [47, 97, 47, 98]) demo_mount_ops 7 3 L_MP 4 (3 + 1) () none
        (some (demo_node 0)) 0 [] 0
        = [event_t.match_ (demo_node 0) [97] EOK (some demo_mount_node),
            event_t.forward_lookup 42 2 2 9 (2 ^ 32 - 1) L_MP,
            event_t.node_put (demo_node 0) EOK,
            event_t.node_put demo_mount_node EOK] :=
  ⟨by decide,
    ((libfs_lookup_mount_point (demo_reg [47, 97]) demo_mount_ops 7 3 L_MP 2 1 () () none
      (demo_node 0) demo_mount_node 0 [] [97, 0] 0 1 2 (by decide) (by decide) (by decide)
      (by decide) (by decide) (by decide) (by decide) (by decide)).2.2.2 rfl rfl
      (fun p hp => by cases hp) (by decide)).trans (by decide),
    ((libfs_lookup_mount_point (demo_reg [47, 97, 47, 98]) demo_mount_ops 7 3 L_MP 4 3 () () none
      (demo_node 0) demo_mount_node 0 [] [97, 0] 0 1 2 (by decide) (by decide) (by decide)
      (by decide) (by decide) (by decide) (by decide) (by decide)).2.1
      (Or.inr (by decide))).trans (by decide)⟩

/-! ## A missing starting node -/

/-- C14 (the code's behaviour): when `root_get` or `node_get` returns
`EOK` together with no node, the run of `libfs_lookup` is the call that
obtains the starting node followed by the failure of `assert(cur != NULL)`;
the request is not answered, neither with `ENOENT` nor at all. -/
theorem libfs_lookup_null_start {σ : Type} (reg : fs_reg_t) (ops : libfs_ops_t σ)
    (fs_handle : Nat) (req : ipc_call_t) (s : σ)
    (hrc : (libfs_lookup_start ops req s).1 = EOK)
    (hnull : (libfs_lookup_start ops req s).2.1 = none) :
    libfs_lookup reg ops fs_handle req s
        = [libfs_lookup_start_event ops req s, event_t.assert_fail] ∧
      replies (libfs_lookup reg ops fs_handle req s) = [] := by
  have h : libfs_lookup reg ops fs_handle req s
      = [libfs_lookup_start_event ops req s, event_t.assert_fail] := by
    rw [libfs_lookup_eq_start, hrc, hnull]
    simp
  refine ⟨h, ?_⟩
  rw [h, (libfs_lookup_start_event_facts ops req s _).1]
  rfl

/-- C14, at a backend whose `node_get` returns `EOK` and no node for the index
5: the run is the call of `node_get` and the failed assertion, with no reply. -/
theorem libfs_lookup_null_start_witness :
    libfs_lookup (demo_reg [47, 97]) (demo_ops (fun _ => EOK)) 7 ⟨0, 2, 3, 5, 0⟩ ()
        = [event_t.node_get 3 5 EOK none, event_t.assert_fail] ∧
      replies (libfs_lookup (demo_reg [47, 97]) (demo_ops (fun _ => EOK)) 7 ⟨0, 2, 3, 5, 0⟩ ())
        = [] :=
  ⟨(libfs_lookup_null_start (demo_reg [47, 97]) (demo_ops (fun _ => EOK)) 7 ⟨0, 2, 3, 5, 0⟩ ()
      (by decide) (by decide)).1.trans (by decide),
    (libfs_lookup_null_start (demo_reg [47, 97]) (demo_ops (fun _ => EOK)) 7 ⟨0, 2, 3, 5, 0⟩ ()
      (by decide) (by decide)).2⟩

/-! ## The kind checks -/

/-- C15: when a lookup reaches the code behind the walk with an existing
node `x` (and the assertion on the parent holds), the reply is `EISDIR` when
`L_FILE` is set and `x` is a directory, and `ENOTDIR` when `L_DIRECTORY` is
set and `x` is a file and not a directory; in both cases none of `unlink`,
`create`, `link`, `destroy` and `node_open` is called, whatever the other
flags are. -/
theorem libfs_lookup_kind_checks {σ : Type} (reg : fs_reg_t) (ops : libfs_ops_t σ)
    (fs_handle : Nat) (req : ipc_call_t) (s : σ) (evs : List event_t) (s2 : σ)
    (par : Option fs_node_t) (x : fs_node_t) (component : List Nat)
    (h : lookup_reaches reg ops req s evs s2 par (some x) component)
    (hassert : ∀ p, par = some p → ops.is_directory s2 p = true) :
    (req.arg5 % 2 ^ 32 &&& L_FILE ≠ 0 → ops.is_directory s2 x = true →
        replies (libfs_lookup reg ops fs_handle req s) = [event_t.answer_0 EISDIR] ∧
          mutations (libfs_lookup reg ops fs_handle req s) = []) ∧
      (req.arg5 % 2 ^ 32 &&& L_DIRECTORY ≠ 0 → ops.is_file s2 x = true →
        ops.is_directory s2 x = false →
        replies (libfs_lookup reg ops fs_handle req s) = [event_t.answer_0 ENOTDIR] ∧
          mutations (libfs_lookup reg ops fs_handle req s) = []) := by
  rw [replies_of_reaches reg ops fs_handle req s evs s2 par (some x) component h,
    mutations_of_reaches reg ops fs_handle req s evs s2 par (some x) component h]
  refine ⟨fun hF hd => ?_, fun hD hf hnd => ?_⟩
  · rw [libfs_lookup_finish_eisdir ops fs_handle req.arg3 _ s2 par x component hassert hF hd]
    exact ⟨replies_answer_0_out _ _ _ _ _ _, mutations_answer_0 _ _ _ _ _ _⟩
  · rw [libfs_lookup_finish_enotdir ops fs_handle req.arg3 _ s2 par x component hassert hD hf
      hnd]
    exact ⟨replies_answer_0_out _ _ _ _ _ _, mutations_answer_0 _ _ _ _ _ _⟩

/-- C15, at the directory `/a` looked up with `L_FILE | L_UNLINK | L_OPEN`
(reply `EISDIR`) and the file `/a/b` looked up with
`L_DIRECTORY | L_CREATE | L_OPEN` (reply `ENOTDIR`); no mutating operation is
called in either run. -/
theorem libfs_lookup_kind_checks_witness :
    (lookup_reaches (demo_reg [47, 97]) (demo_ops (fun _ => EOK))
        ⟨0, 2, 3, 2 ^ 32 - 1, L_FILE ||| L_UNLINK ||| L_OPEN⟩ ()
        [event_t.match_ (demo_node 0) [97] EOK (some (demo_node 1))] ()
        (some (demo_node 0)) (some (demo_node 1)) [97, 0] ∧
      replies (libfs_lookup (demo_reg [47, 97]) (demo_ops (fun _ => EOK)) 7
        ⟨0, 2, 3, 2 ^ 32 - 1, L_FILE ||| L_UNLINK ||| L_OPEN⟩ ()) = [event_t.answer_0 EISDIR] ∧
      mutations (libfs_lookup (demo_reg [47, 97]) (demo_ops (fun _ => EOK)) 7
        ⟨0, 2, 3, 2 ^ 32 - 1, L_FILE ||| L_UNLINK ||| L_OPEN⟩ ()) = []) ∧
    (lookup_reaches (demo_reg [47, 97, 47, 98]) (demo_ops (fun _ => EOK))
        ⟨0, 4, 3, 2 ^ 32 - 1, L_DIRECTORY ||| L_CREATE ||| L_OPEN⟩ ()
        [event_t.match_ (demo_node 0) [97] EOK (some (demo_node 1)),
          event_t.match_ (demo_node 1) [98] EOK (some (demo_node 2)),
          event_t.node_put (demo_node 0) EOK] ()
        (some (demo_node 1)) (some (demo_node 2)) [98, 0] ∧
      replies (libfs_lookup (demo_reg [47, 97, 47, 98]) (demo_ops (fun _ => EOK)) 7
        ⟨0, 4, 3, 2 ^ 32 - 1, L_DIRECTORY ||| L_CREATE ||| L_OPEN⟩ ())
          = [event_t.answer_0 ENOTDIR] ∧
      mutations (libfs_lookup (demo_reg [47, 97, 47, 98]) (demo_ops (fun _ => EOK)) 7
        ⟨0, 4, 3, 2 ^ 32 - 1, L_DIRECTORY ||| L_CREATE ||| L_OPEN⟩ ()) = []) :=
  have h1 : lookup_reaches (demo_reg [47, 97]) (demo_ops (fun _ => EOK))
      ⟨0, 2, 3, 2 ^ 32 - 1, L_FILE ||| L_UNLINK ||| L_OPEN⟩ ()
      [event_t.match_ (demo_node 0) [97] EOK (some (demo_node 1))] ()
      (some (demo_node 0)) (some (demo_node 1)) [97, 0] :=
    ⟨demo_node 0, (), by decide, by decide, by decide⟩
  have h2 : lookup_reaches (demo_reg [47, 97, 47, 98]) (demo_ops (fun _ => EOK))
      ⟨0, 4, 3, 2 ^ 32 - 1, L_DIRECTORY ||| L_CREATE ||| L_OPEN⟩ ()
      [event_t.match_ (demo_node 0) [97] EOK (some (demo_node 1)),
        event_t.match_ (demo_node 1) [98] EOK (some (demo_node 2)),
        event_t.node_put (demo_node 0) EOK] ()
      (some (demo_node 1)) (some (demo_node 2)) [98, 0] :=
    ⟨demo_node 0, (), by decide, by decide, by decide⟩
  ⟨⟨h1, (libfs_lookup_kind_checks _ _ 7 _ _ _ _ _ _ _ h1
      (fun p hp => by cases hp; decide)).1 (by decide) (by decide)⟩,
    ⟨h2, (libfs_lookup_kind_checks _ _ 7 _ _ _ _ _ _ _ h2
      (fun p hp => by cases hp; decide)).2 (by decide) (by decide) (by decide)⟩⟩

/-! ## Unlink through lookup -/

/-- C16: a lookup with `L_UNLINK` that reaches the code behind the walk
and passes the assertion on the parent and the kind checks replies `ENOENT`
when the target does not exist and `EINVAL` when the target has no parent;
otherwise `unlink(parent, target, last component)` is the one call of a
mutating operation, and the reply carries the link count that `lnkcnt_get`
gave in the state before the call when `unlink` succeeds, and the error code
of `unlink` when it fails. -/
theorem libfs_lookup_unlink {σ : Type} (reg : fs_reg_t) (ops : libfs_ops_t σ)
    (fs_handle : Nat) (req : ipc_call_t) (s : σ) (evs : List event_t) (s2 : σ)
    (par cur : Option fs_node_t) (component : List Nat)
    (h : lookup_reaches reg ops req s evs s2 par cur component)
    (hU : req.arg5 % 2 ^ 32 &&& L_UNLINK ≠ 0)
    (hassert : ∀ p, par = some p → ops.is_directory s2 p = true)
    (hfile : ∀ x, cur = some x →
      ¬ (req.arg5 % 2 ^ 32 &&& L_FILE ≠ 0 ∧ ops.is_directory s2 x = true))
    (hdir : ∀ x, cur = some x →
      ¬ (req.arg5 % 2 ^ 32 &&& L_DIRECTORY ≠ 0 ∧ ops.is_file s2 x = true)) :
    (cur = none →
        replies (libfs_lookup reg ops fs_handle req s) = [event_t.answer_0 ENOENT] ∧
          mutations (libfs_lookup reg ops fs_handle req s) = []) ∧
      (∀ x, cur = some x → par = none →
        replies (libfs_lookup reg ops fs_handle req s) = [event_t.answer_0 EINVAL] ∧
          mutations (libfs_lookup reg ops fs_handle req s) = []) ∧
      (∀ x p, cur = some x → par = some p →
        mutations (libfs_lookup reg ops fs_handle req s)
            = [event_t.unlink p x (cstr component) (ops.unlink s2 p x (cstr component)).1] ∧
          ((ops.unlink s2 p x (cstr component)).1 = EOK →
            replies (libfs_lookup reg ops fs_handle req s)
              = [event_t.answer_5 fs_handle req.arg3
                  (ops.index_get (ops.unlink s2 p x (cstr component)).2 x)
                  (LOWER32 (ops.size_get (ops.unlink s2 p x (cstr component)).2 x))
                  (UPPER32 (ops.size_get (ops.unlink s2 p x (cstr component)).2 x))
                  (ops.lnkcnt_get s2 x)]) ∧
          ((ops.unlink s2 p x (cstr component)).1 ≠ EOK →
            replies (libfs_lookup reg ops fs_handle req s)
              = [event_t.answer_0 (ops.unlink s2 p x (cstr component)).1])) := by
  rw [replies_of_reaches reg ops fs_handle req s evs s2 par cur component h,
    mutations_of_reaches reg ops fs_handle req s evs s2 par cur component h]
  refine ⟨fun hc => ?_, fun x hc hp => ?_, fun x p hc hp => ?_⟩
  · subst hc
    cases par with
    | none => exact absurd rfl (lookup_reaches_par_none reg ops req s evs s2 none component h)
    | some p =>
      rw [libfs_lookup_finish_unlink_none ops fs_handle req.arg3 _ s2 p component
        (hassert p rfl) hU]
      exact ⟨replies_answer_0_out _ _ _ _ _ _, mutations_answer_0 _ _ _ _ _ _⟩
  · subst hc hp
    rw [libfs_lookup_finish_unlink_root ops fs_handle req.arg3 _ s2 x component
      (hfile x rfl) (hdir x rfl) hU]
    exact ⟨replies_answer_0_out _ _ _ _ _ _, mutations_answer_0 _ _ _ _ _ _⟩
  · subst hc hp
    rw [libfs_lookup_finish_unlink_some ops fs_handle req.arg3 _ s2 p x component
      (hassert p rfl) (hfile x rfl) (hdir x rfl) hU]
    refine ⟨?_, fun hok => ?_, fun hne => ?_⟩
    · have e : ∀ tr, mutations (event_t.unlink p x (cstr component)
          (ops.unlink s2 p x (cstr component)).1 :: tr)
          = event_t.unlink p x (cstr component) (ops.unlink s2 p x (cstr component)).1 ::
            mutations tr := by
        intro tr
        simp [mutations]
      rw [e]
      split
      · rw [mutations_answer_5]
      · rw [mutations_answer_0]
    · rw [if_pos hok]
      have e : ∀ tr, replies (event_t.unlink p x (cstr component)
          (ops.unlink s2 p x (cstr component)).1 :: tr) = replies tr := by
        intro tr
        simp [replies]
      rw [e, replies_answer_5_out]
    · rw [if_neg hne]
      have e : ∀ tr, replies (event_t.unlink p x (cstr component)
          (ops.unlink s2 p x (cstr component)).1 :: tr) = replies tr := by
        intro tr
        simp [replies]
      rw [e, replies_answer_0_out]

/-- C16, at the file `/a/b` with two links looked up with `L_UNLINK`: `unlink`
is called once on `a`, `b` and the component `b`, and the reply carries the
link count 2 although the count is 1 after the call. -/
theorem libfs_lookup_unlink_witness :
    lookup_reaches (demo_reg [47, 97, 47, 98]) (demo_state_ops none EOK)
        ⟨0, 4, 3, 2 ^ 32 - 1, L_UNLINK⟩ 2
        [event_t.match_ (demo_node 0) [97] EOK (some (demo_node 1)),
          event_t.match_ (demo_node 1) [98] EOK (some (demo_node 2)),
          event_t.node_put (demo_node 0) EOK] 2
        (some (demo_node 1)) (some (demo_node 2)) [98, 0] ∧
      mutations (libfs_lookup (demo_reg [47, 97, 47, 98]) (demo_state_ops none EOK) 7
        ⟨0, 4, 3, 2 ^ 32 - 1, L_UNLINK⟩ 2)
          = [event_t.unlink (demo_node 1) (demo_node 2) [98] EOK] ∧
      replies (libfs_lookup (demo_reg [47, 97, 47, 98]) (demo_state_ops none EOK) 7
        ⟨0, 4, 3, 2 ^ 32 - 1, L_UNLINK⟩ 2) = [event_t.answer_5 7 3 2 5 0 2] ∧
      (demo_state_ops none EOK).lnkcnt_get
        ((demo_state_ops none EOK).unlink 2 (demo_node 1) (demo_node 2) [98]).2 (demo_node 2)
          = 1 :=
  have h : lookup_reaches (demo_reg [47, 97, 47, 98]) (demo_state_ops none EOK)
      ⟨0, 4, 3, 2 ^ 32 - 1, L_UNLINK⟩ 2
      [event_t.match_ (demo_node 0) [97] EOK (some (demo_node 1)),
        event_t.match_ (demo_node 1) [98] EOK (some (demo_node 2)),
        event_t.node_put (demo_node 0) EOK] 2
      (some (demo_node 1)) (some (demo_node 2)) [98, 0] :=
    ⟨demo_node 0, 2, by decide, by decide, by decide⟩
  have t := (libfs_lookup_unlink _ _ 7 _ _ _ _ _ _ _ h (by decide)
    (fun p hp => by cases hp; decide) (fun x hx => by cases hx; decide)
    (fun x hx => by cases hx; decide)).2.2 (demo_node 2) (demo_node 1) rfl rfl
  ⟨h, t.1.trans (by decide), (t.2.1 (by decide)).trans (by decide), by decide⟩

/-! ## Create through lookup -/

/-- C17: a lookup with `L_CREATE` and without `L_UNLINK` whose last
component does not exist in its parent `p` calls `create` with the service id
and `lflag & (L_FILE|L_DIRECTORY)` right behind the walk; when `create`
returns `EOK` and no node the reply is `ENOSPC`; when it returns the node `n`
and `link(p, n, component)` fails, the rest of the run is the call of
`destroy` on `n`, the answer with the error code of `link`, and the call of
`node_put` on the parent `p`: `destroy` is called once and `node_put` is not
called on `n`. -/
theorem libfs_lookup_create_rollback {σ : Type} (reg : fs_reg_t) (ops : libfs_ops_t σ)
    (fs_handle : Nat) (req : ipc_call_t) (s : σ) (evs : List event_t) (s2 : σ)
    (p : fs_node_t) (component : List Nat)
    (h : lookup_reaches reg ops req s evs s2 (some p) none component)
    (hC : req.arg5 % 2 ^ 32 &&& L_CREATE ≠ 0)
    (hU : req.arg5 % 2 ^ 32 &&& L_UNLINK = 0)
    (hassert : ops.is_directory s2 p = true) :
    (∃ rest, libfs_lookup reg ops fs_handle req s =
        libfs_lookup_start_event ops req s ::
          (evs ++
            event_t.create req.arg3 (req.arg5 % 2 ^ 32 &&& (L_FILE ||| L_DIRECTORY))
              (ops.create s2 req.arg3 (req.arg5 % 2 ^ 32 &&& (L_FILE ||| L_DIRECTORY))).1
              (ops.create s2 req.arg3 (req.arg5 % 2 ^ 32 &&& (L_FILE ||| L_DIRECTORY))).2.1 ::
            rest)) ∧
      ((ops.create s2 req.arg3 (req.arg5 % 2 ^ 32 &&& (L_FILE ||| L_DIRECTORY))).1 = EOK →
        (ops.create s2 req.arg3 (req.arg5 % 2 ^ 32 &&& (L_FILE ||| L_DIRECTORY))).2.1 = none →
        replies (libfs_lookup reg ops fs_handle req s) = [event_t.answer_0 ENOSPC]) ∧
      (∀ (n : fs_node_t) (s3 : σ),
        ops.create s2 req.arg3 (req.arg5 % 2 ^ 32 &&& (L_FILE ||| L_DIRECTORY))
          = (EOK, some n, s3) →
        (ops.link s3 (some p) n (cstr component)).1 ≠ EOK →
        libfs_lookup reg ops fs_handle req s =
          libfs_lookup_start_event ops req s ::
            (evs ++
              [event_t.create req.arg3 (req.arg5 % 2 ^ 32 &&& (L_FILE ||| L_DIRECTORY)) EOK
                  (some n),
                event_t.link (some p) n (cstr component)
                  (ops.link s3 (some p) n (cstr component)).1,
                event_t.destroy n
                  (ops.destroy (ops.link s3 (some p) n (cstr component)).2 n).1,
                event_t.answer_0 (ops.link s3 (some p) n (cstr component)).1,
                event_t.node_put p
                  (ops.node_put (ops.destroy (ops.link s3 (some p) n (cstr component)).2 n).2
                    p).1])) := by
  have hfin := libfs_lookup_finish_create ops fs_handle req.arg3 (req.arg5 % 2 ^ 32) s2 (some p)
    none component (fun q hq => by cases hq; exact hassert) (fun hq => by cases hq)
    (fun x hx => by cases hx) (fun x hx => by cases hx) hU
  have hrun := libfs_lookup_of_reaches reg ops fs_handle req s evs s2 (some p) none component h
  rw [hfin] at hrun
  have hrep := replies_of_reaches reg ops fs_handle req s evs s2 (some p) none component h
  rw [hfin] at hrep
  unfold libfs_lookup_create at hrun hrep
  rw [if_pos hC] at hrun hrep
  simp only [] at hrun hrep
  refine ⟨⟨_, hrun⟩, fun h1 h2 => ?_, fun n s3 hcr hl => ?_⟩
  · rw [hrep, h1, h2]
    simp only [ne_eq, not_true_eq_false, if_false]
    have e : ∀ tr, replies (event_t.create req.arg3
        (req.arg5 % 2 ^ 32 &&& (L_FILE ||| L_DIRECTORY)) EOK none :: tr) = replies tr := by
      intro tr
      simp [replies]
    rw [e, replies_answer_0_out]
  · rw [hrun, hcr]
    simp only [ne_eq, not_true_eq_false, if_false, if_pos hl, libfs_lookup_out_par]

/-- C17, at the path `/a/c` looked up with `L_CREATE | L_FILE` on a backend
whose `create` returns the node 9 and whose `link` fails with `ENOSPC`: the
whole run, with one `destroy` on the node 9 and no `node_put` on it. -/
theorem libfs_lookup_create_rollback_witness :
    lookup_reaches (demo_reg [47, 97, 47, 99]) (demo_state_ops (some (demo_node 9)) ENOSPC)
        ⟨0, 4, 3, 2 ^ 32 - 1, L_CREATE ||| L_FILE⟩ 1
        [event_t.match_ (demo_node 0) [97] EOK (some (demo_node 1)),
          event_t.match_ (demo_node 1) [99] EOK none,
          event_t.node_put (demo_node 0) EOK] 1
        (some (demo_node 1)) none [99, 0] ∧
      libfs_lookup (demo_reg [47, 97, 47, 99]) (demo_state_ops (some (demo_node 9)) ENOSPC) 7
          ⟨0, 4, 3, 2 ^ 32 - 1, L_CREATE ||| L_FILE⟩ 1
        = [event_t.root_get 3 EOK (some (demo_node 0)),
            event_t.match_ (demo_node 0) [97] EOK (some (demo_node 1)),
            event_t.match_ (demo_node 1) [99] EOK none,
            event_t.node_put (demo_node 0) EOK,
            event_t.create 3 L_FILE EOK (some (demo_node 9)),
            event_t.link (some (demo_node 1)) (demo_node 9) [99] ENOSPC,
            event_t.destroy (demo_node 9) EOK,
            event_t.answer_0 ENOSPC,
            event_t.node_put (demo_node 1) EOK] :=
  have h : lookup_reaches (demo_reg [47, 97, 47, 99])
      (demo_state_ops (some (demo_node 9)) ENOSPC)
      ⟨0, 4, 3, 2 ^ 32 - 1, L_CREATE ||| L_FILE⟩ 1
      [event_t.match_ (demo_node 0) [97] EOK (some (demo_node 1)),
        event_t.match_ (demo_node 1) [99] EOK none,
        event_t.node_put (demo_node 0) EOK] 1
      (some (demo_node 1)) none [99, 0] :=
    ⟨demo_node 0, 1, by decide, by decide, by decide⟩
  ⟨h, ((libfs_lookup_create_rollback _ _ 7 _ _ _ _ _ _ h (by decide) (by decide)
    (by decide)).2.2 (demo_node 9) 1 (by decide) (by decide)).trans (by decide)⟩

/-- C18: a lookup with `L_CREATE` and `L_EXCLUSIVE` and without
`L_UNLINK` whose target `x` exists and passes the kind checks replies
`EEXIST`, and none of `create`, `link`, `unlink`, `destroy` and `node_open` is
called. -/
theorem libfs_lookup_create_exclusive {σ : Type} (reg : fs_reg_t) (ops : libfs_ops_t σ)
    (fs_handle : Nat) (req : ipc_call_t) (s : σ) (evs : List event_t) (s2 : σ)
    (par : Option fs_node_t) (x : fs_node_t) (component : List Nat)
    (h : lookup_reaches reg ops req s evs s2 par (some x) component)
    (hC : req.arg5 % 2 ^ 32 &&& L_CREATE ≠ 0)
    (hE : req.arg5 % 2 ^ 32 &&& L_EXCLUSIVE ≠ 0)
    (hU : req.arg5 % 2 ^ 32 &&& L_UNLINK = 0)
    (hassert : ∀ p, par = some p → ops.is_directory s2 p = true)
    (hfile : ¬ (req.arg5 % 2 ^ 32 &&& L_FILE ≠ 0 ∧ ops.is_directory s2 x = true))
    (hdir : ¬ (req.arg5 % 2 ^ 32 &&& L_DIRECTORY ≠ 0 ∧ ops.is_file s2 x = true)) :
    replies (libfs_lookup reg ops fs_handle req s) = [event_t.answer_0 EEXIST] ∧
      mutations (libfs_lookup reg ops fs_handle req s) = [] := by
  rw [replies_of_reaches reg ops fs_handle req s evs s2 par (some x) component h,
    mutations_of_reaches reg ops fs_handle req s evs s2 par (some x) component h,
    libfs_lookup_finish_create ops fs_handle req.arg3 (req.arg5 % 2 ^ 32) s2 par (some x)
      component hassert (fun _ => by simp) (fun y hy => by cases hy; exact hfile)
      (fun y hy => by cases hy; exact hdir) hU]
  unfold libfs_lookup_create
  rw [if_pos hC]
  simp only []
  rw [if_pos hE]
  exact ⟨replies_answer_0_out _ _ _ _ _ _, mutations_answer_0 _ _ _ _ _ _⟩

/-- C18, at the existing file `/a/b` looked up with
`L_CREATE | L_EXCLUSIVE | L_FILE`: the reply is `EEXIST` and no mutating
operation is called. -/
theorem libfs_lookup_create_exclusive_witness :
    lookup_reaches (demo_reg [47, 97, 47, 98]) (demo_state_ops (some (demo_node 9)) EOK)
        ⟨0, 4, 3, 2 ^ 32 - 1, L_CREATE ||| L_EXCLUSIVE ||| L_FILE⟩ 1
        [event_t.match_ (demo_node 0) [97] EOK (some (demo_node 1)),
          event_t.match_ (demo_node 1) [98] EOK (some (demo_node 2)),
          event_t.node_put (demo_node 0) EOK] 1
        (some (demo_node 1)) (some (demo_node 2)) [98, 0] ∧
      replies (libfs_lookup (demo_reg [47, 97, 47, 98])
        (demo_state_ops (some (demo_node 9)) EOK) 7
        ⟨0, 4, 3, 2 ^ 32 - 1, L_CREATE ||| L_EXCLUSIVE ||| L_FILE⟩ 1)
          = [event_t.answer_0 EEXIST] ∧
      mutations (libfs_lookup (demo_reg [47, 97, 47, 98])
        (demo_state_ops (some (demo_node 9)) EOK) 7
        ⟨0, 4, 3, 2 ^ 32 - 1, L_CREATE ||| L_EXCLUSIVE ||| L_FILE⟩ 1) = [] :=
  have h : lookup_reaches (demo_reg [47, 97, 47, 98]) (demo_state_ops (some (demo_node 9)) EOK)
      ⟨0, 4, 3, 2 ^ 32 - 1, L_CREATE ||| L_EXCLUSIVE ||| L_FILE⟩ 1
      [event_t.match_ (demo_node 0) [97] EOK (some (demo_node 1)),
        event_t.match_ (demo_node 1) [98] EOK (some (demo_node 2)),
        event_t.node_put (demo_node 0) EOK] 1
      (some (demo_node 1)) (some (demo_node 2)) [98, 0] :=
    ⟨demo_node 0, 1, by decide, by decide, by decide⟩
  ⟨h, libfs_lookup_create_exclusive _ _ 7 _ _ _ _ _ _ _ h (by decide) (by decide) (by decide)
    (fun p hp => by cases hp; decide) (by decide) (by decide)⟩

/-! ## Exactly one reply -/

/-- A run of calls of `match` and `node_put` in front of a single reply leaves
a single reply. -/
theorem single_reply_append (evs tr : List event_t)
    (hev : ∀ e ∈ evs, (∃ p c rc r, e = event_t.match_ p c rc r) ∨
      (∃ p rc, e = event_t.node_put p rc))
    (h : single_reply tr) : single_reply (evs ++ tr) := by
  obtain ⟨h1, h2, h3, h4⟩ := walk_events_facts evs hev
  obtain ⟨a, b, x, hx⟩ := h
  refine ⟨?_, ?_, x, ?_⟩
  · simp only [List.mem_append, not_or]
    exact ⟨h3, a⟩
  · simp only [List.mem_append, not_or]
    exact ⟨h4, b⟩
  · rw [replies_append, h1, hx]
    rfl

/-- What follows the walk stops at a failed assertion or gives a single reply,
when the walk has not reached its bound. -/
theorem libfs_lookup_after_single {σ : Type} (ops : libfs_ops_t σ)
    (fs_handle service_id lflag last : Nat) (x : walk_end_t σ)
    (hx : x ≠ walk_end_t.unfinished) :
    libfs_lookup_after ops fs_handle service_id lflag last x = [event_t.assert_fail] ∨
      single_reply (libfs_lookup_after ops fs_handle service_id lflag last x) := by
  cases x with
  | finished s par cur component =>
    exact libfs_lookup_finish_single ops fs_handle service_id lflag s par cur component
  | answered rc s par cur tmp => exact Or.inr (single_reply_answer_0 _ _ _ _ _ _)
  | forwarded next s par cur tmp => exact Or.inr (single_reply_forward _ _ _ _ _ _ _ _ _ _ _)
  | assert_failed => exact Or.inl rfl
  | unfinished => exact absurd rfl hx

/-- The walk of a request does not reach its bound. -/
theorem libfs_lookup_walk_of_finishes {σ : Type} (reg : fs_reg_t) (ops : libfs_ops_t σ)
    (req : ipc_call_t) (s : σ) (c : fs_node_t) :
    (libfs_lookup_walk_of reg ops req s c).2 ≠ walk_end_t.unfinished := by
  unfold libfs_lookup_walk_of
  have h1 : req.arg1 % 2 ^ 32 < 2 ^ 32 := Nat.mod_lt _ (by decide)
  have h2 : req.arg2 % 2 ^ 32 < 2 ^ 32 := Nat.mod_lt _ (by decide)
  apply libfs_lookup_walk_end_finishes reg ops _ _ (Nat.mod_lt _ (by decide)) _ _ _ _ _ _ _ h1
  unfold plb_dist
  omega

/-- C19 (the code's behaviour): for every request and every backend, a run of
`libfs_lookup` holds exactly one answer to or forward of the request, or it
stops at a failed assertion and holds no answer and no forward at all; the
walk ends within its bound in both cases. The second case occurs: when
`root_get` or `node_get` returns `EOK` together with no node, the request is
neither answered nor forwarded. -/
theorem libfs_lookup_reply_or_abort {σ : Type} (reg : fs_reg_t) (ops : libfs_ops_t σ)
    (fs_handle : Nat) (req : ipc_call_t) (s : σ) :
    (single_reply (libfs_lookup reg ops fs_handle req s) ∨
        (event_t.assert_fail ∈ libfs_lookup reg ops fs_handle req s ∧
          event_t.unfinished ∉ libfs_lookup reg ops fs_handle req s ∧
          replies (libfs_lookup reg ops fs_handle req s) = [])) ∧
      ((libfs_lookup_start ops req s).1 = EOK → (libfs_lookup_start ops req s).2.1 = none →
        event_t.assert_fail ∈ libfs_lookup reg ops fs_handle req s ∧
          replies (libfs_lookup reg ops fs_handle req s) = [] ∧
          forwards (libfs_lookup reg ops fs_handle req s) = []) := by
  have lift : ∀ tr : List event_t,
      (single_reply tr ∨
        (event_t.assert_fail ∈ tr ∧ event_t.unfinished ∉ tr ∧ replies tr = [])) →
      (single_reply (libfs_lookup_start_event ops req s :: tr) ∨
        (event_t.assert_fail ∈ libfs_lookup_start_event ops req s :: tr ∧
          event_t.unfinished ∉ libfs_lookup_start_event ops req s :: tr ∧
          replies (libfs_lookup_start_event ops req s :: tr) = [])) := by
    intro tr h
    obtain ⟨f1, _, _, _, f5, f6⟩ := libfs_lookup_start_event_facts ops req s tr
    unfold single_reply at h ⊢
    rw [f1, f5, f6]
    exact h
  refine ⟨?_, fun hrc hnull => ?_⟩
  · rw [libfs_lookup_eq_start]
    apply lift
    split
    · exact Or.inl (single_reply_answer_0 _ _ _ _ _ _)
    · cases (libfs_lookup_start ops req s).2.1 with
      | none =>
        right
        simp [replies]
      | some c =>
        simp only []
        split
        · left
          refine ⟨by simp, by simp,
            event_t.forward_lookup c.mp_data.sess (req.arg1 % 2 ^ 32)
              (((req.arg1 % 2 ^ 32 + req.arg2 % 2 ^ 32) % 2 ^ 32 + 2 ^ 32 - req.arg1 % 2 ^ 32)
                % 2 ^ 32)
              c.mp_data.service_id (2 ^ 32 - 1) (req.arg5 % 2 ^ 32), ?_⟩
          simp [replies]
        · have hev := libfs_lookup_walk_end_events reg ops (req.arg5 % 2 ^ 32)
            ((req.arg1 % 2 ^ 32 + req.arg2 % 2 ^ 32) % 2 ^ 32) (req.arg2 % 2 ^ 32)
            (libfs_lookup_start ops req s).2.2 none (some c) (req.arg1 % 2 ^ 32) [] 0
          rcases libfs_lookup_after_single ops fs_handle req.arg3 (req.arg5 % 2 ^ 32)
            ((req.arg1 % 2 ^ 32 + req.arg2 % 2 ^ 32) % 2 ^ 32)
            (libfs_lookup_walk_of reg ops req (libfs_lookup_start ops req s).2.2 c).2
            (libfs_lookup_walk_of_finishes reg ops req _ c) with hq | hq
          · right
            rw [hq]
            obtain ⟨h1, _, _, h4⟩ := walk_events_facts _ hev
            refine ⟨by simp, ?_, ?_⟩
            · intro hm
              rcases List.mem_append.1 hm with hm | hm
              · exact h4 hm
              · simp at hm
            · unfold libfs_lookup_walk_of
              rw [replies_append, h1]
              rfl
          · left
            exact single_reply_append _ _ hev hq
  · have h : libfs_lookup reg ops fs_handle req s
        = [libfs_lookup_start_event ops req s, event_t.assert_fail] := by
      rw [libfs_lookup_eq_start, hrc, hnull]
      simp
    rw [h, (libfs_lookup_start_event_facts ops req s _).1,
      (libfs_lookup_start_event_facts ops req s _).2.2.1]
    exact ⟨by simp, rfl, rfl⟩

/-- C19, at a backend whose `node_get` returns `EOK` and no node for the index
5: the run stops at the failed assertion and the request is neither answered
nor forwarded. -/
theorem libfs_lookup_reply_or_abort_witness :
    (libfs_lookup_start (demo_ops (fun _ => EOK)) ⟨0, 2, 3, 5, 0⟩ ()).1 = EOK ∧
      (libfs_lookup_start (demo_ops (fun _ => EOK)) ⟨0, 2, 3, 5, 0⟩ ()).2.1 = none ∧
      event_t.assert_fail ∈ libfs_lookup (demo_reg [47, 97]) (demo_ops (fun _ => EOK)) 7
        ⟨0, 2, 3, 5, 0⟩ () ∧
      replies (libfs_lookup (demo_reg [47, 97]) (demo_ops (fun _ => EOK)) 7
        ⟨0, 2, 3, 5, 0⟩ ()) = [] ∧
      forwards (libfs_lookup (demo_reg [47, 97]) (demo_ops (fun _ => EOK)) 7
        ⟨0, 2, 3, 5, 0⟩ ()) = [] :=
  ⟨by decide, by decide,
    (libfs_lookup_reply_or_abort (demo_reg [47, 97]) (demo_ops (fun _ => EOK)) 7
      ⟨0, 2, 3, 5, 0⟩ ()).2 (by decide) (by decide)⟩

/-! ## Mounting on an active mount point -/

/-- C20: when the mount-point node `fn` that `node_get` returns is
already an active mount point, `libfs_mount` hangs up the session of the
mountee, calls `node_put` on `fn` once, and answers `EBUSY`; the node,
with the four fields of its `mp_data`, is left as it was. -/
theorem libfs_mount_busy {σ : Type} (ops : libfs_ops_t σ) (fs_handle : Nat) (req : ipc_call_t)
    (env : mount_env_t) (s s1 : σ) (fn : fs_node_t)
    (hsess : env.mountee_sess ≠ 0)
    (hget : ops.node_get s req.arg1 (req.arg2 % 2 ^ 32) = (EOK, some fn, s1))
    (hact : fn.mp_data.mp_active = true) :
    (libfs_mount ops fs_handle req env s).events
        = [mount_event_t.node_get req.arg1 (req.arg2 % 2 ^ 32) EOK (some fn),
            mount_event_t.hangup env.mountee_sess,
            mount_event_t.node_put fn (ops.node_put s1 fn).1,
            mount_event_t.data_write_void EBUSY,
            mount_event_t.answer_0 EBUSY] ∧
      (libfs_mount ops fs_handle req env s).fn = some fn ∧
      (libfs_mount ops fs_handle req env s).state = (ops.node_put s1 fn).2 := by
  unfold libfs_mount
  simp only [if_neg hsess, hget, ne_eq, not_true_eq_false, if_false, hact, if_true, and_self]

/-- C20, at a backend whose node 1 is an active mount point with the session
42, the file system 3 and the service 9: the events of the run, and the node
with its `mp_data` as before. -/
theorem libfs_mount_busy_witness :
    (libfs_mount (demo_mp_ops demo_mount_node) 7 ⟨3, 1, 8, 5, 0⟩ ⟨77, 78, 0, EOK, ⟨0, 0, 0, 0, 0⟩⟩
        ()).events
        = [mount_event_t.node_get 3 1 EOK (some demo_mount_node),
            mount_event_t.hangup 77,
            mount_event_t.node_put demo_mount_node EOK,
            mount_event_t.data_write_void EBUSY,
            mount_event_t.answer_0 EBUSY] ∧
      (libfs_mount (demo_mp_ops demo_mount_node) 7 ⟨3, 1, 8, 5, 0⟩
        ⟨77, 78, 0, EOK, ⟨0, 0, 0, 0, 0⟩⟩ ()).fn = some ⟨⟨true, 42, 3, 9⟩, 1⟩ :=
  have h := libfs_mount_busy (demo_mp_ops demo_mount_node) 7 ⟨3, 1, 8, 5, 0⟩
    ⟨77, 78, 0, EOK, ⟨0, 0, 0, 0, 0⟩⟩ () () demo_mount_node (by decide) (by decide) (by decide)
  ⟨h.1.trans (by decide), h.2.1.trans (by decide)⟩

/-! ## Mount and unmount -/

/-- What `libfs_mount` does to the node that `node_get` returns: it leaves
the node as it is, or, on a node that is not active and with a session of the
mountee, it stores the session and the two handles of the request. -/
theorem libfs_mount_fn {σ : Type} (ops : libfs_ops_t σ) (fs_handle : Nat) (req : ipc_call_t)
    (env : mount_env_t) (s : σ) (fn fn1 : fs_node_t)
    (hget : (ops.node_get s req.arg1 (req.arg2 % 2 ^ 32)).2.1 = some fn)
    (hrun : (libfs_mount ops fs_handle req env s).fn = some fn1) :
    fn1 = fn ∨
      (fn.mp_data.mp_active = false ∧ env.mountee_sess ≠ 0 ∧
        fn1 = { fn with mp_data := ⟨true, env.mountee_sess, req.arg3, req.arg4⟩ }) := by
  unfold libfs_mount at hrun
  simp only [hget] at hrun
  split at hrun
  · cases hrun
  · rename_i hs
    split at hrun
    · exact Or.inl (Option.some.inj hrun).symm
    · split at hrun
      · exact Or.inl (Option.some.inj hrun).symm
      · rename_i hact
        split at hrun
        · exact Or.inl (Option.some.inj hrun).symm
        · simp only [] at hrun
          split at hrun
          · right
            refine ⟨?_, hs, (Option.some.inj hrun).symm⟩
            simpa using hact
          · exact Or.inl (Option.some.inj hrun).symm

/-- What `libfs_unmount` does to the node that `node_get` returns: it leaves
the node as it is, or it resets the four fields of an active record. -/
theorem libfs_unmount_fn {σ : Type} (ops : libfs_ops_t σ) (req : ipc_call_t) (res : Int)
    (s : σ) (fn fn1 : fs_node_t)
    (hget : (ops.node_get s req.arg1 (req.arg2 % 2 ^ 32)).2.1 = some fn)
    (hrun : (libfs_unmount ops req res s).fn = some fn1) :
    fn1 = fn ∨
      (fn.mp_data.mp_active = true ∧ fn1 = { fn with mp_data := ⟨false, 0, 0, 0⟩ }) := by
  unfold libfs_unmount at hrun
  simp only [hget] at hrun
  split at hrun
  · exact Or.inl (Option.some.inj hrun).symm
  · split at hrun
    · exact Or.inl (Option.some.inj hrun).symm
    · rename_i hact
      split at hrun
      · right
        refine ⟨?_, (Option.some.inj hrun).symm⟩
        simpa using hact
      · exact Or.inl (Option.some.inj hrun).symm

/-- C21 (the code's behaviour): when the forward of `MOUNTED` to the mountee
returns the error `env.rc`, `libfs_mount` answers that error and leaves the
node as it was, but the run holds no call of `node_put` and no hang-up of the
session of the mountee: the reference taken by `node_get` and the session are
kept. -/
theorem libfs_mount_failure_keeps_reference {σ : Type} (ops : libfs_ops_t σ) (fs_handle : Nat)
    (req : ipc_call_t) (env : mount_env_t) (s s1 : σ) (fn : fs_node_t)
    (hsess : env.mountee_sess ≠ 0)
    (hget : ops.node_get s req.arg1 (req.arg2 % 2 ^ 32) = (EOK, some fn, s1))
    (hact : fn.mp_data.mp_active = false)
    (hclone : env.sess ≠ 0)
    (hrc : env.rc ≠ EOK) :
    (libfs_mount ops fs_handle req env s).events
        = [mount_event_t.node_get req.arg1 (req.arg2 % 2 ^ 32) EOK (some fn),
            mount_event_t.clone_establish env.mountee_sess,
            mount_event_t.data_write_forward_mounted env.mountee_sess req.arg4,
            mount_event_t.answer_4 env.rc env.answer.arg1 env.answer.arg2 env.answer.arg3
              env.answer.arg4] ∧
      (libfs_mount ops fs_handle req env s).fn = some fn ∧
      mount_puts (libfs_mount ops fs_handle req env s).events = 0 ∧
      mount_hangups (libfs_mount ops fs_handle req env s).events = [] := by
  have h : libfs_mount ops fs_handle req env s
      = ⟨[mount_event_t.node_get req.arg1 (req.arg2 % 2 ^ 32) EOK (some fn),
            mount_event_t.clone_establish env.mountee_sess,
            mount_event_t.data_write_forward_mounted env.mountee_sess req.arg4,
            mount_event_t.answer_4 env.rc env.answer.arg1 env.answer.arg2 env.answer.arg3
              env.answer.arg4], some fn, s1⟩ := by
    unfold libfs_mount
    simp only [if_neg hsess, hget, ne_eq, not_true_eq_false, if_false, hact,
      Bool.false_eq_true, if_neg hclone, if_neg hrc]
  rw [h]
  exact ⟨rfl, rfl, rfl, rfl⟩

/-- C21, at a backend whose node 1 is not a mount point, with the mountee
answering `MOUNTED` with `ENOENT`: the run answers `ENOENT` and holds neither
a `node_put` nor a hang-up. -/
theorem libfs_mount_failure_keeps_reference_witness :
    (libfs_mount (demo_mp_ops (demo_node 1)) 7 ⟨3, 1, 8, 5, 0⟩
        ⟨77, 78, 0, ENOENT, ⟨0, 0, 0, 0, 0⟩⟩ ()).events
        = [mount_event_t.node_get 3 1 EOK (some (demo_node 1)),
            mount_event_t.clone_establish 77,
            mount_event_t.data_write_forward_mounted 77 5,
            mount_event_t.answer_4 ENOENT 0 0 0 0] ∧
      mount_puts (libfs_mount (demo_mp_ops (demo_node 1)) 7 ⟨3, 1, 8, 5, 0⟩
        ⟨77, 78, 0, ENOENT, ⟨0, 0, 0, 0, 0⟩⟩ ()).events = 0 ∧
      mount_hangups (libfs_mount (demo_mp_ops (demo_node 1)) 7 ⟨3, 1, 8, 5, 0⟩
        ⟨77, 78, 0, ENOENT, ⟨0, 0, 0, 0, 0⟩⟩ ()).events = [] :=
  have h := libfs_mount_failure_keeps_reference (demo_mp_ops (demo_node 1)) 7 ⟨3, 1, 8, 5, 0⟩
    ⟨77, 78, 0, ENOENT, ⟨0, 0, 0, 0, 0⟩⟩ () () (demo_node 1) (by decide) (by decide)
    (by decide) (by decide) (by decide)
  ⟨h.1.trans (by decide), h.2.2.1, h.2.2.2⟩

/-- C22 as stated fails: a `MOUNT` request with the file-system handle 0 on a
node filled by `fs_node_initialize`, answered `EOK` by the mountee, leaves the
node active with the handle 0. -/
theorem mp_invariant_zero_handle :
    (libfs_mount (demo_mp_ops { fs_node_initialize (demo_node 0) with data := 1 }) 7
        ⟨3, 1, 0, 5, 0⟩ ⟨77, 78, 0, EOK, ⟨0, 0, 0, 0, 0⟩⟩ ()).fn
        = some ⟨⟨true, 77, 0, 5⟩, 1⟩ ∧
      mp_reachable (fun _ => True) ⟨⟨true, 77, 0, 5⟩, 1⟩ ∧
      ¬ mp_invariant ⟨⟨true, 77, 0, 5⟩, 1⟩ := by
  have h : (libfs_mount (demo_mp_ops { fs_node_initialize (demo_node 0) with data := 1 }) 7
      ⟨3, 1, 0, 5, 0⟩ ⟨77, 78, 0, EOK, ⟨0, 0, 0, 0, 0⟩⟩ ()).fn
      = some ⟨⟨true, 77, 0, 5⟩, 1⟩ := by decide
  refine ⟨h, ⟨demo_node 0, 1, Relation.ReflTransGen.single ?_⟩, ?_⟩
  · exact ⟨Unit, demo_mp_ops { fs_node_initialize (demo_node 0) with data := 1 }, (),
      ⟨3, 1, 0, 5, 0⟩, by decide, Or.inl ⟨7, ⟨77, 78, 0, EOK, ⟨0, 0, 0, 0, 0⟩⟩, trivial, h⟩⟩
  · intro hinv
    exact (hinv.1 rfl).2.1 rfl

/-- C22 (amended): every node reachable from a node filled by
`fs_node_initialize` through `MOUNT` and `UNMOUNT` requests, handled on any
backend, whose `MOUNT` requests carry a file-system handle and a service id
other than zero, satisfies the invariant: an active record has a session, a
handle and a service id other than zero, and a record that is not active has
its four fields at their defaults. -/
theorem mp_invariant_reachable (fn : fs_node_t)
    (h : mp_reachable (fun req => req.arg3 ≠ 0 ∧ req.arg4 ≠ 0) fn) : mp_invariant fn := by
  obtain ⟨fn0, d, hr⟩ := h
  induction hr with
  | refl =>
    refine ⟨fun hact => ?_, fun _ => rfl⟩
    simp [ fs_node_initialize] at hact
  | @tail b c _ hstep ih =>
    obtain ⟨σ, ops, s, req, hget, hrun⟩ := hstep
    rcases hrun with ⟨fs_handle, env, hP, hrun⟩ | ⟨res, hrun⟩
    · rcases libfs_mount_fn ops fs_handle req env s b c hget hrun with rfl | ⟨_, hs, rfl⟩
      · exact ih
      · refine ⟨fun _ => ⟨hs, hP.1, hP.2⟩, fun hact => ?_⟩
        simp at hact
    · rcases libfs_unmount_fn ops req res s b c hget hrun with rfl | ⟨_, rfl⟩
      · exact ih
      · exact ⟨fun hact => by simp at hact, fun _ => rfl⟩

/-- C22 (amended), at a node initialised with the data 1 and mounted with the
session 77, the handle 8 and the service 5: the node is reachable and
satisfies the invariant. -/
theorem mp_invariant_reachable_witness :
    mp_reachable (fun req => req.arg3 ≠ 0 ∧ req.arg4 ≠ 0) ⟨⟨true, 77, 8, 5⟩, 1⟩ ∧
      mp_invariant ⟨⟨true, 77, 8, 5⟩, 1⟩ :=
  have h : mp_reachable (fun req => req.arg3 ≠ 0 ∧ req.arg4 ≠ 0) ⟨⟨true, 77, 8, 5⟩, 1⟩ :=
    ⟨demo_node 0, 1, Relation.ReflTransGen.single
      ⟨Unit, demo_mp_ops { fs_node_initialize (demo_node 0) with data := 1 }, (),
        ⟨3, 1, 8, 5, 0⟩, by decide,
        Or.inl ⟨7, ⟨77, 78, 0, EOK, ⟨0, 0, 0, 0, 0⟩⟩, ⟨by decide, by decide⟩, by decide⟩⟩⟩
  ⟨h, mp_invariant_reachable _ h⟩

/-- C23: on a node `fn` that `node_get` returns with `EOK`, `libfs_unmount`
answers `EINVAL` after one `node_put` and without a message to the mountee
when `fn` is not an active mount point; when `fn` is active and `UNMOUNTED`
returns `EOK` it hangs up the session, resets the four fields of the record,
calls `node_put` twice and answers `EOK`; when `UNMOUNTED` returns an error it
leaves the record as it is, calls `node_put` once and answers the error. Hence
a successful `MOUNT` on a node with a default record followed by a successful
`UNMOUNT` leaves the node as it was, with as many calls of `node_put` as of
`node_get` in the two runs. -/
theorem libfs_unmount_contract {σ : Type} (ops : libfs_ops_t σ) (req : ipc_call_t) (res : Int)
    (s s1 : σ) (fn : fs_node_t)
    (hget : ops.node_get s req.arg1 (req.arg2 % 2 ^ 32) = (EOK, some fn, s1)) :
    (fn.mp_data.mp_active = false →
        (libfs_unmount ops req res s).events
            = [mount_event_t.node_get req.arg1 (req.arg2 % 2 ^ 32) EOK (some fn),
                mount_event_t.node_put fn (ops.node_put s1 fn).1,
                mount_event_t.answer_0 EINVAL] ∧
          (libfs_unmount ops req res s).fn = some fn) ∧
      (fn.mp_data.mp_active = true → res = EOK →
        (libfs_unmount ops req res s).events
            = [mount_event_t.node_get req.arg1 (req.arg2 % 2 ^ 32) EOK (some fn),
                mount_event_t.req_unmounted fn.mp_data.sess fn.mp_data.service_id,
                mount_event_t.hangup fn.mp_data.sess,
                mount_event_t.node_put { fn with mp_data := ⟨false, 0, 0, 0⟩ }
                  (ops.node_put s1 { fn with mp_data := ⟨false, 0, 0, 0⟩ }).1,
                mount_event_t.node_put { fn with mp_data := ⟨false, 0, 0, 0⟩ }
                  (ops.node_put (ops.node_put s1 { fn with mp_data := ⟨false, 0, 0, 0⟩ }).2
                    { fn with mp_data := ⟨false, 0, 0, 0⟩ }).1,
                mount_event_t.answer_0 EOK] ∧
          (libfs_unmount ops req res s).fn = some { fn with mp_data := ⟨false, 0, 0, 0⟩ }) ∧
      (fn.mp_data.mp_active = true → res ≠ EOK →
        (libfs_unmount ops req res s).events
            = [mount_event_t.node_get req.arg1 (req.arg2 % 2 ^ 32) EOK (some fn),
                mount_event_t.req_unmounted fn.mp_data.sess fn.mp_data.service_id,
                mount_event_t.node_put fn (ops.node_put s1 fn).1,
                mount_event_t.answer_0 res] ∧
          (libfs_unmount ops req res s).fn = some fn) ∧
      (∀ (τ : Type) (mops : libfs_ops_t τ) (fs_handle : Nat) (mreq : ipc_call_t)
          (env : mount_env_t) (t t1 : τ) (fn0 : fs_node_t),
        env.mountee_sess ≠ 0 →
        mops.node_get t mreq.arg1 (mreq.arg2 % 2 ^ 32) = (EOK, some fn0, t1) →
        fn0.mp_data = ⟨false, 0, 0, 0⟩ →
        env.sess ≠ 0 → env.rc = EOK →
        (libfs_mount mops fs_handle mreq env t).fn = some fn →
        res = EOK →
        (libfs_unmount ops req res s).fn = some fn0 ∧
          mount_gets ((libfs_mount mops fs_handle mreq env t).events ++
              (libfs_unmount ops req res s).events)
            = mount_puts ((libfs_mount mops fs_handle mreq env t).events ++
              (libfs_unmount ops req res s).events)) := by
  have hinact : fn.mp_data.mp_active = false →
      libfs_unmount ops req res s
        = ⟨[mount_event_t.node_get req.arg1 (req.arg2 % 2 ^ 32) EOK (some fn),
              mount_event_t.node_put fn (ops.node_put s1 fn).1,
              mount_event_t.answer_0 EINVAL], some fn, (ops.node_put s1 fn).2⟩ := by
    intro hact
    unfold libfs_unmount
    simp only [hget, ne_eq, not_true_eq_false, if_false, hact, Bool.not_false, if_true]
  have hok : fn.mp_data.mp_active = true → res = EOK →
      libfs_unmount ops req res s
        = ⟨[mount_event_t.node_get req.arg1 (req.arg2 % 2 ^ 32) EOK (some fn),
              mount_event_t.req_unmounted fn.mp_data.sess fn.mp_data.service_id,
              mount_event_t.hangup fn.mp_data.sess,
              mount_event_t.node_put { fn with mp_data := ⟨false, 0, 0, 0⟩ }
                (ops.node_put s1 { fn with mp_data := ⟨false, 0, 0, 0⟩ }).1,
              mount_event_t.node_put { fn with mp_data := ⟨false, 0, 0, 0⟩ }
                (ops.node_put (ops.node_put s1 { fn with mp_data := ⟨false, 0, 0, 0⟩ }).2
                  { fn with mp_data := ⟨false, 0, 0, 0⟩ }).1,
              mount_event_t.answer_0 EOK], some { fn with mp_data := ⟨false, 0, 0, 0⟩ },
            (ops.node_put (ops.node_put s1 { fn with mp_data := ⟨false, 0, 0, 0⟩ }).2
              { fn with mp_data := ⟨false, 0, 0, 0⟩ }).2⟩ := by
    intro hact hres
    unfold libfs_unmount
    simp only [hget, ne_eq, not_true_eq_false, if_false, hact, Bool.not_true,
      Bool.false_eq_true, hres, if_true]
  have herr : fn.mp_data.mp_active = true → res ≠ EOK →
      libfs_unmount ops req res s
        = ⟨[mount_event_t.node_get req.arg1 (req.arg2 % 2 ^ 32) EOK (some fn),
              mount_event_t.req_unmounted fn.mp_data.sess fn.mp_data.service_id,
              mount_event_t.node_put fn (ops.node_put s1 fn).1,
              mount_event_t.answer_0 res], some fn, (ops.node_put s1 fn).2⟩ := by
    intro hact hres
    unfold libfs_unmount
    simp only [hget, ne_eq, not_true_eq_false, if_false, hact, Bool.not_true,
      Bool.false_eq_true, if_neg hres]
  refine ⟨fun h => ?_, fun h hr => ?_, fun h hr => ?_, ?_⟩
  · rw [hinact h]
    exact ⟨rfl, rfl⟩
  · rw [hok h hr]
    exact ⟨rfl, rfl⟩
  · rw [herr h hr]
    exact ⟨rfl, rfl⟩
  · intro τ mops fs_handle mreq env t t1 fn0 hsess hmget hdef hclone hrc hmfn hres
    have hm : libfs_mount mops fs_handle mreq env t
        = ⟨[mount_event_t.node_get mreq.arg1 (mreq.arg2 % 2 ^ 32) EOK (some fn0),
              mount_event_t.clone_establish env.mountee_sess,
              mount_event_t.data_write_forward_mounted env.mountee_sess mreq.arg4,
              mount_event_t.answer_4 env.rc env.answer.arg1 env.answer.arg2 env.answer.arg3
                env.answer.arg4],
            some { fn0 with mp_data := ⟨true, env.mountee_sess, mreq.arg3, mreq.arg4⟩ },
            t1⟩ := by
      have hact0 : fn0.mp_data.mp_active = false := by rw [hdef]
      unfold libfs_mount
      simp only [if_neg hsess, hmget, ne_eq, not_true_eq_false, if_false, hact0,
        Bool.false_eq_true, if_neg hclone, hrc, if_true]
    rw [hm] at hmfn ⊢
    have hfn : fn = { fn0 with mp_data := ⟨true, env.mountee_sess, mreq.arg3, mreq.arg4⟩ } :=
      (Option.some.inj hmfn).symm
    have hact : fn.mp_data.mp_active = true := by rw [hfn]
    rw [hok hact hres]
    refine ⟨?_, ?_⟩
    · simp only [hfn, Option.some.injEq]
      cases fn0 with
      | mk m d =>
        simp only [] at hdef
        rw [hdef]
    · simp [mount_gets, mount_puts]

/-- C23, at a backend whose node 1 is an active mount point with the session
42 and the service 9, unmounted with success: the run with its hang-up and two
calls of `node_put`, the record reset; and a mount of the node 1 with a default
record followed by its unmount, which leaves the node as it was. -/
theorem libfs_unmount_contract_witness :
    (libfs_unmount (demo_mp_ops demo_mount_node) ⟨3, 1, 0, 0, 0⟩ EOK ()).events
        = [mount_event_t.node_get 3 1 EOK (some demo_mount_node),
            mount_event_t.req_unmounted 42 9,
            mount_event_t.hangup 42,
            mount_event_t.node_put (demo_node 1) EOK,
            mount_event_t.node_put (demo_node 1) EOK,
            mount_event_t.answer_0 EOK] ∧
      (libfs_unmount (demo_mp_ops demo_mount_node) ⟨3, 1, 0, 0, 0⟩ EOK ()).fn
        = some (demo_node 1) ∧
      (libfs_unmount (demo_mp_ops ⟨⟨true, 77, 8, 5⟩, 1⟩) ⟨3, 1, 0, 0, 0⟩ EOK ()).fn
        = some (demo_node 1) :=
  have h := libfs_unmount_contract (demo_mp_ops demo_mount_node) ⟨3, 1, 0, 0, 0⟩ EOK () ()
    demo_mount_node (by decide)
  have h2 := (libfs_unmount_contract (demo_mp_ops ⟨⟨true, 77, 8, 5⟩, 1⟩) ⟨3, 1, 0, 0, 0⟩ EOK
    () () ⟨⟨true, 77, 8, 5⟩, 1⟩ (by decide)).2.2.2 Unit (demo_mp_ops (demo_node 1)) 7
    ⟨3, 1, 8, 5, 0⟩ ⟨77, 78, 0, EOK, ⟨0, 0, 0, 0, 0⟩⟩ () () (demo_node 1) (by decide)
    (by decide) (by decide) (by decide) (by decide) (by decide) (by decide)
  ⟨((h.2.1 (by decide) (by decide)).1).trans (by decide),
    ((h.2.1 (by decide) (by decide)).2).trans (by decide), h2.1⟩

/-! ## The registry of instances -/

theorem fs_instance_create_loop_mem (inst : fs_instance_t) :
    ∀ (l : List fs_instance_t) (x : fs_instance_t),
      x ∈ (fs_instance_create_loop inst l).2 → x = inst ∨ x ∈ l := by
  intro l
  induction l with
  | nil =>
    intro x hx
    simp only [fs_instance_create_loop, List.mem_singleton] at hx
    exact Or.inl hx
  | cons cur rest ih =>
    intro x hx
    unfold fs_instance_create_loop at hx
    split at hx
    · exact Or.inr hx
    · split at hx
      · rcases List.mem_cons.1 hx with h | h
        · exact Or.inl h
        · exact Or.inr h
      · rcases List.mem_cons.1 hx with h | h
        · exact Or.inr (h ▸ List.mem_cons_self _ _)
        · rcases ih x h with h1 | h1
          · exact Or.inl h1
          · exact Or.inr (List.mem_cons_of_mem _ h1)

/-- The function `fs_instance_create` keeps the registry strictly descending
in `service_id` from head to tail. -/
theorem fs_instance_create_loop_sorted (inst : fs_instance_t) :
    ∀ (l : List fs_instance_t), l.Pairwise (fun a b => b.service_id < a.service_id) →
      (fs_instance_create_loop inst l).2.Pairwise (fun a b => b.service_id < a.service_id) := by
  intro l
  induction l with
  | nil =>
    intro _
    simp [fs_instance_create_loop]
  | cons cur rest ih =>
    intro h
    rw [List.pairwise_cons] at h
    unfold fs_instance_create_loop
    split
    · exact List.pairwise_cons.2 h
    · rename_i hne
      split
      · rename_i hlt
        refine List.pairwise_cons.2 ⟨fun x hx => ?_, List.pairwise_cons.2 h⟩
        rcases List.mem_cons.1 hx with rfl | hx
        · exact hlt
        · exact Nat.lt_trans (h.1 x hx) hlt
      · rename_i hnlt
        refine List.pairwise_cons.2 ⟨fun x hx => ?_, ih h.2⟩
        rcases fs_instance_create_loop_mem inst rest x hx with rfl | hx
        · omega
        · exact h.1 x hx

theorem fs_instance_destroy_sublist :
    ∀ (l : List fs_instance_t) (service_id : Nat),
      (fs_instance_destroy l service_id).2.Sublist l := by
  intro l
  induction l with
  | nil =>
    intro service_id
    simp [fs_instance_destroy]
  | cons inst rest ih =>
    intro service_id
    unfold fs_instance_destroy
    split
    · exact List.sublist_cons_self _ _
    · exact (ih service_id).cons₂ _

/-- Every call on the registry keeps it strictly descending. -/
theorem fs_instance_call_sorted (l : List fs_instance_t) (op : fs_instance_op_t)
    (h : l.Pairwise (fun a b => b.service_id < a.service_id)) :
    (fs_instance_call l op).2.Pairwise (fun a b => b.service_id < a.service_id) := by
  cases op with
  | create service_id data =>
    simp only [fs_instance_call, fs_instance_create, Bool.not_true, Bool.false_eq_true,
      if_false]
    exact fs_instance_create_loop_sorted _ l h
  | get service_id => exact h
  | destroy service_id =>
    simp only [fs_instance_call]
    exact h.sublist (fs_instance_destroy_sublist l service_id)

theorem fs_instance_run_sorted :
    ∀ (ops : List fs_instance_op_t) (l : List fs_instance_t),
      l.Pairwise (fun a b => b.service_id < a.service_id) →
      (fs_instance_run ops l).2.Pairwise (fun a b => b.service_id < a.service_id) := by
  intro ops
  induction ops with
  | nil =>
    intro l h
    exact h
  | cons op ops ih =>
    intro l h
    simp only [fs_instance_run]
    exact ih _ (fs_instance_call_sorted l op h)

/-- C24 as stated fails: after `fs_instance_create(1, _)` and
`fs_instance_create(2, _)` on the empty registry the list is 2, 1 from head to
tail, which is not ascending. -/
theorem fs_instance_run_not_ascending :
    (fs_instance_run [fs_instance_op_t.create 1 10, fs_instance_op_t.create 2 20] []).2
        = [⟨2, 20⟩, ⟨1, 10⟩] ∧
      ¬ (fs_instance_run [fs_instance_op_t.create 1 10, fs_instance_op_t.create 2 20] []).2.Pairwise
        (fun a b => a.service_id < b.service_id) := by
  decide

/-- C24 (amended): after every sequence of calls of `fs_instance_create`,
`fs_instance_get` and `fs_instance_destroy` on the empty registry, the list
read from head to tail is strictly descending in `service_id`: it is sorted
and no `service_id` occurs twice. -/
theorem fs_instance_run_descending (ops : List fs_instance_op_t) :
    (fs_instance_run ops []).2.Pairwise (fun a b => b.service_id < a.service_id) :=
  fs_instance_run_sorted ops [] List.Pairwise.nil

theorem registry_map_cons (inst : fs_instance_t) (l : List fs_instance_t) (service_id : Nat) :
    registry_map (inst :: l) service_id
      = if inst.service_id = service_id then some inst.data else registry_map l service_id := by
  unfold registry_map
  rw [List.find?_cons]
  by_cases h : inst.service_id = service_id <;> simp [h]

theorem registry_map_none_of_lt (l : List fs_instance_t) (service_id : Nat)
    (h : ∀ x ∈ l, x.service_id < service_id) : registry_map l service_id = none := by
  induction l with
  | nil => rfl
  | cons inst rest ih =>
    rw [registry_map_cons, if_neg, ih (fun x hx => h x (List.mem_cons_of_mem _ hx))]
    have := h inst (List.mem_cons_self _ _)
    omega

/-- On a strictly descending registry `fs_instance_create` is `create` on the
finite map of the bindings, and the call that returns `EEXIST` leaves the list
as it is. -/
theorem fs_instance_create_loop_refines (inst : fs_instance_t) :
    ∀ (l : List fs_instance_t), l.Pairwise (fun a b => b.service_id < a.service_id) →
      (fs_instance_create_loop inst l).1 = (map_create (registry_map l) inst.service_id
        inst.data).1 ∧
      registry_map (fs_instance_create_loop inst l).2
        = (map_create (registry_map l) inst.service_id inst.data).2 ∧
      ((fs_instance_create_loop inst l).1 = EEXIST → (fs_instance_create_loop inst l).2 = l) := by
  intro l
  induction l with
  | nil =>
    intro _
    refine ⟨rfl, ?_, fun h => ?_⟩
    · funext i
      simp only [fs_instance_create_loop, map_create, registry_map_cons]
      by_cases hi : inst.service_id = i
      · subst hi
        simp [registry_map]
      · simp [registry_map, hi, Function.update_noteq (Ne.symm hi)]
    · simp [fs_instance_create_loop, EOK, EEXIST] at h
  | cons cur rest ih =>
    intro h
    rw [List.pairwise_cons] at h
    obtain ⟨ih1, ih2, ih3⟩ := ih h.2
    unfold fs_instance_create_loop
    split
    · rename_i heq
      refine ⟨?_, ?_, fun _ => rfl⟩
      · simp [map_create, registry_map_cons, heq]
      · simp [map_create, registry_map_cons, heq]
    · rename_i hne
      split
      · rename_i hlt
        have hnone : registry_map (cur :: rest) inst.service_id = none := by
          apply registry_map_none_of_lt
          intro x hx
          rcases List.mem_cons.1 hx with rfl | hx
          · exact hlt
          · exact Nat.lt_trans (h.1 x hx) hlt
        refine ⟨?_, ?_, fun hE => ?_⟩
        · simp [map_create, hnone]
        · funext i
          simp only [map_create, hnone, Option.isSome_none, Bool.false_eq_true, if_false]
          rw [registry_map_cons]
          by_cases hi : inst.service_id = i
          · subst hi
            simp
          · rw [if_neg hi, Function.update_noteq (Ne.symm hi)]
        · simp [EOK, EEXIST] at hE
      · rename_i hnlt
        have hcur : registry_map (cur :: rest) inst.service_id
            = registry_map rest inst.service_id := by
          rw [registry_map_cons, if_neg hne]
        refine ⟨?_, ?_, fun hE => ?_⟩
        · rw [ih1]
          simp only [map_create, hcur]
          by_cases hb : (registry_map rest inst.service_id).isSome = true <;> simp [hb]
        · funext i
          simp only [map_create, hcur]
          rw [registry_map_cons, ih2]
          simp only [map_create]
          by_cases hb : (registry_map rest inst.service_id).isSome
          · simp only [hb, if_true]
            rw [registry_map_cons]
          · simp only [hb, Bool.false_eq_true, if_false]
            by_cases hi : inst.service_id = i
            · subst hi
              simp [hne]
            · rw [Function.update_noteq (Ne.symm hi), Function.update_noteq (Ne.symm hi),
                registry_map_cons]
        · simp only [] at hE ⊢
          rw [ih3 hE]

/-- The function `fs_instance_get` is `get` on the finite map of the
bindings. -/
theorem fs_instance_get_refines :
    ∀ (l : List fs_instance_t) (service_id : Nat),
      fs_instance_get l service_id = map_get (registry_map l) service_id := by
  intro l
  induction l with
  | nil =>
    intro service_id
    simp [fs_instance_get, map_get, registry_map]
  | cons inst rest ih =>
    intro service_id
    unfold fs_instance_get
    rw [ih]
    unfold map_get
    rw [registry_map_cons]
    by_cases h : inst.service_id = service_id <;> simp [h]

/-- On a strictly descending registry `fs_instance_destroy` is `destroy` on
the finite map of the bindings, and the call that returns `ENOENT` leaves the
list as it is. -/
theorem fs_instance_destroy_refines :
    ∀ (l : List fs_instance_t) (service_id : Nat),
      l.Pairwise (fun a b => b.service_id < a.service_id) →
      (fs_instance_destroy l service_id).1 = (map_destroy (registry_map l) service_id).1 ∧
      registry_map (fs_instance_destroy l service_id).2
        = (map_destroy (registry_map l) service_id).2 ∧
      ((fs_instance_destroy l service_id).1 = ENOENT →
        (fs_instance_destroy l service_id).2 = l) := by
  intro l
  induction l with
  | nil =>
    intro service_id _
    refine ⟨?_, ?_, fun _ => rfl⟩
    · simp [fs_instance_destroy, map_destroy, registry_map]
    · simp [fs_instance_destroy, map_destroy, registry_map]
  | cons inst rest ih =>
    intro service_id h
    rw [List.pairwise_cons] at h
    obtain ⟨ih1, ih2, ih3⟩ := ih service_id h.2
    unfold fs_instance_destroy
    split
    · rename_i heq
      have hnone : registry_map rest service_id = none := by
        apply registry_map_none_of_lt
        intro x hx
        rw [← heq]
        exact h.1 x hx
      refine ⟨?_, ?_, fun hE => ?_⟩
      · simp [map_destroy, registry_map_cons, heq]
      · funext i
        simp only [map_destroy, registry_map_cons, heq, if_true, Option.isSome_some]
        by_cases hi : service_id = i
        · subst hi
          simp [hnone]
        · rw [Function.update_noteq (Ne.symm hi), registry_map_cons, heq, if_neg hi]
      · simp [EOK, ENOENT] at hE
    · rename_i hne
      have hcur : registry_map (inst :: rest) service_id = registry_map rest service_id := by
        rw [registry_map_cons, if_neg hne]
      refine ⟨?_, ?_, fun hE => ?_⟩
      · rw [ih1]
        simp only [map_destroy, hcur]
        by_cases hb : (registry_map rest service_id).isSome = true <;> simp [hb]
      · funext i
        simp only [map_destroy, hcur]
        rw [registry_map_cons, ih2]
        simp only [map_destroy]
        by_cases hb : (registry_map rest service_id).isSome
        · simp only [hb, if_true]
          by_cases hi : service_id = i
          · subst hi
            simp [hne]
          · rw [Function.update_noteq (Ne.symm hi), Function.update_noteq (Ne.symm hi),
              registry_map_cons]
        · simp only [hb, Bool.false_eq_true, if_false]
          rw [registry_map_cons]
      · simp only [] at hE ⊢
        rw [ih3 hE]

/-- Every call on a strictly descending registry is the call on the finite
map of the bindings. -/
theorem fs_instance_call_refines (l : List fs_instance_t) (op : fs_instance_op_t)
    (h : l.Pairwise (fun a b => b.service_id < a.service_id)) :
    (fs_instance_call l op).1 = (map_call (registry_map l) op).1 ∧
      registry_map (fs_instance_call l op).2 = (map_call (registry_map l) op).2 := by
  cases op with
  | create service_id data =>
    obtain ⟨h1, h2, _⟩ := fs_instance_create_loop_refines ⟨service_id, data⟩ l h
    simp only [fs_instance_call, fs_instance_create, Bool.not_true, Bool.false_eq_true,
      if_false, map_call]
    exact ⟨by rw [h1], h2⟩
  | get service_id =>
    simp only [fs_instance_call, map_call]
    exact ⟨fs_instance_get_refines l service_id, trivial⟩
  | destroy service_id =>
    obtain ⟨h1, h2, _⟩ := fs_instance_destroy_refines l service_id h
    simp only [fs_instance_call, map_call]
    exact ⟨by rw [h1], h2⟩

theorem fs_instance_run_refines :
    ∀ (ops : List fs_instance_op_t) (l : List fs_instance_t),
      l.Pairwise (fun a b => b.service_id < a.service_id) →
      (fs_instance_run ops l).1 = (map_run ops (registry_map l)).1 ∧
      registry_map (fs_instance_run ops l).2 = (map_run ops (registry_map l)).2 := by
  intro ops
  induction ops with
  | nil =>
    intro l _
    exact ⟨rfl, rfl⟩
  | cons op ops ih =>
    intro l h
    obtain ⟨h1, h2⟩ := fs_instance_call_refines l op h
    obtain ⟨h3, h4⟩ := ih _ (fs_instance_call_sorted l op h)
    simp only [fs_instance_run, map_run]
    rw [h1, h3, h4, h2]
    exact ⟨rfl, rfl⟩

/-- C24 (amended), at the calls `create(1)`, `create(2)`, `create(3)`,
`destroy(2)` on the empty registry: the list is 3, 1 from head to tail. -/
theorem fs_instance_run_descending_witness :
    (fs_instance_run [fs_instance_op_t.create 1 10, fs_instance_op_t.create 2 20,
        fs_instance_op_t.create 3 30, fs_instance_op_t.destroy 2] []).2 = [⟨3, 30⟩, ⟨1, 10⟩] ∧
      (fs_instance_run [fs_instance_op_t.create 1 10, fs_instance_op_t.create 2 20,
        fs_instance_op_t.create 3 30, fs_instance_op_t.destroy 2] []).2.Pairwise
        (fun a b => b.service_id < a.service_id) :=
  ⟨by decide, fs_instance_run_descending [fs_instance_op_t.create 1 10,
    fs_instance_op_t.create 2 20, fs_instance_op_t.create 3 30, fs_instance_op_t.destroy 2]⟩

/-- C25: the registry refines a finite map from service ids to data. For
every sequence `ops` of calls on the empty registry the return values are
those of the same calls on the empty map, and the bindings of the registry at
the end are the map at the end; and on the registry `l` reached by `ops`,
`fs_instance_create` (allocation succeeding), `fs_instance_get` and
`fs_instance_destroy` return what `create`, `get` and `destroy` return on the
map of the bindings of `l` and change the bindings as these do, a `create`
that returns `EEXIST` and a `destroy` that returns `ENOENT` leaving the list
itself as it is. -/
theorem fs_instance_refines_map (ops : List fs_instance_op_t) :
    (fs_instance_run ops []).1 = (map_run ops (fun _ => none)).1 ∧
      registry_map (fs_instance_run ops []).2 = (map_run ops (fun _ => none)).2 ∧
      (∀ (service_id data : Nat),
        (fs_instance_create true (fs_instance_run ops []).2 service_id data).1
            = (map_create (registry_map (fs_instance_run ops []).2) service_id data).1 ∧
          registry_map (fs_instance_create true (fs_instance_run ops []).2 service_id data).2
            = (map_create (registry_map (fs_instance_run ops []).2) service_id data).2 ∧
          ((fs_instance_create true (fs_instance_run ops []).2 service_id data).1 = EEXIST →
            (fs_instance_create true (fs_instance_run ops []).2 service_id data).2
              = (fs_instance_run ops []).2) ∧
          fs_instance_get (fs_instance_run ops []).2 service_id
            = map_get (registry_map (fs_instance_run ops []).2) service_id ∧
          (fs_instance_destroy (fs_instance_run ops []).2 service_id).1
            = (map_destroy (registry_map (fs_instance_run ops []).2) service_id).1 ∧
          registry_map (fs_instance_destroy (fs_instance_run ops []).2 service_id).2
            = (map_destroy (registry_map (fs_instance_run ops []).2) service_id).2 ∧
          ((fs_instance_destroy (fs_instance_run ops []).2 service_id).1 = ENOENT →
            (fs_instance_destroy (fs_instance_run ops []).2 service_id).2
              = (fs_instance_run ops []).2)) := by
  have hs := fs_instance_run_sorted ops [] List.Pairwise.nil
  have hr := fs_instance_run_refines ops [] List.Pairwise.nil
  have he : registry_map [] = fun _ => none := by
    funext i
    rfl
  rw [he] at hr
  refine ⟨hr.1, hr.2, fun service_id data => ?_⟩
  obtain ⟨c1, c2, c3⟩ := fs_instance_create_loop_refines ⟨service_id, data⟩ _ hs
  obtain ⟨d1, d2, d3⟩ := fs_instance_destroy_refines _ service_id hs
  simp only [fs_instance_create, Bool.not_true, Bool.false_eq_true, if_false]
  exact ⟨c1, c2, c3, fs_instance_get_refines _ service_id, d1, d2, d3⟩

/-- C25, at a sequence of calls on the empty registry: the second `create` of
the id 5 returns `EEXIST`, `get` returns the data bound first, `destroy`
removes the binding, and the return values are those of the finite map. -/
theorem fs_instance_refines_map_witness :
    (fs_instance_run [fs_instance_op_t.create 5 50, fs_instance_op_t.create 3 30,
        fs_instance_op_t.create 5 51, fs_instance_op_t.get 5, fs_instance_op_t.get 4,
        fs_instance_op_t.destroy 5, fs_instance_op_t.destroy 5, fs_instance_op_t.get 5] []).1
        = [(EOK, none), (EOK, none), (EEXIST, none), (EOK, some 50), (ENOENT, none),
            (EOK, none), (ENOENT, none), (ENOENT, none)] ∧
      (map_run [fs_instance_op_t.create 5 50, fs_instance_op_t.create 3 30,
        fs_instance_op_t.create 5 51, fs_instance_op_t.get 5, fs_instance_op_t.get 4,
        fs_instance_op_t.destroy 5, fs_instance_op_t.destroy 5, fs_instance_op_t.get 5]
        (fun _ => none)).1
        = [(EOK, none), (EOK, none), (EEXIST, none), (EOK, some 50), (ENOENT, none),
            (EOK, none), (ENOENT, none), (ENOENT, none)] :=
  ⟨by decide, (fs_instance_refines_map [fs_instance_op_t.create 5 50,
    fs_instance_op_t.create 3 30, fs_instance_op_t.create 5 51, fs_instance_op_t.get 5,
    fs_instance_op_t.get 4, fs_instance_op_t.destroy 5, fs_instance_op_t.destroy 5,
    fs_instance_op_t.get 5]).1.symm.trans (by decide)⟩

/-! ## The length boundary of `plb_get_component` -/

theorem plb_bytes_zero (reg : fs_reg_t) (p : Nat) : plb_bytes reg p 0 = [] := rfl

theorem plb_bytes_succ (reg : fs_reg_t) (p n : Nat) (hp : p < 2 ^ 32) :
    plb_bytes reg p (n + 1) = plb_get_char reg p :: plb_bytes reg ((p + 1) % 2 ^ 32) n := by
  unfold plb_bytes
  rw [List.range_succ_eq_map, List.map_cons, List.map_map]
  congr 1
  · rw [Nat.add_zero, Nat.mod_eq_of_lt hp]
  · apply List.map_congr_left
    intro k _
    simp only [Function.comp]
    congr 1
    omega

/-- The length `plb_component_len_loop` counts the bytes in front of the first
position that is `last` or holds a slash. -/
theorem plb_component_len_loop_spec (reg : fs_reg_t) (last : Nat) (hl : last < 2 ^ 32) :
    ∀ (fuel p : Nat), p < 2 ^ 32 → plb_dist last p ≤ fuel →
      (∀ k, k < plb_component_len_loop reg last fuel p →
        (p + k) % 2 ^ 32 ≠ last ∧ plb_get_char reg ((p + k) % 2 ^ 32) ≠ 47) ∧
      ((p + plb_component_len_loop reg last fuel p) % 2 ^ 32 = last ∨
        plb_get_char reg ((p + plb_component_len_loop reg last fuel p) % 2 ^ 32) = 47) := by
  intro fuel
  induction fuel with
  | zero =>
    intro p hp hd
    have h : p = last := by
      unfold plb_dist at hd
      omega
    simp only [plb_component_len_loop]
    refine ⟨fun k hk => absurd hk (Nat.not_lt_zero k), Or.inl ?_⟩
    rw [Nat.add_zero, Nat.mod_eq_of_lt hp, h]
  | succ f ih =>
    intro p hp hd
    unfold plb_component_len_loop
    split
    · rename_i hstop
      refine ⟨fun k hk => absurd hk (Nat.not_lt_zero k), ?_⟩
      rw [Nat.add_zero, Nat.mod_eq_of_lt hp]
      exact hstop
    · rename_i hgo
      have hne : p ≠ last := fun e => hgo (Or.inl e)
      have hstep := plb_dist_step last p hl hp hne
      obtain ⟨h1, h2⟩ := ih ((p + 1) % 2 ^ 32) (Nat.mod_lt _ (by decide)) (by omega)
      have e : ∀ j, ((p + 1) % 2 ^ 32 + j) % 2 ^ 32 = (p + (j + 1)) % 2 ^ 32 := by
        intro j
        omega
      refine ⟨fun k hk => ?_, ?_⟩
      · cases k with
        | zero =>
          rw [Nat.add_zero, Nat.mod_eq_of_lt hp]
          exact ⟨hne, fun e47 => hgo (Or.inr e47)⟩
        | succ j =>
          rw [← e j]
          exact h1 j (by omega)
      · rw [← e]
        exact h2

/-- The loop of `plb_get_component` against the length of the component: with
more iterations than the component has bytes the loop returns `EOK`, the bytes
and the position behind them; otherwise it returns `ENAMETOOLONG` and stores
neither the size nor the position. -/
theorem plb_get_component_loop_len (reg : fs_reg_t) (sz0 ppos0 last : Nat)
    (hl : last < 2 ^ 32) :
    ∀ (cnt fuel pos size : Nat) (dest : List Nat), pos < 2 ^ 32 → plb_dist last pos ≤ fuel →
      (plb_component_len_loop reg last fuel pos < cnt →
        plb_get_component_loop reg sz0 ppos0 last cnt pos size dest
          = (EOK, dest ++ plb_bytes reg pos (plb_component_len_loop reg last fuel pos) ++ [0],
              size + plb_component_len_loop reg last fuel pos,
              (pos + plb_component_len_loop reg last fuel pos) % 2 ^ 32)) ∧
      (cnt ≤ plb_component_len_loop reg last fuel pos →
        (plb_get_component_loop reg sz0 ppos0 last cnt pos size dest).1 = ENAMETOOLONG ∧
        (plb_get_component_loop reg sz0 ppos0 last cnt pos size dest).2.2.1 = sz0 ∧
        (plb_get_component_loop reg sz0 ppos0 last cnt pos size dest).2.2.2 = ppos0) := by
  intro cnt
  induction cnt with
  | zero =>
    intro fuel pos size dest _ _
    refine ⟨fun h => absurd h (Nat.not_lt_zero _), fun _ => ?_⟩
    simp [plb_get_component_loop]
  | succ c ih =>
    intro fuel pos size dest hp hd
    by_cases hstop : pos = last ∨ plb_get_char reg pos = 47
    · have hn : plb_component_len_loop reg last fuel pos = 0 := by
        cases fuel with
        | zero => rfl
        | succ f =>
          unfold plb_component_len_loop
          rw [if_pos hstop]
      rw [hn]
      refine ⟨fun _ => ?_, fun h => absurd h (by omega)⟩
      unfold plb_get_component_loop
      rw [if_pos hstop, plb_bytes_zero, List.append_nil, Nat.add_zero, Nat.add_zero,
        Nat.mod_eq_of_lt hp]
    · have hne : pos ≠ last := fun e => hstop (Or.inl e)
      have hstep := plb_dist_step last pos hl hp hne
      obtain ⟨f, rfl⟩ : ∃ f, fuel = f + 1 := ⟨fuel - 1, by omega⟩
      have hn : plb_component_len_loop reg last (f + 1) pos
          = plb_component_len_loop reg last f ((pos + 1) % 2 ^ 32) + 1 := by
        conv_lhs => unfold plb_component_len_loop
        rw [if_neg hstop]
      obtain ⟨i1, i2⟩ := ih f ((pos + 1) % 2 ^ 32) (size + 1) (dest ++ [plb_get_char reg pos])
        (Nat.mod_lt _ (by decide)) (by omega)
      rw [hn]
      conv =>
        congr
        · rhs
          lhs
          unfold plb_get_component_loop
        · rhs
          unfold plb_get_component_loop
      simp only [if_neg hstop]
      refine ⟨fun h => ?_, fun h => i2 (by omega)⟩
      rw [i1 (by omega), plb_bytes_succ reg pos _ hp]
      refine Prod.ext rfl (Prod.ext ?_ (Prod.ext ?_ ?_))
      · simp
      · simp only []
        omega
      · simp only []
        omega

/-- C26: for a position `pos` and an end `last` of the type `unsigned`, with
`p0` the position behind a leading slash (`pos` itself when there is none)
and `n` the number of bytes from `p0` up to the first slash or up to `last`:
when `pos = last`, `plb_get_component` returns `ERANGE` with `*sz = 0`;
otherwise it returns `EOK` if and only if `n ≤ NAME_MAX`, and then `dest`
holds the `n` bytes and a NUL, `*sz = n` and `*ppos = p0 + n`; and it returns
`ENAMETOOLONG` if and only if `n ≥ NAME_MAX + 1`, and then `*sz` and `*ppos`
are not stored. The bytes are read from the buffer modulo `PLB_SIZE`. -/
theorem plb_get_component_boundary (reg : fs_reg_t) (dest : List Nat)
    (sz pos last p0 n : Nat) (hp : pos < 2 ^ 32) (hl : last < 2 ^ 32)
    (hp0 : p0 = if plb_get_char reg pos = 47 then (pos + 1) % 2 ^ 32 else pos)
    (hn : n = plb_component_len reg last p0) :
    (pos = last → plb_get_component reg dest sz pos last = (ERANGE, dest, 0, pos)) ∧
      (pos ≠ last →
        ((∀ k, k < n →
            (p0 + k) % 2 ^ 32 ≠ last ∧ plb_get_char reg ((p0 + k) % 2 ^ 32) ≠ 47) ∧
          ((p0 + n) % 2 ^ 32 = last ∨ plb_get_char reg ((p0 + n) % 2 ^ 32) = 47)) ∧
        ((plb_get_component reg dest sz pos last).1 = EOK ↔ n ≤ reg.NAME_MAX) ∧
        (n ≤ reg.NAME_MAX →
          plb_get_component reg dest sz pos last
            = (EOK, plb_bytes reg p0 n ++ [0], n, (p0 + n) % 2 ^ 32)) ∧
        ((plb_get_component reg dest sz pos last).1 = ENAMETOOLONG ↔ reg.NAME_MAX + 1 ≤ n) ∧
        (reg.NAME_MAX + 1 ≤ n →
          (plb_get_component reg dest sz pos last).2.2.1 = sz ∧
            (plb_get_component reg dest sz pos last).2.2.2 = pos)) ∧
      plb_bytes reg p0 n
        = (List.range n).map (fun k => reg.plb_ro ((p0 + k) % 2 ^ 32 % reg.PLB_SIZE)) := by
  refine ⟨fun h => ?_, fun hne => ?_, rfl⟩
  · unfold plb_get_component
    rw [if_pos h]
  · have hp0lt : p0 < 2 ^ 32 := by
      rw [hp0]
      split
      · exact Nat.mod_lt _ (by decide)
      · exact hp
    have hspec := plb_component_len_loop_spec reg last hl (plb_dist last p0) p0 hp0lt
      (Nat.le_refl _)
    obtain ⟨h1, h2⟩ := plb_get_component_loop_len reg sz pos last hl (reg.NAME_MAX + 1)
      (plb_dist last p0) p0 0 [] hp0lt (Nat.le_refl _)
    have hrun : plb_get_component reg dest sz pos last
        = plb_get_component_loop reg sz pos last (reg.NAME_MAX + 1) p0 0 [] := by
      unfold plb_get_component
      rw [if_neg hne, hp0]
    unfold plb_component_len at hn
    rw [← hn] at hspec h1 h2
    rw [hrun]
    have hE : ENAMETOOLONG ≠ EOK := by decide
    refine ⟨hspec, ⟨fun hok => ?_, fun hle => ?_⟩, fun hle => ?_, ⟨fun _ => ?_, fun hge => ?_⟩,
      fun hge => (h2 hge).2⟩
    · by_contra hgt
      rw [(h2 (by omega)).1] at hok
      exact hE hok
    · rw [h1 (by omega)]
    · rw [h1 (by omega)]
      simp
    · by_contra hlt
      rename_i hrc
      rw [h1 (by omega)] at hrc
      exact hE hrc.symm
    · exact (h2 hge).1

/-- C26, with `NAME_MAX` = 2: at the path `/ab/c` the component `ab` of 2 bytes
is returned with `EOK`; at the path `/abc` the component of 3 bytes gives
`ENAMETOOLONG` with `*sz` and `*ppos` as before the call. -/
theorem plb_get_component_boundary_witness :
    plb_get_component ⟨1024, 2, bytes [47, 97, 98, 47, 99]⟩ [] 9 0 5
        = (EOK, [97, 98, 0], 2, 3) ∧
      ((plb_get_component ⟨1024, 2, bytes [47, 97, 98, 99]⟩ [] 9 0 4).1 = ENAMETOOLONG ∧
        (plb_get_component ⟨1024, 2, bytes [47, 97, 98, 99]⟩ [] 9 0 4).2.2.1 = 9 ∧
        (plb_get_component ⟨1024, 2, bytes [47, 97, 98, 99]⟩ [] 9 0 4).2.2.2 = 0) :=
  have h1 := (plb_get_component_boundary ⟨1024, 2, bytes [47, 97, 98, 47, 99]⟩ [] 9 0 5 1 2
    (by decide) (by decide) (by decide) (by decide)).2.1 (by decide)
  have h2 := (plb_get_component_boundary ⟨1024, 2, bytes [47, 97, 98, 99]⟩ [] 9 0 4 1 3
    (by decide) (by decide) (by decide) (by decide)).2.1 (by decide)
  ⟨(h1.2.2.1 (by decide)).trans (by decide), h2.2.2.2.1.2 (by decide), h2.2.2.2.2 (by decide)⟩

/-! ## Stored names are found again -/

theorem tolower_toupper (c : Nat) : tolower (toupper c) = tolower c := by
  unfold tolower toupper isupper islower
  by_cases h1 : 97 ≤ c ∧ c ≤ 122
  · have h2 : ¬ (65 ≤ c ∧ c ≤ 90) := by omega
    have h3 : 65 ≤ c - 32 ∧ c - 32 ≤ 90 := by omega
    simp [h1, h2, h3]
    omega
  · simp [h1]

theorem toupper_eq_zero_iff (c : Nat) : toupper c = 0 ↔ c = 0 := by
  unfold toupper islower
  by_cases h1 : 97 ≤ c ∧ c ≤ 122
  · simp [h1]
    omega
  · simp [h1]

theorem canonical_part_lower (p : List Nat) :
    (canonical_part p).map tolower = p.map tolower := by
  unfold canonical_part
  split
  · rw [List.map_map]
    apply List.map_congr_left
    intro c _
    exact tolower_toupper c
  · rfl

theorem canonical_part_no_zero (p : List Nat) (h : 0 ∉ p) : 0 ∉ canonical_part p := by
  unfold canonical_part
  split
  · intro hm
    obtain ⟨c, hc, e⟩ := List.mem_map.1 hm
    rw [(toupper_eq_zero_iff c).1 e] at hc
    exact h hc
  · exact h

theorem canonical_part_no_dot (p : List Nat) (h : ∀ c ∈ p, is_d_char c = true) :
    46 ∉ canonical_part p := by
  unfold canonical_part
  split
  · intro hm
    obtain ⟨c, hc, e⟩ := List.mem_map.1 hm
    have hd := is_d_char_ne_dot (h c hc)
    unfold toupper islower at e
    by_cases h1 : 97 ≤ c ∧ c ≤ 122
    · simp [h1] at e
      omega
    · simp [h1] at e
      exact hd e
  · intro hm
    exact is_d_char_ne_dot (h 46 hm) rfl

/-- The function `fat_dentry_namecmp` returns 0 on two strings that are equal
ignoring letter case, and on a name without a dot that equals the component
ignoring letter case once a dot is put behind it. -/
theorem fat_dentry_namecmp_zero_of (name component : List Nat)
    (hn : 0 ∉ name) (hc : 0 ∉ component)
    (h : name.map tolower = component.map tolower ∨
      (46 ∉ name ∧ (name ++ [46]).map tolower = component.map tolower)) :
    fat_dentry_namecmp name component = 0 := by
  have hdot : 0 ∉ name ++ [46] := by
    intro h
    rcases List.mem_append.1 h with h | h
    · exact hn h
    · simp at h
  unfold fat_dentry_namecmp
  simp only [str_chr, str_size, cstr_eq_self name hn, List.take_length]
  by_cases h1 : stricmp name component = 0
  · simp only [h1, if_true]
  · have h1' : ¬ (name.map tolower = component.map tolower) :=
      fun h => h1 ((stricmp_eq_zero_iff name component hn hc).2 h)
    rcases h with h | ⟨h2, h3⟩
    · exact absurd h h1'
    · have : name.contains 46 = false := by simpa using h2
      simp only [h1, if_false, this, Bool.not_false, if_true]
      exact (stricmp_eq_zero_iff _ _ hdot hc).2 h3

/-- C27: for every name `n` accepted by `fat_dentry_name_verify` and every
entry `d`, `fat_dentry_namecmp` finds the name read back from
`fat_dentry_name_set d n` equal to `n`: it returns 0, also for names in mixed
case and for names that end in a dot. -/
theorem fat_dentry_namecmp_stored (d : fat_dentry_t) (n : List Nat) (h0 : 0 ∉ n)
    (hv : fat_dentry_name_verify n = true) :
    fat_dentry_namecmp (fat_dentry_name_get (fat_dentry_name_set d n)) n = 0 := by
  obtain ⟨base, ext, rest, rfl, hb, he, hbl, hel, hrest⟩ :=
    fat_dentry_name_verify_parts n h0 hv
  rw [fat_dentry_name_roundtrip_parts d base ext rest hb he hbl hel hrest]
  have hb0 : 0 ∉ base := fun hm => is_d_char_ne_zero (hb 0 hm) rfl
  have he0 : 0 ∉ ext := fun hm => is_d_char_ne_zero (he 0 hm) rfl
  have cb0 := canonical_part_no_zero base hb0
  have ce0 := canonical_part_no_zero ext he0
  rcases hrest with ⟨rfl, rfl⟩ | rfl
  · apply fat_dentry_namecmp_zero_of _ _ (by simpa using cb0) h0
    left
    simp [canonical_part_lower]
  · by_cases hext : ext = []
    · subst hext
      apply fat_dentry_namecmp_zero_of _ _ (by simpa using cb0) h0
      right
      refine ⟨by simpa using canonical_part_no_dot base hb, ?_⟩
      simp [canonical_part_lower]
    · apply fat_dentry_namecmp_zero_of _ _ _ h0
      · left
        simp [hext, canonical_part_lower]
      · simp only [hext, if_false]
        intro hm
        rcases List.mem_append.1 hm with hm | hm
        · exact cb0 hm
        · rcases List.mem_cons.1 hm with hm | hm
          · cases hm
          · exact ce0 hm

/-- C27, at the names `Readme.txt` and `foo.`: the first is stored as
`README.txt` and the second as `foo`, and both are found again. -/
theorem fat_dentry_namecmp_stored_witness :
    fat_dentry_namecmp (fat_dentry_name_get (fat_dentry_name_set (fat_dentry_t.ofList [])
        [82, 101, 97, 100, 109, 101, 46, 116, 120, 116]))
        [82, 101, 97, 100, 109, 101, 46, 116, 120, 116] = 0 ∧
      fat_dentry_namecmp (fat_dentry_name_get (fat_dentry_name_set (fat_dentry_t.ofList [])
        [102, 111, 111, 46])) [102, 111, 111, 46] = 0 :=
  ⟨fat_dentry_namecmp_stored (fat_dentry_t.ofList [])
      [82, 101, 97, 100, 109, 101, 46, 116, 120, 116] (by decide) (by decide),
    fat_dentry_namecmp_stored (fat_dentry_t.ofList []) [102, 111, 111, 46] (by decide)
      (by decide)⟩

/-! ## Termination of the walk -/

/-- Without wrap-around, a component read by `plb_get_component` moves the
position forward by the size of the component at least, and not past `last`. -/
theorem plb_get_component_advance (reg : fs_reg_t) (dest : List Nat) (sz next last : Nat)
    (hl : last < 2 ^ 32) (hle : next ≤ last)
    (h : (plb_get_component reg dest sz next last).1 = EOK) :
    next + (plb_get_component reg dest sz next last).2.2.1
        ≤ (plb_get_component reg dest sz next last).2.2.2 ∧
      (plb_get_component reg dest sz next last).2.2.2 ≤ last := by
  have h1 := plb_get_component_dist reg dest sz next last hl (by omega) h
  have h2 := plb_get_component_pos_lt reg dest sz next last (by omega)
  unfold plb_dist at h1
  omega

/-- One iteration of the walk of `libfs_lookup`, started with the loop
condition tested: either the loop is left in this iteration (the outcome is
the same for every number of iterations left, and is not the bound), or
`plb_get_component` has moved `next` forward by one byte at least and not
past `last`, and the walk goes on from there. -/
theorem libfs_lookup_walk_end_iteration {σ : Type} (reg : fs_reg_t) (ops : libfs_ops_t σ)
    (lflag last : Nat) (s : σ) (par cur : Option fs_node_t) (next : Nat)
    (component : List Nat) (clen : Nat) (hl : last < 2 ^ 32) (hle : next ≤ last) :
    (∃ evs out, out ≠ walk_end_t.unfinished ∧
        ∀ fuel, libfs_lookup_walk_end reg ops lflag last (fuel + 1) s par cur next component clen
          = (evs, out)) ∨
      (∃ evs s1 par1 cur1,
        next + 1 ≤ (plb_get_component reg component clen next last).2.2.2 ∧
        (plb_get_component reg component clen next last).2.2.2 ≤ last ∧
        ∀ fuel, libfs_lookup_walk_end reg ops lflag last (fuel + 1) s par cur next component clen
          = (evs ++ (libfs_lookup_walk_end reg ops lflag last fuel s1 par1 cur1
                (plb_get_component reg component clen next last).2.2.2
                (plb_get_component reg component clen next last).2.1
                (plb_get_component reg component clen next last).2.2.1).1,
              (libfs_lookup_walk_end reg ops lflag last fuel s1 par1 cur1
                (plb_get_component reg component clen next last).2.2.2
                (plb_get_component reg component clen next last).2.1
                (plb_get_component reg component clen next last).2.2.1).2)) := by
  by_cases c1 : next = last
  · refine Or.inl ⟨[], walk_end_t.finished s par cur component, by simp, fun fuel => ?_⟩
    conv_lhs => unfold libfs_lookup_walk_end
    rw [if_pos c1]
  cases cur with
  | none =>
    refine Or.inl ⟨[], walk_end_t.answered ENOENT s par none none, by simp, fun fuel => ?_⟩
    conv_lhs => unfold libfs_lookup_walk_end
    rw [if_neg c1]
  | some c =>
    by_cases c2 : (!ops.is_directory s c) = true
    · refine Or.inl ⟨[], walk_end_t.answered ENOTDIR s par (some c) none, by simp,
        fun fuel => ?_⟩
      conv_lhs => unfold libfs_lookup_walk_end
      rw [if_neg c1]
      simp only [c2, if_true]
    by_cases c3 : (plb_get_component reg component clen next last).1 = ERANGE
    · refine Or.inl ⟨[], walk_end_t.assert_failed, by simp, fun fuel => ?_⟩
      conv_lhs => unfold libfs_lookup_walk_end
      rw [if_neg c1]
      simp only [c2, c3, Bool.false_eq_true, ne_eq, if_true, if_false,
        not_true_eq_false, not_false_eq_true]
    by_cases c4 : (plb_get_component reg component clen next last).1 ≠ EOK
    · refine Or.inl ⟨[], walk_end_t.answered (plb_get_component reg component clen next last).1
        s par (some c) none, by simp, fun fuel => ?_⟩
      conv_lhs => unfold libfs_lookup_walk_end
      rw [if_neg c1]
      simp only [c2, c3, c4, Bool.false_eq_true, ne_eq, if_true, if_false,
        not_true_eq_false, not_false_eq_true]
    by_cases c5 : (plb_get_component reg component clen next last).2.2.1 = 0
    · refine Or.inl ⟨[], walk_end_t.finished s par (some c)
        (plb_get_component reg component clen next last).2.1, by simp, fun fuel => ?_⟩
      conv_lhs => unfold libfs_lookup_walk_end
      rw [if_neg c1]
      simp only [c2, c3, c4, c5, Bool.false_eq_true, ne_eq, if_true, if_false,
        not_true_eq_false, not_false_eq_true]
    have hadv := plb_get_component_advance reg component clen next last hl hle
      (not_not.mp c4)
    by_cases c6 : (ops.match_ s c (cstr (plb_get_component reg component clen next last).2.1)).1
        ≠ EOK
    · refine Or.inl ⟨[event_t.match_ c (cstr (plb_get_component reg component clen next
        last).2.1) (ops.match_ s c (cstr (plb_get_component reg component clen next last).2.1)).1
        (ops.match_ s c (cstr (plb_get_component reg component clen next last).2.1)).2.1],
        walk_end_t.answered (ops.match_ s c (cstr (plb_get_component reg component clen next
            last).2.1)).1 (ops.match_ s c (cstr (plb_get_component reg component clen next
            last).2.1)).2.2 par (some c) (ops.match_ s c (cstr (plb_get_component reg component clen
            next last).2.1)).2.1, by simp, fun fuel => ?_⟩
      conv_lhs => unfold libfs_lookup_walk_end
      rw [if_neg c1]
      simp only [c2, c3, c4, c5, c6, Bool.false_eq_true, ne_eq, if_true, if_false,
        not_true_eq_false, not_false_eq_true]
    by_cases c7 : ((ops.match_ s c (cstr (plb_get_component reg component clen next
        last).2.1)).2.1.any (fun t => t.mp_data.mp_active) &&
        (decide (lflag &&& L_MP = 0) || decide ((plb_get_component reg component clen next
            last).2.2.2 < last))) = true
    · refine Or.inl ⟨[event_t.match_ c (cstr (plb_get_component reg component clen next
        last).2.1) (ops.match_ s c (cstr (plb_get_component reg component clen next last).2.1)).1
        (ops.match_ s c (cstr (plb_get_component reg component clen next last).2.1)).2.1],
        walk_end_t.forwarded (plb_get_component reg component clen next last).2.2.2 (ops.match_
            s c (cstr (plb_get_component reg component clen next last).2.1)).2.2 par (some c)
            (ops.match_ s c (cstr (plb_get_component reg component clen next last).2.1)).2.1, by
            simp, fun fuel => ?_⟩
      conv_lhs => unfold libfs_lookup_walk_end
      rw [if_neg c1]
      simp only [c2, c3, c4, c5, c6, c7, Bool.false_eq_true, ne_eq, if_true, if_false,
        not_true_eq_false, not_false_eq_true]
    cases par with
    | none =>
      refine Or.inr ⟨[event_t.match_ c (cstr (plb_get_component reg component clen next
          last).2.1) (ops.match_ s c (cstr (plb_get_component reg component clen next last).2.1)).1
          (ops.match_ s c (cstr (plb_get_component reg component clen next last).2.1)).2.1],
          (ops.match_ s c (cstr (plb_get_component reg component clen next last).2.1)).2.2, some c,
          (ops.match_ s c (cstr (plb_get_component reg component clen next last).2.1)).2.1, by
          omega, hadv.2, fun fuel => ?_⟩
      conv_lhs => unfold libfs_lookup_walk_end
      rw [if_neg c1]
      simp only [c2, c3, c4, c5, c6, c7, Bool.false_eq_true, ne_eq, if_true, if_false,
        not_true_eq_false, not_false_eq_true]
      rfl
    | some p =>
      by_cases c8 : (ops.node_put (ops.match_ s c (cstr (plb_get_component reg component clen
          next last).2.1)).2.2 p).1 ≠ EOK
      · refine Or.inl ⟨[event_t.match_ c (cstr (plb_get_component reg component clen next
          last).2.1) (ops.match_ s c (cstr (plb_get_component reg component clen next last).2.1)).1
          (ops.match_ s c (cstr (plb_get_component reg component clen next last).2.1)).2.1,
          event_t.node_put p (ops.node_put (ops.match_ s c (cstr (plb_get_component reg component
          clen next last).2.1)).2.2 p).1],
          walk_end_t.answered (ops.node_put (ops.match_ s c (cstr (plb_get_component reg
              component clen next last).2.1)).2.2 p).1 (ops.node_put (ops.match_ s c (cstr
              (plb_get_component reg component clen next last).2.1)).2.2 p).2 (some p) (some c)
              (ops.match_ s c (cstr (plb_get_component reg component clen next last).2.1)).2.1, by
              simp, fun fuel => ?_⟩
        conv_lhs => unfold libfs_lookup_walk_end
        rw [if_neg c1]
        simp only [c2, c3, c4, c5, c6, c7, c8, Bool.false_eq_true, ne_eq, if_true, if_false,
        not_true_eq_false, not_false_eq_true]
      · refine Or.inr ⟨[event_t.match_ c (cstr (plb_get_component reg component clen next
          last).2.1) (ops.match_ s c (cstr (plb_get_component reg component clen next last).2.1)).1
          (ops.match_ s c (cstr (plb_get_component reg component clen next last).2.1)).2.1,
          event_t.node_put p (ops.node_put (ops.match_ s c (cstr (plb_get_component reg component
          clen next last).2.1)).2.2 p).1], (ops.node_put (ops.match_ s c (cstr (plb_get_component
          reg component clen next last).2.1)).2.2 p).2, some c, (ops.match_ s c (cstr
          (plb_get_component reg component clen next last).2.1)).2.1, by omega, hadv.2,
          fun fuel => ?_⟩
        conv_lhs => unfold libfs_lookup_walk_end
        rw [if_neg c1]
        simp only [c2, c3, c4, c5, c6, c7, c8, Bool.false_eq_true, ne_eq, if_true, if_false,
        not_true_eq_false, not_false_eq_true]
        rfl

/-- C28: for every request whose `first + len` does not wrap around, every
content of the path lookup buffer and every backend, the walk of
`libfs_lookup`, which is given `len` iterations, does not reach that bound;
and every iteration started at a position `next ≤ last` either leaves the loop
(with an outcome that does not depend on the iterations left) or has
`plb_get_component` move `next` forward by one byte at least and not past
`last` before the walk goes on. -/
theorem libfs_lookup_walk_terminates {σ : Type} (reg : fs_reg_t) (ops : libfs_ops_t σ)
    (fs_handle : Nat) (req : ipc_call_t) (s : σ)
    (hnw : req.arg1 % 2 ^ 32 + req.arg2 % 2 ^ 32 < 2 ^ 32) :
    event_t.unfinished ∉ libfs_lookup reg ops fs_handle req s ∧
      ∀ (s1 : σ) (par cur : Option fs_node_t) (next : Nat) (component : List Nat) (clen : Nat),
        next ≤ req.arg1 % 2 ^ 32 + req.arg2 % 2 ^ 32 →
        (∃ evs out, out ≠ walk_end_t.unfinished ∧
          ∀ fuel, libfs_lookup_walk_end reg ops (req.arg5 % 2 ^ 32)
              (req.arg1 % 2 ^ 32 + req.arg2 % 2 ^ 32) (fuel + 1) s1 par cur next component clen
            = (evs, out)) ∨
        (∃ evs s2 par2 cur2,
          next + 1 ≤ (plb_get_component reg component clen next
              (req.arg1 % 2 ^ 32 + req.arg2 % 2 ^ 32)).2.2.2 ∧
          (plb_get_component reg component clen next
              (req.arg1 % 2 ^ 32 + req.arg2 % 2 ^ 32)).2.2.2
            ≤ req.arg1 % 2 ^ 32 + req.arg2 % 2 ^ 32 ∧
          ∀ fuel, libfs_lookup_walk_end reg ops (req.arg5 % 2 ^ 32)
              (req.arg1 % 2 ^ 32 + req.arg2 % 2 ^ 32) (fuel + 1) s1 par cur next component clen
            = (evs ++ (libfs_lookup_walk_end reg ops (req.arg5 % 2 ^ 32)
                  (req.arg1 % 2 ^ 32 + req.arg2 % 2 ^ 32) fuel s2 par2 cur2
                  (plb_get_component reg component clen next
                    (req.arg1 % 2 ^ 32 + req.arg2 % 2 ^ 32)).2.2.2
                  (plb_get_component reg component clen next
                    (req.arg1 % 2 ^ 32 + req.arg2 % 2 ^ 32)).2.1
                  (plb_get_component reg component clen next
                    (req.arg1 % 2 ^ 32 + req.arg2 % 2 ^ 32)).2.2.1).1,
                (libfs_lookup_walk_end reg ops (req.arg5 % 2 ^ 32)
                  (req.arg1 % 2 ^ 32 + req.arg2 % 2 ^ 32) fuel s2 par2 cur2
                  (plb_get_component reg component clen next
                    (req.arg1 % 2 ^ 32 + req.arg2 % 2 ^ 32)).2.2.2
                  (plb_get_component reg component clen next
                    (req.arg1 % 2 ^ 32 + req.arg2 % 2 ^ 32)).2.1
                  (plb_get_component reg component clen next
                    (req.arg1 % 2 ^ 32 + req.arg2 % 2 ^ 32)).2.2.1).2)) := by
  refine ⟨?_, fun s1 par cur next component clen hle =>
    libfs_lookup_walk_end_iteration reg ops _ _ s1 par cur next component clen hnw hle⟩
  rw [libfs_lookup_eq_start, (libfs_lookup_start_event_facts ops req s _).2.2.2.2.2]
  split
  · exact (single_reply_answer_0 _ _ _ _ _ _).2.1
  · cases (libfs_lookup_start ops req s).2.1 with
    | none => simp
    | some c =>
      simp only []
      split
      · simp
      · intro hm
        rcases List.mem_append.1 hm with hm | hm
        · exact (walk_events_facts _
            (libfs_lookup_walk_end_events reg ops _ _ _ _ _ _ _ _ _)).2.2.2 hm
        · rcases libfs_lookup_after_single ops fs_handle req.arg3 (req.arg5 % 2 ^ 32)
            ((req.arg1 % 2 ^ 32 + req.arg2 % 2 ^ 32) % 2 ^ 32)
            (libfs_lookup_walk_of reg ops req (libfs_lookup_start ops req s).2.2 c).2
            (libfs_lookup_walk_of_finishes reg ops req _ c) with hq | hq
          · rw [hq] at hm
            simp at hm
          · exact hq.2.1 hm

/-- C28, at the path `/a/b` of 4 bytes: the walk ends within its 4 iterations,
and its first iteration moves the position from 0 to 2. -/
theorem libfs_lookup_walk_terminates_witness :
    event_t.unfinished ∉ libfs_lookup (demo_reg [47, 97, 47, 98]) (demo_ops (fun _ => EOK)) 7
        ⟨0, 4, 3, 2 ^ 32 - 1, 0⟩ () ∧
      (plb_get_component (demo_reg [47, 97, 47, 98]) [] 0 0 4).2.2.2 = 2 :=
  ⟨(libfs_lookup_walk_terminates (demo_reg [47, 97, 47, 98]) (demo_ops (fun _ => EOK)) 7
    ⟨0, 4, 3, 2 ^ 32 - 1, 0⟩ () (by decide)).1, by decide⟩

end HelenOS
